import Mathlib

/-!
# Resource-adapter core of the gridmanager

Shallow embedding of

* `src/annexd/OnDemandRequest.cpp` (the idempotent on-demand submit functor and
  its command-state ledger), and
* `src/condor_gridmanager/globusresource.cpp` (the job-manager slot limiter),

followed by the theorems that settle the claims about them.
-/

set_option autoImplicit false

/-! ## Association lists (attribute tables and the ledger table) -/

namespace Assoc

/-- First value bound to `key`, if any. -/
def get {β : Type} : List (String × β) → String → Option β
  | [], _ => none
  | (k, v) :: rest, key => if k = key then some v else get rest key

/-- Apply `f` to every value bound to `key`; a table without `key` is unchanged. -/
def adjust {β : Type} (key : String) (f : β → β) : List (String × β) → List (String × β)
  | [] => []
  | (k, v) :: rest =>
    if k = key then (k, f v) :: adjust key f rest else (k, v) :: adjust key f rest

/-- Remove every binding of `key`. -/
def del {β : Type} (key : String) : List (String × β) → List (String × β)
  | [] => []
  | (k, v) :: rest => if k = key then del key rest else (k, v) :: del key rest

/-- Bind `key` to `v`, replacing an earlier binding. -/
def put {β : Type} (key : String) (v : β) (t : List (String × β)) : List (String × β) :=
  (key, v) :: del key t

end Assoc

/-! ## The command-state ledger -/

namespace Annex

/-- The constant `INT_MAX` of a 32-bit `int`. -/
def INT_MAX : Int := 2147483647

/-- The value a 32-bit `int` holds after the number `n` is stored in it (two's complement:
`INT_MAX + 1` is `INT_MIN`). -/
def wrapInt (n : Int) : Int := (n + 2147483648) % 4294967296 - 2147483648

/-- Attribute values of a ledger entry.  The source writes a string attribute as the
quoted text of `formatstr( quoted, "\"%s\"", s )` and the try count as the decimal text
of `formatstr( value, "%d", tryCount )`; the two literal forms are the two constructors. -/
inductive Value where
  | str (s : String)
  | int (n : Int)
  deriving DecidableEq, Repr

/-- A ClassAd: attribute name to value. -/
abbrev ClassAd := List (String × Value)

/-- The call `ad->LookupString( name, out )`: `out` keeps its old content `cur` unless the
attribute is present and a string. -/
def ClassAd.LookupString (ad : ClassAd) (name : String) (cur : String) : String :=
  match Assoc.get ad name with
  | some (Value.str s) => s
  | _ => cur

/-- The call `ad->LookupInteger( name, out )` with `out` an `int`: `out` keeps its old
content `cur` unless the attribute is present and an integer, whose value is then stored in
the `int`. -/
def ClassAd.LookupInteger (ad : ClassAd) (name : String) (cur : Int) : Int :=
  match Assoc.get ad name with
  | some (Value.int n) => wrapInt n
  | _ => cur

/-- The call `ad->Assign( name, value )`. -/
def ClassAd.Assign (ad : ClassAd) (name : String) (v : Value) : ClassAd :=
  Assoc.put name v ad

/-- One operation recorded inside a ledger transaction. -/
inductive LogOp where
  | SetAttribute (key name : String) (v : Value)
  | DeleteAttribute (key name : String)
  deriving DecidableEq, Repr

/-- Modelled from the spec: the `ClassAdCollection` behind `commandState`
(`classad_collection.h` is not among the sources).  It is the durable mapping from a
command identifier to its fields, with the interface `BeginTransaction`, `SetField`,
`DeleteField`, `CommitTransaction`, `Lookup`; a transaction changes all its fields
together.  Creating an entry is a separate operation of the caller, so an operation on a
key that has no entry changes nothing. -/
structure ClassAdCollection where
  table : List (String × ClassAd)
  deriving DecidableEq, Repr

/-- The call `c->Lookup( HashKey( key ), ad )`. -/
def ClassAdCollection.Lookup (c : ClassAdCollection) (key : String) : Option ClassAd :=
  Assoc.get c.table key

/-- Effect of one logged operation on the table. -/
def LogOp.play : LogOp → List (String × ClassAd) → List (String × ClassAd)
  | LogOp.SetAttribute key name v, t => Assoc.adjust key (fun ad => Assoc.put name v ad) t
  | LogOp.DeleteAttribute key name, t => Assoc.adjust key (fun ad => Assoc.del name ad) t

/-- A whole transaction, `BeginTransaction(); ops...; CommitTransaction();`: the
operations take effect together, in order, at the commit. -/
def ClassAdCollection.Transaction (c : ClassAdCollection) (ops : List LogOp) :
    ClassAdCollection :=
  ⟨ops.foldl (fun t op => op.play t) c.table⟩

/-- The attribute `name` of the committed entry `key`. -/
def ClassAdCollection.attr (c : ClassAdCollection) (key name : String) : Option Value :=
  (c.Lookup key).bind (fun ad => Assoc.get ad name)

/-! ## OnDemandRequest -/

/-- Modelled from the spec: the tokenizer `StringList( s, "," )` of `string_list.h`
(not among the sources), which yields the non-empty comma-separated items of the
persisted remote identifiers. -/
def StringList.tokens (s : String) : List String :=
  (s.splitOn ",").filter (fun t => t ≠ "")

/-- The call `sl.print_to_delimed_string( "," )` on the list built from `ids`. -/
def StringList.print_to_delimed_string (ids : List String) : String :=
  String.intercalate "," ids

/-- The data members of `OnDemandRequest` (the gahp handle, `reply` and `scratchpad`
are passed to the member functions explicitly). -/
structure OnDemandRequest where
  service_url : String
  public_key_file : String
  secret_key_file : String
  commandID : String
  clientToken : String
  bulkRequestID : String
  instanceIDs : List String
  targetCapacity : Int
  instanceType : String
  imageID : String
  instanceProfileARN : String
  deriving DecidableEq, Repr

/-- The constructor `OnDemandRequest::OnDemandRequest`.  `generateClientToken` stands for
the function of `generate-id.h` (not among the sources); `reply` is `none` for a NULL
reply ad.  The result is the new object and the reply ad. -/
def OnDemandRequest.new (r : Option ClassAd) (su pkf skf : String) (c : ClassAdCollection)
    (cid annexID : String) (generateClientToken : String → String) :
    OnDemandRequest × Option ClassAd :=
  let fromLog : String × String × List String :=
    match c.Lookup cid with
    | some commandState =>
      let clientToken := commandState.LookupString "State_ClientToken" ""
      let bulkRequestID := commandState.LookupString "State_BulkRequestID" ""
      let iidString := commandState.LookupString "State_InstanceIDs" ""
      (clientToken, bulkRequestID,
        if iidString ≠ "" then StringList.tokens iidString else [])
    | none => ("", "", [])
  let mk (tok : String) : OnDemandRequest :=
    { service_url := su, public_key_file := pkf, secret_key_file := skf,
      commandID := cid, clientToken := tok, bulkRequestID := fromLog.2.1,
      instanceIDs := fromLog.2.2, targetCapacity := 0, instanceType := "",
      imageID := "", instanceProfileARN := "" }
  -- Generate a client token if we didn't get one from the log.
  if fromLog.1 = "" then
    let tok := generateClientToken annexID
    (mk tok, r.map (fun reply => reply.Assign "ClientToken" (Value.str tok)))
  else
    (mk fromLog.1, r)

/-- The operations of the transaction in `OnDemandRequest::log()`. -/
def OnDemandRequest.logOps (q : OnDemandRequest) : List LogOp :=
  [ if q.clientToken ≠ "" then
      LogOp.SetAttribute q.commandID "State_ClientToken" (Value.str q.clientToken)
    else LogOp.DeleteAttribute q.commandID "State_ClientToken",
    if q.bulkRequestID ≠ "" then
      LogOp.SetAttribute q.commandID "State_BulkRequestID" (Value.str q.bulkRequestID)
    else LogOp.DeleteAttribute q.commandID "State_BulkRequestID",
    if q.instanceIDs.length ≠ 0 then
      LogOp.SetAttribute q.commandID "State_InstanceIDs"
        (Value.str (StringList.print_to_delimed_string q.instanceIDs))
    else LogOp.DeleteAttribute q.commandID "State_InstanceIDs" ]

/-- The member function `OnDemandRequest::log()`.  The constructor dereferences the
ledger pointer, so `commandState` is never NULL for a constructed object and the first
guard of the source never fires. -/
def OnDemandRequest.log (q : OnDemandRequest) (commandState : ClassAdCollection) :
    ClassAdCollection :=
  if q.commandID = "" then commandState
  else commandState.Transaction q.logOps

/-- Modelled from the spec: the result codes of a functor (`Functor.h` and the daemon-core
header that defines them are not among the sources).  `KEEP_STREAM` asks the caller to
poll again, `PASS_STREAM` hands over to the next functor, `FALSE` reports failure. -/
inductive StreamResult where
  | KEEP_STREAM
  | PASS_STREAM
  | FALSE
  deriving DecidableEq, Repr

/-- Modelled from the spec: the return value of a gahp command whose result is not yet
available (`gahp-client.h` is not among the sources).  The command channel returns a
tri-state result, pending being distinct from success (0); the proofs use nothing else
about the number. -/
def GAHPCLIENT_COMMAND_PENDING : Int := -100

/-- Modelled from the spec: the return value of a gahp command that could not be issued
yet (`gahp-client.h` is not among the sources); like pending, distinct from success. -/
def GAHPCLIENT_COMMAND_NOT_SUBMITTED : Int := -101

/-- What one call of `gahp->ec2_vm_start(...)` hands back: the return code, the content of
the output vector `instanceIDs` after the call, the output `errorCode`, and the text of
`gahp->getErrorString()`. -/
structure GahpResult where
  rc : Int
  instanceIDs : List String
  errorCode : String
  errorString : String
  deriving DecidableEq, Repr

/-- The state that outlives one call of `operator()`: the ledger, and the function-static
`incrementTryCount` (initially `true` in every process). -/
structure Process where
  commandState : ClassAdCollection
  incrementTryCount : Bool
  deriving DecidableEq, Repr

/-- Record of one invocation of `ec2_vm_start`: the client token passed, whether this
invocation of `operator()` incremented the try count, and the committed ledger at the
moment of the call. -/
structure StartCall where
  clientToken : String
  incremented : Bool
  committed : ClassAdCollection
  deriving DecidableEq, Repr

/-- Everything one call of `operator()` produces. -/
structure Outcome where
  rc : StreamResult
  request : OnDemandRequest
  process : Process
  reply : ClassAd
  scratchpad : ClassAd
  call : Option StartCall
  timerReset : Bool
  deriving DecidableEq, Repr

/-- State of `operator()` at the moment it invokes `ec2_vm_start`. -/
structure AtCall where
  tryCount : Int
  process : Process
  deriving DecidableEq, Repr

/-- Lines 143-163 of `operator()`: read the try count, increment and commit it when the
static flag is set, then `log()`.  `tryCount` is an `int`, so `++tryCount` at `INT_MAX`
gives `INT_MIN`.  The entry is dereferenced without a check, so a ledger without an entry
for the command has no defined behaviour (`none`). -/
def OnDemandRequest.beforeStart (q : OnDemandRequest) (p : Process) : Option AtCall :=
  match p.commandState.Lookup q.commandID with
  | none => none
  | some commandAd =>
    let tryCount := commandAd.LookupInteger "State_TryCount" 0
    let st : AtCall :=
      if p.incrementTryCount then
        { tryCount := wrapInt (tryCount + 1),
          process :=
            { commandState := p.commandState.Transaction
                [LogOp.SetAttribute q.commandID "State_TryCount"
                  (Value.int (wrapInt (tryCount + 1)))],
              incrementTryCount := false } }
      else { tryCount := tryCount, process := p }
    some { st with process := { st.process with commandState := q.log st.process.commandState } }

/-- Lines 190-206 of `operator()`: the branch `rc == 0`. -/
def OnDemandRequest.succeed (q : OnDemandRequest) (p : Process) (reply scratchpad : ClassAd)
    (call : Option StartCall) : Outcome :=
  let reply1 := reply.Assign "BulkRequestID" (Value.str q.bulkRequestID)
  let scratchpad1 := scratchpad.Assign "BulkRequestID" (Value.str q.bulkRequestID)
  let logged := q.log p.commandState
  let reply2 := reply1.Assign "Result" (Value.str "Success")
  let cleared := logged.Transaction [LogOp.DeleteAttribute q.commandID "State_TryCount"]
  { rc := StreamResult.PASS_STREAM, request := q,
    process := { p with commandState := cleared },
    reply := reply2, scratchpad := scratchpad1, call := call, timerReset := true }

/-- Text of the failure message of `operator()`. -/
def failureMessage (g : GahpResult) : String :=
  "Bulk (ODI) start request failed: '" ++ g.errorCode ++ "' (" ++ toString g.rc ++ "): '"
    ++ g.errorString ++ "'."

/-- Lines 207-224 of `operator()`: the branch `rc != 0`. -/
def OnDemandRequest.fail (q : OnDemandRequest) (p : Process) (reply scratchpad : ClassAd)
    (tryCount : Int) (g : GahpResult) (call : Option StartCall) : Outcome :=
  if tryCount < 3 then
    { rc := StreamResult.KEEP_STREAM, request := q, process := p, reply := reply,
      scratchpad := scratchpad, call := call, timerReset := true }
  else
    { rc := StreamResult.FALSE, request := q, process := p,
      reply := (reply.Assign "Result" (Value.str "Failure")).Assign "ErrorString"
        (Value.str (failureMessage g)),
      scratchpad := scratchpad, call := call, timerReset := true }

/-- The object after `ec2_vm_start` has returned `g` (lines 170-180): the output vector
`instanceIDs` holds what the gahp put there, and the bulk request ID becomes the client
token when the call succeeded with at least one instance. -/
def OnDemandRequest.received (q : OnDemandRequest) (g : GahpResult) : OnDemandRequest :=
  if g.rc = 0 ∧ g.instanceIDs.length ≠ 0 then
    { q with instanceIDs := g.instanceIDs, bulkRequestID := q.clientToken }
  else { q with instanceIDs := g.instanceIDs }

/-- The test `rc == GAHPCLIENT_COMMAND_NOT_SUBMITTED || rc == GAHPCLIENT_COMMAND_PENDING`. -/
def isPending (rc : Int) : Bool :=
  decide (rc = GAHPCLIENT_COMMAND_NOT_SUBMITTED ∨ rc = GAHPCLIENT_COMMAND_PENDING)

/-- The functor call `OnDemandRequest::operator()`.  `g` is what `ec2_vm_start` hands back
if this invocation calls it. -/
def OnDemandRequest.call (q : OnDemandRequest) (p : Process) (reply scratchpad : ClassAd)
    (g : GahpResult) : Option Outcome :=
  -- If we already know the BulkRequestID, we don't need to do anything.
  if q.bulkRequestID ≠ "" then
    some (q.succeed p reply scratchpad none)
  else
    match q.beforeStart p with
    | none => none
    | some st =>
      let sc : StartCall :=
        { clientToken := q.clientToken, incremented := p.incrementTryCount,
          committed := st.process.commandState }
      let q2 := q.received g
      if isPending g.rc then
        -- We should exit here the first time.
        some { rc := StreamResult.KEEP_STREAM, request := q2, process := st.process,
               reply := reply, scratchpad := scratchpad, call := some sc,
               timerReset := false }
      else
        let p3 : Process := { st.process with incrementTryCount := true }
        if g.rc = 0 then some (q2.succeed p3 reply scratchpad (some sc))
        else some (q2.fail p3 reply scratchpad st.tryCount g (some sc))

/-- Any series of invocations of `operator()` on one object, the `i`-th one receiving
`gs[i]` from the gahp; the series ends early when an invocation has no defined
behaviour.  The result is the `ec2_vm_start` calls made, oldest first, and the process
state at the end. -/
def OnDemandRequest.invokeAll (q : OnDemandRequest) (p : Process) (reply scratchpad : ClassAd) :
    List GahpResult → List StartCall × Process
  | [] => ([], p)
  | g :: gs =>
    match q.call p reply scratchpad g with
    | none => ([], p)
    | some out =>
      let rest := OnDemandRequest.invokeAll out.request out.process out.reply out.scratchpad gs
      (out.call.toList ++ rest.1, rest.2)

/-- The try count `operator()` reads for `key` (zero when there is none). -/
def ClassAdCollection.tryCount (c : ClassAdCollection) (key : String) : Int :=
  match c.Lookup key with
  | some ad => ad.LookupInteger "State_TryCount" 0
  | none => 0

/-- What a logged operation does to the entry stored under `key`. -/
def LogOp.effect (key : String) : LogOp → ClassAd → ClassAd
  | LogOp.SetAttribute k name v, ad => if k = key then Assoc.put name v ad else ad
  | LogOp.DeleteAttribute k name, ad => if k = key then Assoc.del name ad else ad

/-- The ledger `operator()` has committed when it reaches `ec2_vm_start`. -/
def OnDemandRequest.ledgerAtCall (q : OnDemandRequest) (p : Process) : ClassAdCollection :=
  q.log (if p.incrementTryCount then
      p.commandState.Transaction
        [LogOp.SetAttribute q.commandID "State_TryCount"
          (Value.int (wrapInt (p.commandState.tryCount q.commandID + 1)))]
    else p.commandState)

/-- The record of the `ec2_vm_start` call made by an invocation that reaches it. -/
def OnDemandRequest.startCall (q : OnDemandRequest) (p : Process) : StartCall :=
  { clientToken := q.clientToken, incremented := p.incrementTryCount,
    committed := q.ledgerAtCall p }

/-- The value of the local `tryCount` of `operator()` when it invokes `ec2_vm_start`. -/
def OnDemandRequest.tryCountAtCall (q : OnDemandRequest) (p : Process) : Int :=
  if p.incrementTryCount then wrapInt (p.commandState.tryCount q.commandID + 1)
  else p.commandState.tryCount q.commandID

end Annex

/-! ## GlobusResource: the job-manager slot limiter -/

namespace Globus

/-- Identity of a (non-NULL) `GlobusJob` object. -/
abbrev GlobusJob := Nat

/-- Modelled from the spec: the limit that stands for "unlimited" when the configured
capacity is 0 (`GM_RESOURCE_UNLIMITED` of `baseresource.h`, not among the sources). -/
def GM_RESOURCE_UNLIMITED : Int := 1000000000

/-- The constant `DEFAULT_MAX_JOBMANAGERS_PER_RESOURCE`. -/
def DEFAULT_MAX_JOBMANAGERS_PER_RESOURCE : Int := 10

/-- The limiter part of a `GlobusResource`: the two limits, the four queues, and the jobs
on which `SetEvaluateState()` has been called, oldest first.  The queue class
`List<GlobusJob>` (`list.h`) is not among the sources; it is modelled from the spec as a
FIFO queue with linear scan-and-remove: `Append` adds at the tail, `Delete` removes the
first occurrence and reports whether there was one, `Head` is the first item. -/
structure GlobusResource where
  submitJMLimit : Int
  restartJMLimit : Int
  submitJMsWanted : List GlobusJob
  submitJMsAllowed : List GlobusJob
  restartJMsWanted : List GlobusJob
  restartJMsAllowed : List GlobusJob
  evaluated : List GlobusJob
  deriving DecidableEq, Repr

/-- The limiter state the constructor leaves: default limits, empty queues. -/
def GlobusResource.new : GlobusResource :=
  { submitJMLimit := DEFAULT_MAX_JOBMANAGERS_PER_RESOURCE / 2,
    restartJMLimit :=
      DEFAULT_MAX_JOBMANAGERS_PER_RESOURCE - DEFAULT_MAX_JOBMANAGERS_PER_RESOURCE / 2,
    submitJMsWanted := [], submitJMsAllowed := [],
    restartJMsWanted := [], restartJMsAllowed := [], evaluated := [] }

/-- Empty queues under the given limits. -/
def GlobusResource.empty (submitJMLimit restartJMLimit : Int) : GlobusResource :=
  { submitJMLimit := submitJMLimit, restartJMLimit := restartJMLimit,
    submitJMsWanted := [], submitJMsAllowed := [],
    restartJMsWanted := [], restartJMsAllowed := [], evaluated := [] }

/-- The test `submitJMsAllowed.Length() + restartJMsAllowed.Length() <
submitJMLimit + restartJMLimit`. -/
def GlobusResource.hasRoom (s : GlobusResource) : Bool :=
  decide (((s.submitJMsAllowed.length : Int) + (s.restartJMsAllowed.length : Int)) <
    s.submitJMLimit + s.restartJMLimit)

/-- The member function `GlobusResource::RequestJM`: the returned flag and the new state. -/
def GlobusResource.RequestJM (s : GlobusResource) (job : GlobusJob) (is_submit : Bool) :
    Bool × GlobusResource :=
  if is_submit then
    if job ∈ s.submitJMsWanted then (false, s)
    else if job ∈ s.submitJMsAllowed then (true, s)
    else if s.hasRoom then
      (true, { s with submitJMsAllowed := s.submitJMsAllowed ++ [job] })
    else
      (false, { s with submitJMsWanted := s.submitJMsWanted ++ [job] })
  else
    if job ∈ s.restartJMsWanted then (false, s)
    else if job ∈ s.restartJMsAllowed then (true, s)
    else if s.hasRoom then
      (true, { s with restartJMsAllowed := s.restartJMsAllowed ++ [job] })
    else
      (false, { s with restartJMsWanted := s.restartJMsWanted ++ [job] })

/-- The condition of the outer `if` of `JMComplete`, with its side effects:
`job == NULL || submitJMsAllowed.Delete( job ) || restartJMsAllowed.Delete( job )`,
evaluated left to right and stopping at the first true operand. -/
def GlobusResource.vacate (s : GlobusResource) (job : Option GlobusJob) :
    Bool × GlobusResource :=
  match job with
  | none => (true, s)
  | some j =>
    if j ∈ s.submitJMsAllowed then
      (true, { s with submitJMsAllowed := s.submitJMsAllowed.erase j })
    else if j ∈ s.restartJMsAllowed then
      (true, { s with restartJMsAllowed := s.restartJMsAllowed.erase j })
    else (false, s)

/-- The body of the outer `if` of `JMComplete` (lines 316-341): promote one waiting job
when there is room and somebody waits.  The queue `Head()` is taken from is never empty
there (the tests before it exclude that), so the `none` cases are never reached. -/
def GlobusResource.promote (s : GlobusResource) : GlobusResource :=
  if s.hasRoom ∧ (s.submitJMsWanted.length ≠ 0 ∨ s.restartJMsWanted.length ≠ 0) then
    if s.submitJMsWanted.length = 0 ∨
        (s.restartJMsWanted.length ≠ 0 ∧
          (s.restartJMsAllowed.length : Int) < s.restartJMLimit) then
      match s.restartJMsWanted.head? with
      | none => s
      | some queued_job =>
        { s with restartJMsWanted := s.restartJMsWanted.erase queued_job,
                 restartJMsAllowed := s.restartJMsAllowed ++ [queued_job],
                 evaluated := s.evaluated ++ [queued_job] }
    else
      match s.submitJMsWanted.head? with
      | none => s
      | some queued_job =>
        { s with submitJMsWanted := s.submitJMsWanted.erase queued_job,
                 submitJMsAllowed := s.submitJMsAllowed ++ [queued_job],
                 evaluated := s.evaluated ++ [queued_job] }
  else s

/-- The member function `GlobusResource::JMComplete`; `none` is the NULL pointer. -/
def GlobusResource.JMComplete (s : GlobusResource) (job : Option GlobusJob) :
    GlobusResource :=
  if (s.vacate job).1 then (s.vacate job).2.promote
  else
    match job with
    | none => s
    | some j =>
      -- We only have to check the Wanted queues if the job wasn't in
      -- the Allowed queues
      { s with submitJMsWanted := s.submitJMsWanted.erase j,
               restartJMsWanted := s.restartJMsWanted.erase j }

/-- The member function `GlobusResource::JMAlreadyRunning`. -/
def GlobusResource.JMAlreadyRunning (s : GlobusResource) (job : GlobusJob) :
    GlobusResource :=
  { s with restartJMsAllowed := s.restartJMsAllowed ++ [job] }

/-- The limits `Reconfig` computes from the configured
`GRIDMANAGER_MAX_JOBMANAGERS_PER_RESOURCE`. -/
def GlobusResource.setLimits (s : GlobusResource) (tmp_int : Int) : GlobusResource :=
  if tmp_int = 0 then
    { s with submitJMLimit := GM_RESOURCE_UNLIMITED, restartJMLimit := GM_RESOURCE_UNLIMITED }
  else
    let tmp_int := if tmp_int < 2 then 2 else tmp_int
    { s with submitJMLimit := tmp_int / 2, restartJMLimit := tmp_int - tmp_int / 2 }

/-- The `while` loop of `Reconfig`, run for at most `fuel` rounds. -/
def GlobusResource.widen : Nat → GlobusResource → GlobusResource
  | 0, s => s
  | fuel + 1, s =>
    if s.hasRoom ∧ (s.submitJMsWanted.length ≠ 0 ∨ s.restartJMsWanted.length ≠ 0) then
      GlobusResource.widen fuel (s.JMComplete none)
    else s

/-- The limiter part of `GlobusResource::Reconfig`, `tmp_int` being the configured
value.  Every round of the loop moves one waiting job, so the number of waiting jobs is
enough fuel. -/
def GlobusResource.Reconfig (s : GlobusResource) (tmp_int : Int) : GlobusResource :=
  let s1 := s.setLimits tmp_int
  GlobusResource.widen (s1.submitJMsWanted.length + s1.restartJMsWanted.length) s1

/-- A call of one of the four limiter operations. -/
inductive Op where
  | RequestJM (job : GlobusJob) (is_submit : Bool)
  | JMComplete (job : Option GlobusJob)
  | JMAlreadyRunning (job : GlobusJob)
  | Reconfig (tmp_int : Int)
  deriving DecidableEq, Repr

/-- The state after one call. -/
def GlobusResource.step (s : GlobusResource) : Op → GlobusResource
  | Op.RequestJM job is_submit => (s.RequestJM job is_submit).2
  | Op.JMComplete job => s.JMComplete job
  | Op.JMAlreadyRunning job => s.JMAlreadyRunning job
  | Op.Reconfig tmp_int => s.Reconfig tmp_int

/-- The state after a sequence of calls. -/
def GlobusResource.run (s : GlobusResource) (ops : List Op) : GlobusResource :=
  ops.foldl GlobusResource.step s

/-- Number of slots held, `submitJMsAllowed.Length() + restartJMsAllowed.Length()`. -/
def GlobusResource.held (s : GlobusResource) : Int :=
  (s.submitJMsAllowed.length : Int) + (s.restartJMsAllowed.length : Int)

/-- The slot bound. -/
def GlobusResource.SlotBound (s : GlobusResource) : Prop :=
  s.held ≤ s.submitJMLimit + s.restartJMLimit

instance (s : GlobusResource) : Decidable s.SlotBound := by
  unfold GlobusResource.SlotBound; infer_instance

/-- A call that cannot push the number of held slots over the limit: `JMAlreadyRunning`
appends without a test, so it needs room beforehand, and `Reconfig` evicts nobody, so the
limit it installs must not be below the slots already held. -/
def Op.withinCapacity (s : GlobusResource) : Op → Prop
  | Op.RequestJM _ _ => True
  | Op.JMComplete _ => True
  | Op.JMAlreadyRunning _ => s.held < s.submitJMLimit + s.restartJMLimit
  | Op.Reconfig tmp_int =>
    s.held ≤ (s.setLimits tmp_int).submitJMLimit + (s.setLimits tmp_int).restartJMLimit

/-- Every call of the sequence is within capacity in the state it is made in. -/
def GlobusResource.allWithinCapacity : GlobusResource → List Op → Prop
  | _, [] => True
  | s, op :: ops => op.withinCapacity s ∧ GlobusResource.allWithinCapacity (s.step op) ops

/-- States reachable from empty queues through `RequestJM` and `JMComplete`. -/
inductive Reachable : GlobusResource → Prop where
  | empty (submitJMLimit restartJMLimit : Int) :
      Reachable (GlobusResource.empty submitJMLimit restartJMLimit)
  | RequestJM (s : GlobusResource) (job : GlobusJob) (is_submit : Bool) :
      Reachable s → Reachable (s.RequestJM job is_submit).2
  | JMComplete (s : GlobusResource) (job : Option GlobusJob) :
      Reachable s → Reachable (s.JMComplete job)

/-- The job holds or waits for a slot of the submit kind. -/
def GlobusResource.inSubmit (s : GlobusResource) (job : GlobusJob) : Prop :=
  job ∈ s.submitJMsAllowed ∨ job ∈ s.submitJMsWanted

/-- The job holds or waits for a slot of the restart kind. -/
def GlobusResource.inRestart (s : GlobusResource) (job : GlobusJob) : Prop :=
  job ∈ s.restartJMsAllowed ∨ job ∈ s.restartJMsWanted

/-- The job occurs in none of the four queues. -/
def GlobusResource.absent (s : GlobusResource) (job : GlobusJob) : Prop :=
  job ∉ s.submitJMsAllowed ∧ job ∉ s.restartJMsAllowed ∧
    job ∉ s.submitJMsWanted ∧ job ∉ s.restartJMsWanted

/-- Within one kind no job occurs twice over the allowed and the wanted queue. -/
def GlobusResource.NoDup (s : GlobusResource) : Prop :=
  (s.submitJMsAllowed ++ s.submitJMsWanted).Nodup ∧
    (s.restartJMsAllowed ++ s.restartJMsWanted).Nodup

/-- The condition of the `while` loop of `Reconfig` (and of the inner `if` of
`JMComplete`): a slot is free and somebody waits. -/
def GlobusResource.canPromote (s : GlobusResource) : Prop :=
  s.hasRoom = true ∧ (s.submitJMsWanted.length ≠ 0 ∨ s.restartJMsWanted.length ≠ 0)

/-- Number of waiting jobs. -/
def GlobusResource.waiting (s : GlobusResource) : Nat :=
  s.submitJMsWanted.length + s.restartJMsWanted.length

/-- State `r` arises from `s` by moving jobs from the head of a wanted queue to the tail
of the allowed queue of the same kind, signalling each of them: `ms` are the submit jobs
moved and `mr` the restart jobs moved, in order. -/
def GlobusResource.MovedTo (s r : GlobusResource) (ms mr : List GlobusJob) : Prop :=
  s.submitJMsWanted = ms ++ r.submitJMsWanted ∧
  r.submitJMsAllowed = s.submitJMsAllowed ++ ms ∧
  s.restartJMsWanted = mr ++ r.restartJMsWanted ∧
  r.restartJMsAllowed = s.restartJMsAllowed ++ mr ∧
  r.submitJMLimit = s.submitJMLimit ∧ r.restartJMLimit = s.restartJMLimit ∧
  ∃ ev, r.evaluated = s.evaluated ++ ev ∧ ev.Perm (ms ++ mr)

/-- While somebody waits, no slot is free. -/
def GlobusResource.Full (s : GlobusResource) : Prop :=
  s.waiting ≠ 0 → s.submitJMLimit + s.restartJMLimit ≤ s.held

/-- The example of the preference rule: limits 5 and 5, no submit slot and four restart
slots held, one job waiting of each kind (job 10 for submit, job 20 for restart). -/
def headroomExample : GlobusResource :=
  { submitJMLimit := 5, restartJMLimit := 5,
    submitJMsWanted := [10], submitJMsAllowed := [],
    restartJMsWanted := [20], restartJMsAllowed := [1, 2, 3, 4], evaluated := [] }

/-- A state reached from empty queues under the limits 1 and 1: jobs 1 and 2 hold the two
slots with submit requests, job 3 waits for a submit slot and job 4 for a restart slot. -/
def oneFreeExample : GlobusResource :=
  ((((GlobusResource.empty 1 1).RequestJM 1 true).2.RequestJM 2 true).2.RequestJM 3
    true).2.RequestJM 4 false |>.2

/-- The static member function `GlobusResource::HashName`,
`hash_name.sprintf( "gt2 %s#%s", resource_name, proxy_subject )`. -/
def HashName (resource_name proxy_subject : String) : String :=
  "gt2 " ++ resource_name ++ "#" ++ proxy_subject

/-- The job holds an allowed slot of one kind while it also holds or waits for a slot of
the other kind. -/
def GlobusResource.twoKinds (s : GlobusResource) (job : GlobusJob) : Prop :=
  (job ∈ s.submitJMsAllowed ∧ s.inRestart job) ∨
    (job ∈ s.restartJMsAllowed ∧ s.inSubmit job)

/-- A state reached from empty queues under the limits 1 and 0: job 1 holds the slot and
job 2 waits for a slot of each kind. -/
def waitsTwiceExample : GlobusResource :=
  (((GlobusResource.empty 1 0).RequestJM 1 true).2.RequestJM 2 true).2.RequestJM 2 false |>.2

end Globus

/-! ## BoincResource: batch aggregation, recovery and lease renewal -/

namespace Boinc

/-- Address of a `BoincJob` object.  A `std::set<BoincJob *>` is ordered by address, so
its `begin()` is the member with the smallest address. -/
abbrev BoincJob := Nat

/-- The enumeration `BatchSubmitStatus`. -/
inductive BatchSubmitStatus where
  | BatchUnsubmitted
  | BatchMaybeSubmitted
  | BatchSubmitting
  | BatchSubmitted
  | BatchFailed
  deriving DecidableEq, Repr

/-- The integer value of an enumerator. -/
def BatchSubmitStatus.toInt : BatchSubmitStatus → Int
  | BatchSubmitStatus.BatchUnsubmitted => 0
  | BatchSubmitStatus.BatchMaybeSubmitted => 1
  | BatchSubmitStatus.BatchSubmitting => 2
  | BatchSubmitStatus.BatchSubmitted => 3
  | BatchSubmitStatus.BatchFailed => 4

/-- The constant `DEFAULT_LEASE_DURATION`. -/
def DEFAULT_LEASE_DURATION : Int := 6 * 60 * 60

/-- The constant `SUBMIT_DELAY`. -/
def SUBMIT_DELAY : Int := 2

/-- The struct `BoincBatch`; `ptr` is the address of the object, by which
`m_activeSubmitBatch` and `m_activeLeaseBatch` refer to it. -/
structure BoincBatch where
  ptr : Nat
  m_batch_name : String
  m_submit_status : BatchSubmitStatus
  m_lease_time : Int
  m_last_insert : Int
  m_error_message : String
  m_jobs : Finset BoincJob
  m_jobs_ready : Finset BoincJob

instance : DecidableEq BoincBatch := fun a b =>
  decidable_of_iff
    (a.ptr = b.ptr ∧ a.m_batch_name = b.m_batch_name ∧
      a.m_submit_status = b.m_submit_status ∧ a.m_lease_time = b.m_lease_time ∧
      a.m_last_insert = b.m_last_insert ∧ a.m_error_message = b.m_error_message ∧
      a.m_jobs = b.m_jobs ∧ a.m_jobs_ready = b.m_jobs_ready)
    (by cases a; cases b; simp)

/-- The two timers of the resource that the modelled functions re-arm. -/
inductive Timer where
  | m_submitTid
  | m_leaseTid
  deriving DecidableEq, Repr

/-- The two gahp clients whose pending requests the modelled functions purge. -/
inductive Gahp where
  | m_submitGahp
  | m_leaseGahp
  deriving DecidableEq, Repr

/-- One call of `m_submitGahp->boinc_submit( name, jobs )`: the batch as it was at that
moment, and whether the call started a new command (no submit command was active). -/
structure SubmitCall where
  batch : BoincBatch
  isNew : Bool

instance : DecidableEq SubmitCall := fun a b =>
  decidable_of_iff (a.batch = b.batch ∧ a.isNew = b.isNew) (by cases a; cases b; simp)

/-- One call of `m_leaseGahp->boinc_set_lease( name, time )`: the batch as it was at that
moment, the expiry sent, and whether the call started a new command. -/
structure LeaseCall where
  batch : BoincBatch
  time : Int
  isNew : Bool

instance : DecidableEq LeaseCall := fun a b =>
  decidable_of_iff (a.batch = b.batch ∧ a.time = b.time ∧ a.isNew = b.isNew)
    (by cases a; cases b; simp)

/-- The batch part of a `BoincResource`.  `nextPtr` is the address the next
`new BoincBatch()` returns.  The last five fields record what the functions did to their
collaborators, oldest first: the `boinc_submit` and `boinc_set_lease` calls, the sets of
jobs on whose members `SetEvaluateState()` was called, the sets of jobs on whose members
`UpdateJobLeaseSent( t )` was called, the `Reset_Timer` calls and the
`purgePendingRequests()` calls. -/
structure BoincResource where
  m_batches : List BoincBatch
  m_activeSubmitBatch : Option Nat
  m_activeLeaseBatch : Option Nat
  m_activeLeaseTime : Int
  m_statusBatches : List String
  nextPtr : Nat
  submitCalls : List SubmitCall
  leaseCalls : List LeaseCall
  evaluated : List (Finset BoincJob)
  leaseSent : List (Finset BoincJob × Int)
  timers : List (Timer × Int)
  purged : List Gahp

instance : DecidableEq BoincResource := fun a b =>
  decidable_of_iff
    (a.m_batches = b.m_batches ∧ a.m_activeSubmitBatch = b.m_activeSubmitBatch ∧
      a.m_activeLeaseBatch = b.m_activeLeaseBatch ∧
      a.m_activeLeaseTime = b.m_activeLeaseTime ∧
      a.m_statusBatches = b.m_statusBatches ∧ a.nextPtr = b.nextPtr ∧
      a.submitCalls = b.submitCalls ∧ a.leaseCalls = b.leaseCalls ∧
      a.evaluated = b.evaluated ∧ a.leaseSent = b.leaseSent ∧ a.timers = b.timers ∧
      a.purged = b.purged)
    (by cases a; cases b; simp)

/-- The state the constructor leaves. -/
def BoincResource.new : BoincResource :=
  { m_batches := [], m_activeSubmitBatch := none, m_activeLeaseBatch := none,
    m_activeLeaseTime := 0, m_statusBatches := [], nextPtr := 0,
    submitCalls := [], leaseCalls := [], evaluated := [], leaseSent := [],
    timers := [], purged := [] }

/-- What a gahp command hands back: the return code and the text of
`getErrorString()`. -/
structure GahpReply where
  rc : Int
  errorString : String
  deriving DecidableEq, Repr

/-- The member `*set.begin()`, if the set has one. -/
def first (jobs : Finset BoincJob) : Option BoincJob := jobs.min

/-- Replace by `f b` the first batch `b` of the list that satisfies `p`. -/
def updateFirst (p : BoincBatch → Bool) (f : BoincBatch → BoincBatch) :
    List BoincBatch → List BoincBatch
  | [] => []
  | b :: rest => if p b then f b :: rest else b :: updateFirst p f rest

/-- What `JoinBatch` with a batch name does to the batch it found or created
(lines 329-336). -/
def joinNamed (now : Int) (job : BoincJob) (remoteState : String) (batch : BoincBatch) :
    BoincBatch :=
  let st1 :=
    if batch.m_submit_status = BatchSubmitStatus.BatchUnsubmitted then
      BatchSubmitStatus.BatchMaybeSubmitted
    else batch.m_submit_status
  let st2 :=
    if st1 = BatchSubmitStatus.BatchMaybeSubmitted ∧ remoteState ≠ "" then
      BatchSubmitStatus.BatchSubmitted
    else st1
  { batch with m_submit_status := st2, m_last_insert := now,
               m_jobs := insert job batch.m_jobs }

/-- What `JoinBatch` without a batch name does to the batch it found or created
(lines 363-364). -/
def joinCluster (now : Int) (job : BoincJob) (batch : BoincBatch) : BoincBatch :=
  { batch with m_last_insert := now, m_jobs := insert job batch.m_jobs }

/-- The search loop of `JoinBatch` without a batch name (lines 341-350) over the batches
from some position on, together with the insertion into the batch it finds
(lines 363-365): `some (some (name, batches))` gives the name of the batch found and the
list with the job inserted there, `some none` means no batch was found, and `none` means
the loop took `*m_jobs.begin()` of an empty set, which has no defined behaviour. -/
def joinExisting (now : Int) (cluster : BoincJob → Int) (job : BoincJob) :
    List BoincBatch → Option (Option (String × List BoincBatch))
  | [] => some none
  | b :: rest =>
    match first b.m_jobs with
    | none => none
    | some j =>
      if cluster j = cluster job ∧
          b.m_submit_status = BatchSubmitStatus.BatchUnsubmitted then
        some (some (b.m_batch_name, joinCluster now job b :: rest))
      else
        match joinExisting now cluster job rest with
        | none => none
        | some none => some none
        | some (some (name, batches)) => some (some (name, b :: batches))

/-- The name `JoinBatch` gives a batch it creates,
`formatstr( "condor#%s#%d#%d", ScheddName, cluster, (int)time(NULL) )`: `cluster` is the
`int` member `procID.cluster`, and the time is cut to an `int` by the cast. -/
def clusterBatchName (ScheddName : String) (cluster now : Int) : String :=
  "condor#" ++ ScheddName ++ "#" ++ toString cluster ++ "#" ++ toString (Annex.wrapInt now)

/-- The member function `BoincResource::JoinBatch`.  `now` is `time(NULL)`, `cluster`
gives `procID.cluster` of a job, `remoteState` is `job->remoteState` and `ScheddName` the
global of that name.  The result is the returned flag, the batch name handed back through
the reference parameter, and the new state; `none` stands for undefined behaviour. -/
def BoincResource.JoinBatch (s : BoincResource) (now : Int) (ScheddName : String)
    (cluster : BoincJob → Int) (job : BoincJob) (remoteState : String)
    (batch_name : String) : Option (Bool × String × BoincResource) :=
  if batch_name ≠ "" then
    match s.m_batches.find? (fun b => b.m_batch_name = batch_name) with
    | some _ =>
      some (true, batch_name,
        { s with
          m_batches :=
            updateFirst (fun b => b.m_batch_name = batch_name)
              (joinNamed now job remoteState) s.m_batches })
    | none =>
      let batch : BoincBatch :=
        { ptr := s.nextPtr, m_batch_name := batch_name,
          m_submit_status := BatchSubmitStatus.BatchMaybeSubmitted, m_lease_time := 0,
          m_last_insert := 0, m_error_message := "", m_jobs := ∅, m_jobs_ready := ∅ }
      some (true, batch_name,
        { s with m_batches := s.m_batches ++ [joinNamed now job remoteState batch],
                 nextPtr := s.nextPtr + 1 })
  else
    match joinExisting now cluster job s.m_batches with
    | none => none
    | some (some (name, batches)) => some (true, name, { s with m_batches := batches })
    | some none =>
      let batch : BoincBatch :=
        { ptr := s.nextPtr,
          m_batch_name := clusterBatchName ScheddName (cluster job) now,
          m_submit_status := BatchSubmitStatus.BatchUnsubmitted, m_lease_time := 0,
          m_last_insert := 0, m_error_message := "", m_jobs := ∅, m_jobs_ready := ∅ }
      some (true, batch.m_batch_name,
        { s with m_batches := s.m_batches ++ [joinCluster now job batch],
                 nextPtr := s.nextPtr + 1 })

/-- The enumeration `BoincSubmitResponse` (`boincresource.h` is not among the sources;
the three values are the ones `Submit` returns). -/
inductive BoincSubmitResponse where
  | BoincSubmitWait
  | BoincSubmitSuccess
  | BoincSubmitFailure
  deriving DecidableEq, Repr

/-- The member function `BoincResource::BatchReadyToSubmit`, its return value. -/
def BatchReadyToSubmit (now : Int) (batch : BoincBatch) : Bool :=
  if now < batch.m_last_insert + SUBMIT_DELAY then false
  else if batch.m_jobs ≠ batch.m_jobs_ready then false
  else true

/-- The value `BatchReadyToSubmit` stores through `delay` when it returns false.
`TIMER_NEVER` is the constant of that name (its header is not among the sources). -/
def BatchReadyDelay (TIMER_NEVER now : Int) (batch : BoincBatch) : Int :=
  if now < batch.m_last_insert + SUBMIT_DELAY then
    (batch.m_last_insert + SUBMIT_DELAY) - now
  else TIMER_NEVER

/-- The member function `BoincResource::Submit`.  `remoteBatchName` is
`job->remoteBatchName` (`none` for NULL) and `error_str` the content of the reference
parameter before the call.  The result is the response, `error_str` after the call, and
the new state. -/
def BoincResource.Submit (s : BoincResource) (now : Int) (job : BoincJob)
    (remoteBatchName : Option String) (error_str : String) :
    BoincSubmitResponse × String × BoincResource :=
  match remoteBatchName with
  | none => (BoincSubmitResponse.BoincSubmitFailure, "Job has no batch name", s)
  | some name =>
    match s.m_batches.find? (fun b => b.m_batch_name = name) with
    | none => (BoincSubmitResponse.BoincSubmitFailure, "BoincBatch not found", s)
    | some batch =>
      if batch.m_submit_status = BatchSubmitStatus.BatchFailed then
        (BoincSubmitResponse.BoincSubmitFailure, batch.m_error_message, s)
      else if batch.m_submit_status = BatchSubmitStatus.BatchSubmitted then
        (BoincSubmitResponse.BoincSubmitSuccess, error_str, s)
      else if batch.m_submit_status = BatchSubmitStatus.BatchSubmitting then
        -- If we've started submitting, avoid any checks below
        (BoincSubmitResponse.BoincSubmitWait, error_str, s)
      else
        let ready : BoincBatch := { batch with m_jobs_ready := insert job batch.m_jobs_ready }
        (BoincSubmitResponse.BoincSubmitWait,
          if batch.m_submit_status = BatchSubmitStatus.BatchMaybeSubmitted then
            batch.m_error_message
          else error_str,
          { s with
            m_batches :=
              updateFirst (fun b => b.m_batch_name = name)
                (fun b => { b with m_jobs_ready := insert job b.m_jobs_ready }) s.m_batches,
            timers :=
              if BatchReadyToSubmit now ready then s.timers ++ [(Timer.m_submitTid, 0)]
              else s.timers })

/-- The loop of `UnregisterJob` over the batches from some position on: the job is erased
from the member set of each batch in turn; the first batch that is then empty is taken out
of the list and the loop ends.  The result is the new list and the batch deleted, if
any. -/
def unregisterLoop (job : BoincJob) : List BoincBatch → List BoincBatch × Option BoincBatch
  | [] => ([], none)
  | b :: rest =>
    if b.m_jobs.erase job = ∅ then (rest, some b)
    else
      ({ b with m_jobs := b.m_jobs.erase job } :: (unregisterLoop job rest).1,
        (unregisterLoop job rest).2)

/-- The batch part of the member function `BoincResource::UnregisterJob` (the call of
`BaseResource::UnregisterJob` concerns the base class). -/
def BoincResource.UnregisterJob (s : BoincResource) (job : BoincJob) : BoincResource :=
  match (unregisterLoop job s.m_batches).2 with
  | none => { s with m_batches := (unregisterLoop job s.m_batches).1 }
  | some batch =>
    -- This batch is empty, clean it up and delete it
    let s1 : BoincResource :=
      if s.m_activeLeaseBatch = some batch.ptr then
        { s with m_activeLeaseBatch := none,
                 purged := s.purged ++ [Gahp.m_leaseGahp],
                 timers := s.timers ++ [(Timer.m_leaseTid, 0)] }
      else s
    let s2 : BoincResource :=
      if s1.m_activeSubmitBatch = some batch.ptr then
        { s1 with m_activeSubmitBatch := none,
                  purged := s1.purged ++ [Gahp.m_submitGahp],
                  timers := s1.timers ++ [(Timer.m_submitTid, 0)] }
      else s1
    { s2 with m_batches := (unregisterLoop job s.m_batches).1 }

/-- The enumeration `BatchStatusResult` (declared in `boincresource.h`, which is not among
the sources; the three values are the ones the functions return). -/
inductive BatchStatusResult where
  | BSR_DONE
  | BSR_ERROR
  | BSR_PENDING
  deriving DecidableEq, Repr

/-- What `boinc_query_batches` hands back: return code, error text, and one entry per
batch in the response, each entry being the (job name, state) pairs of that batch. -/
structure QueryReply where
  rc : Int
  errorString : String
  results : List (List (String × String))
  deriving DecidableEq, Repr

/-- The test `strstr( msg, "no batch named" )`. -/
def mentionsNoBatch (msg : String) : Bool :=
  decide ("no batch named".data <:+: msg.data)

/-- The loop of `FinishBatchStatus` that notifies the batches in `BatchMaybeSubmitted`
of a query error (lines 502-513), over the batches from some position on: the new
batches and the sets of jobs signalled. -/
def notifyError (msg : String) : List BoincBatch → List BoincBatch × List (Finset BoincJob)
  | [] => ([], [])
  | b :: rest =>
    if b.m_submit_status ≠ BatchSubmitStatus.BatchMaybeSubmitted ∨ b.m_error_message ≠ "" then
      (b :: (notifyError msg rest).1, (notifyError msg rest).2)
    else
      ({ b with m_error_message := msg } :: (notifyError msg rest).1,
        b.m_jobs :: (notifyError msg rest).2)

/-- The batch `FinishBatchStatus` resolves for one entry of the response: the first one
with that name in `BatchMaybeSubmitted`. -/
def isUnresolved (batch_name : String) (b : BoincBatch) : Bool :=
  decide (b.m_batch_name = batch_name ∧
    b.m_submit_status = BatchSubmitStatus.BatchMaybeSubmitted)

/-- One round of the loop over the response in `FinishBatchStatus` (lines 527-553), for
the entry `result` that belongs to `batch_name`.  The calls of `NewBoincState` on the
jobs named in the entry (lines 556-574) go to the job objects and leave the resource
untouched. -/
def resolveOne (batch_name : String) (result : List (String × String))
    (s : BoincResource) : BoincResource :=
  match s.m_batches.find? (isUnresolved batch_name) with
  | none => s
  | some batch =>
    if result.isEmpty then
      -- Batch doesn't exist on sever
      { s with
        m_batches :=
          updateFirst (isUnresolved batch_name)
            (fun b => { b with m_submit_status := BatchSubmitStatus.BatchUnsubmitted })
            s.m_batches,
        timers := s.timers ++ [(Timer.m_submitTid, 0)] }
    else
      -- Batch exists on server
      { s with
        m_batches :=
          updateFirst (isUnresolved batch_name)
            (fun b => { b with m_submit_status := BatchSubmitStatus.BatchSubmitted })
            s.m_batches,
        evaluated := s.evaluated ++ [batch.m_jobs] }

/-- The loop over the response in `FinishBatchStatus`: `names` is what is left of
`m_statusBatches`.  A response with more entries than names fails `ASSERT( batch_name )`
(`none`). -/
def resolveAll : List (List (String × String)) → List String → BoincResource →
    Option BoincResource
  | [], _, s => some s
  | _ :: _, [], _ => none
  | result :: results, batch_name :: names, s =>
    resolveAll results names (resolveOne batch_name result s)

/-- The member function `BoincResource::FinishBatchStatus`; `reply` is what
`m_statusGahp->boinc_query_batches( m_statusBatches, results )` hands back. -/
def BoincResource.FinishBatchStatus (s : BoincResource) (reply : QueryReply) :
    Option (BatchStatusResult × BoincResource) :=
  if s.m_statusBatches.isEmpty then some (BatchStatusResult.BSR_DONE, s)
  else if reply.rc = Annex.GAHPCLIENT_COMMAND_PENDING then
    some (BatchStatusResult.BSR_PENDING, s)
  else if reply.rc ≠ 0 then
    -- If this error looks like it would affect a submit command,
    -- notify all jobs in BatchMaybeSubmitted state.
    let s1 : BoincResource :=
      if ¬ mentionsNoBatch reply.errorString then
        { s with m_batches := (notifyError reply.errorString s.m_batches).1,
                 evaluated := s.evaluated ++ (notifyError reply.errorString s.m_batches).2 }
      else s
    some (BatchStatusResult.BSR_ERROR, { s1 with m_statusBatches := [] })
  else
    match resolveAll reply.results s.m_statusBatches s with
    | none => none
    | some s1 => some (BatchStatusResult.BSR_DONE, { s1 with m_statusBatches := [] })

/-- The names `StartBatchStatus` collects in `m_statusBatches`. -/
def statusNames (batches : List BoincBatch) : List String :=
  (batches.filter (fun b =>
    b.m_submit_status = BatchSubmitStatus.BatchSubmitted ∨
      b.m_submit_status = BatchSubmitStatus.BatchMaybeSubmitted)).map (fun b => b.m_batch_name)

/-- The member function `BoincResource::StartBatchStatus`. -/
def BoincResource.StartBatchStatus (s : BoincResource) (reply : QueryReply) :
    Option (BatchStatusResult × BoincResource) :=
  BoincResource.FinishBatchStatus { s with m_statusBatches := statusNames s.m_batches } reply

/-- The variables of one pass of `DoBatchSubmits` or `UpdateBoincLeases` over the
batches: the resource (whose `m_batches` is put in place when the pass is over), the local
`delay`, and how many gahp calls the pass has made. -/
structure Pass where
  res : BoincResource
  delay : Int
  ncalls : Nat

/-- The `for` loop of `DoBatchSubmits` over the batches from some position on.  `gahp k`
is what the `k`-th `boinc_submit` call of this pass hands back.  The result is the batches
as the loop leaves them and the variables at the end. -/
def submitLoop (TIMER_NEVER now : Int) (gahp : Nat → GahpReply) :
    List BoincBatch → Pass → List BoincBatch × Pass
  | [], st => ([], st)
  | batch :: rest, st =>
    if batch.m_submit_status = BatchSubmitStatus.BatchMaybeSubmitted ∨
        batch.m_submit_status = BatchSubmitStatus.BatchSubmitted ∨
        batch.m_submit_status = BatchSubmitStatus.BatchFailed then
      let r := submitLoop TIMER_NEVER now gahp rest st
      (batch :: r.1, r.2)
    else if st.res.m_activeSubmitBatch ≠ none ∧
        st.res.m_activeSubmitBatch ≠ some batch.ptr then
      -- If we have an active submit command, skip to that batch
      let r := submitLoop TIMER_NEVER now gahp rest st
      (batch :: r.1, r.2)
    else if st.res.m_activeSubmitBatch = none ∧ ¬ BatchReadyToSubmit now batch then
      let this_delay := BatchReadyDelay TIMER_NEVER now batch
      let r := submitLoop TIMER_NEVER now gahp rest
        { st with delay := if this_delay < st.delay then this_delay else st.delay }
      (batch :: r.1, r.2)
    else if st.res.m_activeSubmitBatch = none then
      -- Let's start submitting this batch
      let called : BoincResource :=
        { st.res with
          submitCalls := st.res.submitCalls ++ [{ batch := batch, isNew := true }] }
      if (gahp st.ncalls).rc ≠ Annex.GAHPCLIENT_COMMAND_PENDING then
        let r := submitLoop TIMER_NEVER now gahp rest
          { st with res := { called with purged := called.purged ++ [Gahp.m_submitGahp] },
                    ncalls := st.ncalls + 1 }
        (batch :: r.1, r.2)
      else
        (batch :: rest,
          { res := { called with m_activeSubmitBatch := some batch.ptr },
            delay := TIMER_NEVER, ncalls := st.ncalls + 1 })
    else
      -- active submit command, check if it's done
      let called : BoincResource :=
        { st.res with
          submitCalls := st.res.submitCalls ++ [{ batch := batch, isNew := false }] }
      if (gahp st.ncalls).rc = Annex.GAHPCLIENT_COMMAND_PENDING then
        -- do nothing, wait for command to complete
        (batch :: rest, { res := called, delay := TIMER_NEVER, ncalls := st.ncalls + 1 })
      else
        let done : BoincBatch :=
          if (gahp st.ncalls).rc = 0 then
            { batch with m_submit_status := BatchSubmitStatus.BatchSubmitted }
          else
            { batch with m_submit_status := BatchSubmitStatus.BatchFailed,
                         m_error_message := (gahp st.ncalls).errorString }
        let r := submitLoop TIMER_NEVER now gahp rest
          { res := { called with m_activeSubmitBatch := none,
                                 evaluated := called.evaluated ++ [batch.m_jobs] },
            delay := 0, ncalls := st.ncalls + 1 }
        (done :: r.1, r.2)

/-- The member function `BoincResource::DoBatchSubmits`.  `started` tells whether
`m_submitGahp` exists and is started. -/
def BoincResource.DoBatchSubmits (s : BoincResource) (TIMER_NEVER now : Int) (started : Bool)
    (gahp : Nat → GahpReply) : BoincResource :=
  if ¬ started then { s with timers := s.timers ++ [(Timer.m_submitTid, 5)] }
  else
    let r := submitLoop TIMER_NEVER now gahp s.m_batches
      { res := s, delay := TIMER_NEVER, ncalls := 0 }
    { r.2.res with m_batches := r.1,
                   timers := r.2.res.timers ++ [(Timer.m_submitTid, r.2.delay)] }

/-- The test `!(*batch)->m_submit_status == BatchSubmitted` of `UpdateBoincLeases`, as the
language reads it: `!` applies to the status alone (1 for the enumerator 0, else 0) and
the result is compared with the enumerator `BatchSubmitted`. -/
def leaseSkip (batch : BoincBatch) : Bool :=
  decide ((if batch.m_submit_status.toInt = 0 then (1 : Int) else 0) =
    BatchSubmitStatus.BatchSubmitted.toInt)

/-- The `for` loop of `UpdateBoincLeases` over the batches from some position on.
`gahp k` is what the `k`-th `boinc_set_lease` call of this pass hands back. -/
def leaseLoop (TIMER_NEVER now : Int) (gahp : Nat → GahpReply) :
    List BoincBatch → Pass → List BoincBatch × Pass
  | [], st => ([], st)
  | batch :: rest, st =>
    if leaseSkip batch then
      let r := leaseLoop TIMER_NEVER now gahp rest st
      (batch :: r.1, r.2)
    else if st.res.m_activeLeaseBatch ≠ none ∧
        st.res.m_activeLeaseBatch ≠ some batch.ptr then
      -- If we have an active lease update command, skip to that batch
      let r := leaseLoop TIMER_NEVER now gahp rest st
      (batch :: r.1, r.2)
    else if st.res.m_activeLeaseBatch = none then
      -- Calculate how long until this batch's lease needs to be updated
      let this_delay := (batch.m_lease_time + DEFAULT_LEASE_DURATION / 3) - now
      if this_delay ≤ 0 then
        -- lease needs to be updated
        let new_lease_time := now + DEFAULT_LEASE_DURATION
        let called : BoincResource :=
          { st.res with
            leaseCalls := st.res.leaseCalls ++
              [{ batch := batch, time := new_lease_time, isNew := true }] }
        if (gahp st.ncalls).rc ≠ Annex.GAHPCLIENT_COMMAND_PENDING then
          let r := leaseLoop TIMER_NEVER now gahp rest
            { st with res := { called with purged := called.purged ++ [Gahp.m_leaseGahp] },
                      ncalls := st.ncalls + 1 }
          (batch :: r.1, r.2)
        else
          (batch :: rest,
            { res := { called with m_activeLeaseBatch := some batch.ptr,
                                   m_activeLeaseTime := new_lease_time },
              delay := TIMER_NEVER, ncalls := st.ncalls + 1 })
      else
        let r := leaseLoop TIMER_NEVER now gahp rest
          { st with delay := if this_delay < st.delay then this_delay else st.delay }
        (batch :: r.1, r.2)
    else
      -- active lease command, check if it's done
      let called : BoincResource :=
        { st.res with
          leaseCalls := st.res.leaseCalls ++
            [{ batch := batch, time := st.res.m_activeLeaseTime, isNew := false }] }
      if (gahp st.ncalls).rc = Annex.GAHPCLIENT_COMMAND_PENDING then
        -- do nothing, wait for command to complete
        (batch :: rest, { st with res := called, ncalls := st.ncalls + 1 })
      else if (gahp st.ncalls).rc = 0 then
        -- success
        let r := leaseLoop TIMER_NEVER now gahp rest
          { st with
            res := { called with
                     m_activeLeaseBatch := none,
                     leaseSent := called.leaseSent ++
                       [(batch.m_jobs, st.res.m_activeLeaseTime)] },
            ncalls := st.ncalls + 1 }
        ({ batch with m_lease_time := st.res.m_activeLeaseTime } :: r.1, r.2)
      else
        let r := leaseLoop TIMER_NEVER now gahp rest
          { st with res := { called with m_activeLeaseBatch := none },
                    ncalls := st.ncalls + 1 }
        (batch :: r.1, r.2)

/-- The member function `BoincResource::UpdateBoincLeases`.  `started` tells whether
`m_leaseGahp` exists and is started. -/
def BoincResource.UpdateBoincLeases (s : BoincResource) (TIMER_NEVER now : Int)
    (started : Bool) (gahp : Nat → GahpReply) : BoincResource :=
  if ¬ started then { s with timers := s.timers ++ [(Timer.m_leaseTid, 5)] }
  else
    let r := leaseLoop TIMER_NEVER now gahp s.m_batches
      { res := s, delay := TIMER_NEVER, ncalls := 0 }
    { r.2.res with m_batches := r.1,
                   timers := r.2.res.timers ++ [(Timer.m_leaseTid, r.2.delay)] }

/-- The batch `Submit` looks up for a job: the first one named `job->remoteBatchName`. -/
def BoincResource.batchOf (s : BoincResource) (remoteBatchName : Option String) :
    Option BoincBatch :=
  remoteBatchName.bind (fun name => s.m_batches.find? (fun b => b.m_batch_name = name))

/-- The batches `DoBatchSubmits` does not skip on account of their status. -/
def BoincBatch.eligible (b : BoincBatch) : Prop :=
  b.m_submit_status ≠ BatchSubmitStatus.BatchMaybeSubmitted ∧
    b.m_submit_status ≠ BatchSubmitStatus.BatchSubmitted ∧
    b.m_submit_status ≠ BatchSubmitStatus.BatchFailed

instance (b : BoincBatch) : Decidable b.eligible := by
  unfold BoincBatch.eligible; infer_instance

/-- The batch object `JoinBatch` creates for `batch_name` in state `s`, before the job is
put in. -/
def BoincResource.newBatch (s : BoincResource) (batch_name : String)
    (status : BatchSubmitStatus) : BoincBatch :=
  { ptr := s.nextPtr, m_batch_name := batch_name, m_submit_status := status,
    m_lease_time := 0, m_last_insert := 0, m_error_message := "", m_jobs := ∅,
    m_jobs_ready := ∅ }

/-- The batch after `DoBatchSubmits` has seen its submit command complete with the result
`reply` (lines 644-653). -/
def BoincBatch.submitted (b : BoincBatch) (reply : GahpReply) : BoincBatch :=
  if reply.rc = 0 then { b with m_submit_status := BatchSubmitStatus.BatchSubmitted }
  else
    { b with m_submit_status := BatchSubmitStatus.BatchFailed,
             m_error_message := reply.errorString }

/-- The variables of a pass of `DoBatchSubmits` right after the round in which the active
submit command of `batch` was found complete (lines 635-662). -/
def Pass.afterCompletion (st : Pass) (batch : BoincBatch) : Pass :=
  { res :=
      { st.res with
        submitCalls := st.res.submitCalls ++ [{ batch := batch, isNew := false }],
        m_activeSubmitBatch := none,
        evaluated := st.res.evaluated ++ [batch.m_jobs] },
    delay := 0, ncalls := st.ncalls + 1 }

/-- Batch `b` is batch `a` after some calls: same address and name, a status of
`BatchFailed` or `BatchSubmitted` is kept, and `b` is in `BatchMaybeSubmitted` only if `a`
was. -/
def BoincBatch.Keeps (a b : BoincBatch) : Prop :=
  b.ptr = a.ptr ∧ b.m_batch_name = a.m_batch_name ∧
  (a.m_submit_status = BatchSubmitStatus.BatchFailed →
    b.m_submit_status = BatchSubmitStatus.BatchFailed) ∧
  (a.m_submit_status = BatchSubmitStatus.BatchSubmitted →
    b.m_submit_status = BatchSubmitStatus.BatchSubmitted) ∧
  (b.m_submit_status = BatchSubmitStatus.BatchMaybeSubmitted →
    a.m_submit_status = BatchSubmitStatus.BatchMaybeSubmitted)

/-- A call of one of the batch operations of a `BoincResource`, with everything the call
reads from its collaborators. -/
inductive Op where
  | JoinBatch (now : Int) (ScheddName : String) (cluster : BoincJob → Int) (job : BoincJob)
      (remoteState batch_name : String)
  | Submit (now : Int) (job : BoincJob) (remoteBatchName : Option String) (error_str : String)
  | UnregisterJob (job : BoincJob)
  | StartBatchStatus (reply : QueryReply)
  | FinishBatchStatus (reply : QueryReply)
  | DoBatchSubmits (TIMER_NEVER now : Int) (started : Bool) (gahp : Nat → GahpReply)
  | UpdateBoincLeases (TIMER_NEVER now : Int) (started : Bool) (gahp : Nat → GahpReply)

/-- The state after one call; `none` when the call has no defined behaviour or fails an
`ASSERT`. -/
def BoincResource.step (s : BoincResource) : Op → Option BoincResource
  | Op.JoinBatch now ScheddName cluster job remoteState batch_name =>
    (s.JoinBatch now ScheddName cluster job remoteState batch_name).map (fun r => r.2.2)
  | Op.Submit now job remoteBatchName error_str =>
    some (s.Submit now job remoteBatchName error_str).2.2
  | Op.UnregisterJob job => some (s.UnregisterJob job)
  | Op.StartBatchStatus reply => (s.StartBatchStatus reply).map (fun r => r.2)
  | Op.FinishBatchStatus reply => (s.FinishBatchStatus reply).map (fun r => r.2)
  | Op.DoBatchSubmits TIMER_NEVER now started gahp =>
    some (s.DoBatchSubmits TIMER_NEVER now started gahp)
  | Op.UpdateBoincLeases TIMER_NEVER now started gahp =>
    some (s.UpdateBoincLeases TIMER_NEVER now started gahp)

/-- State `t` is reached from state `s` by a sequence of calls. -/
inductive Steps (s : BoincResource) : BoincResource → Prop where
  | refl : Steps s s
  | step (t u : BoincResource) (op : Op) : Steps s t → t.step op = some u → Steps s u

/-- The states a `BoincResource` reaches from the state its constructor leaves. -/
def Reachable (s : BoincResource) : Prop := Steps BoincResource.new s

/-- A batch in `BatchMaybeSubmitted` is the first batch of the list with its name. -/
def FirstWithName (l : List BoincBatch) : Prop :=
  l.Pairwise (fun a b =>
    b.m_submit_status = BatchSubmitStatus.BatchMaybeSubmitted →
      a.m_batch_name ≠ b.m_batch_name)

/-- The batch objects are distinct, their addresses were handed out by the allocator, and
a batch in `BatchMaybeSubmitted` is the first one with its name. -/
def BoincResource.WF (s : BoincResource) : Prop :=
  (s.m_batches.map (fun b => b.ptr)).Nodup ∧ (∀ b ∈ s.m_batches, b.ptr < s.nextPtr) ∧
    FirstWithName s.m_batches

/-- The state after a sequence of calls, `none` as soon as one of them has no defined
behaviour. -/
def run : List Op → BoincResource → Option BoincResource
  | [], s => some s
  | op :: ops, s => (s.step op).bind (run ops)

/-- What a call leaves of the batches: the state stays well formed, addresses already
handed out stay so, and every batch of the new state is either a batch of the old state,
with a status of `BatchFailed` or `BatchSubmitted` kept, or a new object. -/
def BoincResource.Origin (s t : BoincResource) : Prop :=
  t.WF ∧ s.nextPtr ≤ t.nextPtr ∧
    ∀ c ∈ t.m_batches,
      (∃ d ∈ s.m_batches, c.ptr = d.ptr ∧
        (d.m_submit_status = BatchSubmitStatus.BatchFailed →
          c.m_submit_status = BatchSubmitStatus.BatchFailed) ∧
        (d.m_submit_status = BatchSubmitStatus.BatchSubmitted →
          c.m_submit_status = BatchSubmitStatus.BatchSubmitted)) ∨
      s.nextPtr ≤ c.ptr

/-- A sequence of calls that ends with a failed batch: a job joins a new batch and calls
`Submit`, the submit command is started, and it comes back with an error. -/
def failedOps : List Op :=
  [Op.JoinBatch 0 "s" (fun _ => 1) 1 "" "",
   Op.Submit 0 1 (some "condor#s#1#0") "",
   Op.DoBatchSubmits (-1) 10 true
     (fun _ => { rc := Annex.GAHPCLIENT_COMMAND_PENDING, errorString := "" }),
   Op.DoBatchSubmits (-1) 11 true (fun _ => { rc := 1, errorString := "refused" })]

/-- The batch of the state that `failedOps` leads to. -/
def failedBatch : BoincBatch :=
  { ptr := 0, m_batch_name := "condor#s#1#0",
    m_submit_status := BatchSubmitStatus.BatchFailed, m_lease_time := 0,
    m_last_insert := 0, m_error_message := "refused", m_jobs := {1}, m_jobs_ready := {1} }

/-- The state that `failedOps` leads to. -/
def failedExample : BoincResource :=
  (run failedOps BoincResource.new).getD BoincResource.new

/-- A sequence of calls that ends with a status query under way for a batch recovered
from the job queue: a job whose ad carries the batch name `T1` joins, and
`StartBatchStatus` finds its query pending. -/
def recoveryOps : List Op :=
  [Op.JoinBatch 0 "s" (fun _ => 1) 1 "" "T1",
   Op.StartBatchStatus
     { rc := Annex.GAHPCLIENT_COMMAND_PENDING, errorString := "", results := [] }]

/-- The state that `recoveryOps` leads to. -/
def recoveryExample : BoincResource :=
  (run recoveryOps BoincResource.new).getD BoincResource.new

/-- The test `this_delay <= 0` of `UpdateBoincLeases` for a batch: its lease needs to be
updated at time `now`. -/
def BoincBatch.due (now : Int) (b : BoincBatch) : Prop :=
  (b.m_lease_time + DEFAULT_LEASE_DURATION / 3) - now ≤ 0

instance (now : Int) (b : BoincBatch) : Decidable (b.due now) := by
  unfold BoincBatch.due; infer_instance

/-- The batch after `UpdateBoincLeases` has seen its lease command complete with the result
`reply`, `time` being the expiry sent with the command (lines 722-735). -/
def BoincBatch.renewed (b : BoincBatch) (reply : GahpReply) (time : Int) : BoincBatch :=
  if reply.rc = 0 then { b with m_lease_time := time } else b

/-- The variables of a pass of `UpdateBoincLeases` right after the round in which the
active lease command of `batch` was found complete with the result `reply`
(lines 714-736). -/
def Pass.afterRenewal (st : Pass) (batch : BoincBatch) (reply : GahpReply) : Pass :=
  { st with
    res :=
      { st.res with
        leaseCalls := st.res.leaseCalls ++
          [{ batch := batch, time := st.res.m_activeLeaseTime, isNew := false }],
        m_activeLeaseBatch := none,
        leaseSent :=
          if reply.rc = 0 then
            st.res.leaseSent ++ [(batch.m_jobs, st.res.m_activeLeaseTime)]
          else st.res.leaseSent },
    ncalls := st.ncalls + 1 }

/-- One renewal of a lease as two timer ticks see it: `UpdateBoincLeases` runs at time
`n1` and finds the command it issues pending, then runs at time `n2` and gets `reply` for
the command it polls. -/
def renewRound (TIMER_NEVER n1 n2 : Int) (reply : GahpReply) (r : BoincResource) :
    BoincResource :=
  (r.UpdateBoincLeases TIMER_NEVER n1 true
      (fun _ => { rc := Annex.GAHPCLIENT_COMMAND_PENDING, errorString := "" })).UpdateBoincLeases
    TIMER_NEVER n2 true (fun _ => reply)

/-- A submitted batch with two members whose lease has never been renewed. -/
def leaseBatch : BoincBatch :=
  { ptr := 0, m_batch_name := "a", m_submit_status := BatchSubmitStatus.BatchSubmitted,
    m_lease_time := 0, m_last_insert := 0, m_error_message := "", m_jobs := {1, 2},
    m_jobs_ready := {1, 2} }

/-- A resource whose only batch is `leaseBatch`, with a lease command for it in flight
that was sent at time 10000. -/
def leaseExample : BoincResource :=
  { BoincResource.new with
    m_batches := [leaseBatch], m_activeLeaseBatch := some 0,
    m_activeLeaseTime := 10000 + DEFAULT_LEASE_DURATION, nextPtr := 1 }

/-- A sequence of calls that leaves two submitted batches due for renewal, the first of
the list with the later deadline: jobs 1 and 2 are recovered with the batch names `A` and
`B`; the lease of `A` is renewed (sent at time 7200), the renewal of `B` fails. -/
def deadlineOps : List Op :=
  [Op.JoinBatch 0 "s" (fun _ => 1) 1 "x" "A",
   Op.JoinBatch 0 "s" (fun _ => 1) 2 "x" "B",
   Op.UpdateBoincLeases (-1) 7200 true
     (fun _ => { rc := Annex.GAHPCLIENT_COMMAND_PENDING, errorString := "" }),
   Op.UpdateBoincLeases (-1) 7201 true
     (fun k => if k = 0 then { rc := 0, errorString := "" }
       else { rc := Annex.GAHPCLIENT_COMMAND_PENDING, errorString := "" }),
   Op.UpdateBoincLeases (-1) 7202 true (fun _ => { rc := 1, errorString := "refused" })]

/-- The state that `deadlineOps` leads to. -/
def deadlineExample : BoincResource :=
  (run deadlineOps BoincResource.new).getD BoincResource.new

/-- The two batches of `deadlineExample`. -/
def deadlineBatchA : BoincBatch :=
  { ptr := 0, m_batch_name := "A", m_submit_status := BatchSubmitStatus.BatchSubmitted,
    m_lease_time := 28800, m_last_insert := 0, m_error_message := "", m_jobs := {1},
    m_jobs_ready := ∅ }

/-- The second batch of `deadlineExample`. -/
def deadlineBatchB : BoincBatch :=
  { ptr := 1, m_batch_name := "B", m_submit_status := BatchSubmitStatus.BatchSubmitted,
    m_lease_time := 0, m_last_insert := 0, m_error_message := "", m_jobs := {2},
    m_jobs_ready := ∅ }

/-- A sequence of calls that ends with a submit command in flight: job 1 of cluster 7
joins a new batch at time 100 and calls `Submit`, and `DoBatchSubmits` at time 102 finds
the command it starts pending. -/
def inflightOps : List Op :=
  [Op.JoinBatch 100 "s" (fun _ => 7) 1 "" "",
   Op.Submit 100 1 (some "condor#s#7#100") "",
   Op.DoBatchSubmits (-1) 102 true
     (fun _ => { rc := Annex.GAHPCLIENT_COMMAND_PENDING, errorString := "" })]

/-- The state that `inflightOps` leads to. -/
def inflightExample : BoincResource :=
  (run inflightOps BoincResource.new).getD BoincResource.new

/-- What the error branch of `FinishBatchStatus` does to one batch (lines 502-512) when the
query came back with `reply`: a batch in `BatchMaybeSubmitted` without an error message
takes over the error string, unless the string mentions "no batch named". -/
def noted (reply : QueryReply) (b : BoincBatch) : BoincBatch :=
  if ¬ mentionsNoBatch reply.errorString = true ∧
      b.m_submit_status = BatchSubmitStatus.BatchMaybeSubmitted ∧ b.m_error_message = "" then
    { b with m_error_message := reply.errorString }
  else b

/-- The batch after a series of failed status queries, oldest first. -/
def notedBy (replies : List QueryReply) (b : BoincBatch) : BoincBatch :=
  replies.foldl (fun b reply => noted reply b) b

/-- A status query that fails with an error that does not mention "no batch named". -/
def queryError : QueryReply :=
  { rc := 1, errorString := "connection refused", results := [] }

/-- The batch of `recoveryExample`. -/
def recoveryBatch : BoincBatch :=
  { ptr := 0, m_batch_name := "T1",
    m_submit_status := BatchSubmitStatus.BatchMaybeSubmitted, m_lease_time := 0,
    m_last_insert := 0, m_error_message := "", m_jobs := {1}, m_jobs_ready := ∅ }

/-- The static member function `BoincResource::HashName`,
`formatstr( hash_name, "boinc %s %s", resource_name, authenticator )`. -/
def HashName (resource_name authenticator : String) : String :=
  "boinc " ++ resource_name ++ " " ++ authenticator

/-- What tells one `BoincResource` object from another in the registry: the arguments its
constructor was called with (kept as `resourceName` and `m_authenticator`). -/
structure ResourceObject where
  resourceName : String
  m_authenticator : String
  deriving DecidableEq, Repr

/-- The static member function `BoincResource::FindOrCreateResource`.  The first argument
is the table `ResourcesByName` and `init` is what `Init()` returns for a new object.  The
result is the pointer returned (`none` for NULL) and the table.  Modelled from the spec:
the class `HashTable` is not among the sources; it is taken as a finite map from key to
value, `lookup` finding the value bound to the key and `insert` binding it. -/
def FindOrCreateResource (ResourcesByName : List (String × ResourceObject)) (init : Bool)
    (resource_name authenticator : String) :
    Option ResourceObject × List (String × ResourceObject) :=
  let hash_name := HashName resource_name authenticator
  match Assoc.get ResourcesByName hash_name with
  | none =>
    if init = false then (none, ResourcesByName)
    else
      (some { resourceName := resource_name, m_authenticator := authenticator },
        Assoc.put hash_name
          { resourceName := resource_name, m_authenticator := authenticator }
          ResourcesByName)
  | some resource => (some resource, ResourcesByName)

/-- Every object of the table is bound to the key of its own identity, and its resource
name has no space in it. -/
def Registered (ResourcesByName : List (String × ResourceObject)) : Prop :=
  ∀ (key : String) (o : ResourceObject), Assoc.get ResourcesByName key = some o →
    key = HashName o.resourceName o.m_authenticator ∧ ' ' ∉ o.resourceName.data

end Boinc

/-! ## Lemmas on association lists and the ledger -/

namespace Assoc

theorem get_adjust {β : Type} (key : String) (f : β → β) (t : List (String × β)) (k : String) :
    get (adjust key f t) k = if k = key then (get t k).map f else get t k := by
  induction t with
  | nil => simp [get, adjust]
  | cons hd tl ih =>
    obtain ⟨a, v⟩ := hd
    by_cases h1 : a = key <;> by_cases h2 : a = k <;> by_cases h3 : k = key <;>
      simp_all [get, adjust]

theorem get_del {β : Type} (key : String) (t : List (String × β)) (k : String) :
    get (del key t) k = if key = k then none else get t k := by
  induction t with
  | nil => simp [get, del]
  | cons hd tl ih =>
    obtain ⟨a, v⟩ := hd
    by_cases h1 : a = key <;> by_cases h2 : a = k <;> by_cases h3 : key = k <;>
      simp_all [get, del]

theorem get_put {β : Type} (key : String) (v : β) (t : List (String × β)) (k : String) :
    get (put key v t) k = if key = k then some v else get t k := by
  by_cases h : key = k <;> simp [put, get, get_del, h]

end Assoc

namespace Annex

theorem Lookup_play (op : LogOp) (t : List (String × ClassAd)) (key : String) :
    Assoc.get (op.play t) key = (Assoc.get t key).map (op.effect key) := by
  cases op with
  | SetAttribute k name v =>
    by_cases h : k = key
    · subst h; cases hg : Assoc.get t k <;> simp [LogOp.play, LogOp.effect, Assoc.get_adjust, hg]
    · have h2 : ¬ key = k := fun e => h e.symm
      cases hg : Assoc.get t key <;>
        simp [LogOp.play, LogOp.effect, Assoc.get_adjust, h, h2, hg]
  | DeleteAttribute k name =>
    by_cases h : k = key
    · subst h; cases hg : Assoc.get t k <;> simp [LogOp.play, LogOp.effect, Assoc.get_adjust, hg]
    · have h2 : ¬ key = k := fun e => h e.symm
      cases hg : Assoc.get t key <;>
        simp [LogOp.play, LogOp.effect, Assoc.get_adjust, h, h2, hg]

theorem Lookup_Transaction (c : ClassAdCollection) (ops : List LogOp) (key : String) :
    (c.Transaction ops).Lookup key =
      (c.Lookup key).map (fun ad => ops.foldl (fun a op => op.effect key a) ad) := by
  obtain ⟨t⟩ := c
  simp only [ClassAdCollection.Transaction, ClassAdCollection.Lookup]
  induction ops generalizing t with
  | nil => simp
  | cons op ops ih =>
    simp only [List.foldl_cons]
    rw [ih, Lookup_play]
    cases Assoc.get t key <;> simp


theorem attr_Transaction (c : ClassAdCollection) (ops : List LogOp) (key name : String) :
    (c.Transaction ops).attr key name =
      (c.Lookup key).bind
        (fun ad => Assoc.get (ops.foldl (fun a op => op.effect key a) ad) name) := by
  unfold ClassAdCollection.attr
  rw [Lookup_Transaction]
  cases c.Lookup key <;> simp

/-- A transaction never creates or removes an entry. -/
theorem Lookup_Transaction_isSome (c : ClassAdCollection) (ops : List LogOp) (key : String) :
    ((c.Transaction ops).Lookup key).isSome = (c.Lookup key).isSome := by
  rw [Lookup_Transaction]; cases c.Lookup key <;> simp

theorem Lookup_log_isSome (q : OnDemandRequest) (c : ClassAdCollection) (key : String) :
    ((q.log c).Lookup key).isSome = (c.Lookup key).isSome := by
  unfold OnDemandRequest.log
  split
  · rfl
  · exact Lookup_Transaction_isSome _ _ _

/-- After `log()` the entry of the command holds the client token of the object. -/
theorem log_token (q : OnDemandRequest) (c : ClassAdCollection)
    (hcid : q.commandID ≠ "") (htok : q.clientToken ≠ "")
    (hentry : (c.Lookup q.commandID).isSome = true) :
    (q.log c).attr q.commandID "State_ClientToken" = some (Value.str q.clientToken) := by
  obtain ⟨ad, had⟩ := Option.isSome_iff_exists.mp hentry
  simp only [OnDemandRequest.log, hcid, if_false, attr_Transaction, had, Option.some_bind,
    OnDemandRequest.logOps, htok, ne_eq, not_false_eq_true, if_true, List.foldl_cons,
    List.foldl_nil]
  by_cases h1 : q.bulkRequestID = "" <;> by_cases h2 : q.instanceIDs.length = 0 <;>
    simp [LogOp.effect, Assoc.get_put, Assoc.get_del, h1, h2]

/-- The function `log()` keeps a persisted token that equals the token of the object. -/
theorem log_token_keep (q : OnDemandRequest) (c : ClassAdCollection) (key : String)
    (htok : q.clientToken ≠ "")
    (hc : c.attr key "State_ClientToken" = some (Value.str q.clientToken)) :
    (q.log c).attr key "State_ClientToken" = some (Value.str q.clientToken) := by
  unfold OnDemandRequest.log
  split
  · exact hc
  · unfold ClassAdCollection.attr at hc
    rw [attr_Transaction]
    cases had : c.Lookup key with
    | none => simp [had] at hc
    | some ad =>
      simp only [had, Option.some_bind] at hc
      simp only [Option.some_bind, OnDemandRequest.logOps, htok, ne_eq, not_false_eq_true,
        if_true, List.foldl_cons, List.foldl_nil]
      by_cases hk : q.commandID = key <;> by_cases h1 : q.bulkRequestID = "" <;>
        by_cases h2 : q.instanceIDs.length = 0 <;>
        simp [LogOp.effect, Assoc.get_put, Assoc.get_del, h1, h2, hk, hc]

/-- The function `log()` does not touch the try count. -/
theorem log_tryCount (q : OnDemandRequest) (c : ClassAdCollection) (key : String) :
    (q.log c).attr key "State_TryCount" = c.attr key "State_TryCount" := by
  unfold OnDemandRequest.log
  split
  · rfl
  · rw [attr_Transaction]
    unfold ClassAdCollection.attr
    cases had : c.Lookup key with
    | none => simp
    | some ad =>
      simp only [Option.some_bind, OnDemandRequest.logOps, List.foldl_cons, List.foldl_nil]
      by_cases hk : q.commandID = key <;> by_cases h0 : q.clientToken = "" <;>
        by_cases h1 : q.bulkRequestID = "" <;> by_cases h2 : q.instanceIDs.length = 0 <;>
        simp [LogOp.effect, Assoc.get_put, Assoc.get_del, h0, h1, h2, hk]

/-- Writing or deleting the try count leaves every other attribute alone. -/
theorem attr_setTryCount (c : ClassAdCollection) (k key name : String) (v : Value)
    (hname : name ≠ "State_TryCount") :
    (c.Transaction [LogOp.SetAttribute k "State_TryCount" v]).attr key name = c.attr key name := by
  rw [attr_Transaction]
  unfold ClassAdCollection.attr
  cases c.Lookup key with
  | none => simp
  | some ad =>
    have h2 : ¬ "State_TryCount" = name := fun e => hname e.symm
    by_cases hk : k = key <;> simp [LogOp.effect, Assoc.get_put, hk, h2]

theorem attr_delTryCount (c : ClassAdCollection) (k key name : String)
    (hname : name ≠ "State_TryCount") :
    (c.Transaction [LogOp.DeleteAttribute k "State_TryCount"]).attr key name =
      c.attr key name := by
  rw [attr_Transaction]
  unfold ClassAdCollection.attr
  cases c.Lookup key with
  | none => simp
  | some ad =>
    have h2 : ¬ "State_TryCount" = name := fun e => hname e.symm
    by_cases hk : k = key <;> simp [LogOp.effect, Assoc.get_del, hk, h2]


theorem beforeStart_eq (q : OnDemandRequest) (p : Process) (ad : ClassAd)
    (had : p.commandState.Lookup q.commandID = some ad) :
    q.beforeStart p = some
      { tryCount := q.tryCountAtCall p,
        process := { commandState := q.ledgerAtCall p, incrementTryCount := false } } := by
  unfold OnDemandRequest.beforeStart OnDemandRequest.ledgerAtCall
    OnDemandRequest.tryCountAtCall ClassAdCollection.tryCount
  rw [had]
  cases hinc : p.incrementTryCount <;> simp [hinc]

theorem beforeStart_none (q : OnDemandRequest) (p : Process)
    (had : p.commandState.Lookup q.commandID = none) : q.beforeStart p = none := by
  unfold OnDemandRequest.beforeStart; rw [had]


@[simp] theorem fail_call (q : OnDemandRequest) (p : Process) (reply sp : ClassAd) (n : Int)
    (g : GahpResult) (c : Option StartCall) : (q.fail p reply sp n g c).call = c := by
  unfold OnDemandRequest.fail; split <;> rfl

@[simp] theorem fail_process (q : OnDemandRequest) (p : Process) (reply sp : ClassAd) (n : Int)
    (g : GahpResult) (c : Option StartCall) : (q.fail p reply sp n g c).process = p := by
  unfold OnDemandRequest.fail; split <;> rfl

@[simp] theorem fail_request (q : OnDemandRequest) (p : Process) (reply sp : ClassAd) (n : Int)
    (g : GahpResult) (c : Option StartCall) : (q.fail p reply sp n g c).request = q := by
  unfold OnDemandRequest.fail; split <;> rfl

theorem fail_rc (q : OnDemandRequest) (p : Process) (reply sp : ClassAd) (n : Int)
    (g : GahpResult) (c : Option StartCall) :
    (q.fail p reply sp n g c).rc =
      if n < 3 then StreamResult.KEEP_STREAM else StreamResult.FALSE := by
  unfold OnDemandRequest.fail; split <;> rfl

@[simp] theorem received_clientToken (q : OnDemandRequest) (g : GahpResult) :
    (q.received g).clientToken = q.clientToken := by
  unfold OnDemandRequest.received; split <;> rfl

@[simp] theorem received_commandID (q : OnDemandRequest) (g : GahpResult) :
    (q.received g).commandID = q.commandID := by
  unfold OnDemandRequest.received; split <;> rfl

@[simp] theorem received_instanceIDs (q : OnDemandRequest) (g : GahpResult) :
    (q.received g).instanceIDs = g.instanceIDs := by
  unfold OnDemandRequest.received; split <;> rfl

theorem received_bulkRequestID (q : OnDemandRequest) (g : GahpResult) :
    (q.received g).bulkRequestID =
      if g.rc = 0 ∧ g.instanceIDs.length ≠ 0 then q.clientToken else q.bulkRequestID := by
  unfold OnDemandRequest.received; split <;> simp [*]

/-- With a known bulk request ID `operator()` makes no remote call. -/
theorem call_known (q : OnDemandRequest) (p : Process) (reply sp : ClassAd) (g : GahpResult)
    (hb : q.bulkRequestID ≠ "") :
    q.call p reply sp g = some (q.succeed p reply sp none) := by
  unfold OnDemandRequest.call; simp [hb]

/-- Without an entry for the command `operator()` has no defined behaviour. -/
theorem call_noEntry (q : OnDemandRequest) (p : Process) (reply sp : ClassAd) (g : GahpResult)
    (hb : q.bulkRequestID = "") (had : p.commandState.Lookup q.commandID = none) :
    q.call p reply sp g = none := by
  unfold OnDemandRequest.call; simp [hb, beforeStart_none q p had]

/-- The three ways an invocation that reaches `ec2_vm_start` ends. -/
theorem call_start (q : OnDemandRequest) (p : Process) (reply sp : ClassAd) (g : GahpResult)
    (hb : q.bulkRequestID = "") (had : (p.commandState.Lookup q.commandID).isSome = true) :
    q.call p reply sp g = some
      (if isPending g.rc then
        { rc := StreamResult.KEEP_STREAM, request := q.received g,
          process := { commandState := q.ledgerAtCall p, incrementTryCount := false },
          reply := reply, scratchpad := sp, call := some (q.startCall p),
          timerReset := false }
      else if g.rc = 0 then
        (q.received g).succeed { commandState := q.ledgerAtCall p, incrementTryCount := true }
          reply sp (some (q.startCall p))
      else
        (q.received g).fail { commandState := q.ledgerAtCall p, incrementTryCount := true }
          reply sp (q.tryCountAtCall p) g (some (q.startCall p))) := by
  obtain ⟨ad, had⟩ := Option.isSome_iff_exists.mp had
  unfold OnDemandRequest.call
  rw [beforeStart_eq q p ad had]
  simp only [hb, ne_eq, not_true_eq_false, if_false, OnDemandRequest.startCall]
  split
  · rfl
  · split <;> rfl

/-- The `ec2_vm_start` call recorded by an invocation. -/
theorem call_startCall (q : OnDemandRequest) (p : Process) (reply sp : ClassAd)
    (g : GahpResult) (out : Outcome) (sc : StartCall)
    (h : q.call p reply sp g = some out) (hsc : out.call = some sc) :
    q.bulkRequestID = "" ∧ (p.commandState.Lookup q.commandID).isSome = true ∧
      sc = q.startCall p := by
  by_cases hb : q.bulkRequestID = ""
  · cases had : p.commandState.Lookup q.commandID with
    | none => rw [call_noEntry q p reply sp g hb had] at h; cases h
    | some ad =>
      have hs : (p.commandState.Lookup q.commandID).isSome = true := by simp [had]
      rw [call_start q p reply sp g hb hs] at h
      refine ⟨hb, rfl, ?_⟩
      cases h
      split at hsc
      · simpa using hsc.symm
      · split at hsc
        · simpa [OnDemandRequest.succeed] using hsc.symm
        · simpa using hsc.symm
  · rw [call_known q p reply sp g hb] at h
    cases h
    simp [OnDemandRequest.succeed] at hsc


theorem ledgerAtCall_token (q : OnDemandRequest) (p : Process) (key : String)
    (htok : q.clientToken ≠ "")
    (hc : p.commandState.attr key "State_ClientToken" = some (Value.str q.clientToken)) :
    (q.ledgerAtCall p).attr key "State_ClientToken" = some (Value.str q.clientToken) := by
  unfold OnDemandRequest.ledgerAtCall
  apply log_token_keep q _ key htok
  split
  · rw [attr_setTryCount _ _ _ _ _ (by decide)]; exact hc
  · exact hc

theorem succeed_token (q : OnDemandRequest) (p : Process) (reply sp : ClassAd)
    (call : Option StartCall) (key : String) (htok : q.clientToken ≠ "")
    (hc : p.commandState.attr key "State_ClientToken" = some (Value.str q.clientToken)) :
    (q.succeed p reply sp call).process.commandState.attr key "State_ClientToken" =
      some (Value.str q.clientToken) := by
  simp only [OnDemandRequest.succeed]
  rw [attr_delTryCount _ _ _ _ (by decide)]
  exact log_token_keep q _ key htok hc

/-- One invocation keeps the token of the object and the persisted token. -/
theorem call_keeps_token (q : OnDemandRequest) (p : Process) (reply sp : ClassAd)
    (g : GahpResult) (out : Outcome) (key : String) (htok : q.clientToken ≠ "")
    (hc : p.commandState.attr key "State_ClientToken" = some (Value.str q.clientToken))
    (h : q.call p reply sp g = some out) :
    out.request.clientToken = q.clientToken ∧ out.request.commandID = q.commandID ∧
      out.process.commandState.attr key "State_ClientToken" =
        some (Value.str q.clientToken) := by
  by_cases hb : q.bulkRequestID = ""
  · cases had : p.commandState.Lookup q.commandID with
    | none => rw [call_noEntry q p reply sp g hb had] at h; cases h
    | some ad =>
      have hs : (p.commandState.Lookup q.commandID).isSome = true := by simp [had]
      rw [call_start q p reply sp g hb hs] at h
      have hl := ledgerAtCall_token q p key htok hc
      cases h
      split
      · exact ⟨by simp, by simp, hl⟩
      · split
        · refine ⟨by simp [OnDemandRequest.succeed], by simp [OnDemandRequest.succeed], ?_⟩
          have := succeed_token (q.received g)
            { commandState := q.ledgerAtCall p, incrementTryCount := true } reply sp
            (some (q.startCall p)) key (by simpa using htok) (by simpa using hl)
          simpa using this
        · exact ⟨by simp, by simp, by simpa using hl⟩
  · rw [call_known q p reply sp g hb] at h
    cases h
    exact ⟨rfl, rfl, succeed_token q p reply sp none key htok hc⟩

/-- One invocation never changes the token or the command identifier of the object. -/
theorem call_request (q : OnDemandRequest) (p : Process) (reply sp : ClassAd)
    (g : GahpResult) (out : Outcome) (h : q.call p reply sp g = some out) :
    out.request.clientToken = q.clientToken ∧ out.request.commandID = q.commandID := by
  by_cases hb : q.bulkRequestID = ""
  · cases had : p.commandState.Lookup q.commandID with
    | none => rw [call_noEntry q p reply sp g hb had] at h; cases h
    | some ad =>
      have hs : (p.commandState.Lookup q.commandID).isSome = true := by simp [had]
      rw [call_start q p reply sp g hb hs] at h
      cases h
      split
      · exact ⟨by simp, by simp⟩
      · split
        · exact ⟨by simp [OnDemandRequest.succeed], by simp [OnDemandRequest.succeed]⟩
        · exact ⟨by simp, by simp⟩
  · rw [call_known q p reply sp g hb] at h
    cases h
    exact ⟨rfl, rfl⟩

/-- Every remote call of a series of invocations passes the token of the object. -/
theorem invokeAll_token (gs : List GahpResult) (q : OnDemandRequest) (p : Process)
    (reply sp : ClassAd) :
    ∀ sc ∈ (q.invokeAll p reply sp gs).1, sc.clientToken = q.clientToken := by
  induction gs generalizing q p reply sp with
  | nil => simp [OnDemandRequest.invokeAll]
  | cons g gs ih =>
    intro sc hsc
    unfold OnDemandRequest.invokeAll at hsc
    cases h : q.call p reply sp g with
    | none => simp [h] at hsc
    | some out =>
      simp only [h, List.mem_append] at hsc
      rcases hsc with h1 | h2
      · have h1 : out.call = some sc := by
          cases hcall : out.call with
          | none => simp [hcall] at h1
          | some x => simp [hcall] at h1; simp [h1]
        rw [(call_startCall q p reply sp g out sc h h1).2.2]; rfl
      · rw [ih out.request out.process out.reply out.scratchpad sc h2]
        exact (call_request q p reply sp g out h).1

/-- A series of invocations leaves the persisted token in place. -/
theorem invokeAll_ledger (gs : List GahpResult) (q : OnDemandRequest) (p : Process)
    (reply sp : ClassAd) (key : String) (htok : q.clientToken ≠ "")
    (hc : p.commandState.attr key "State_ClientToken" = some (Value.str q.clientToken)) :
    (q.invokeAll p reply sp gs).2.commandState.attr key "State_ClientToken" =
      some (Value.str q.clientToken) := by
  induction gs generalizing q p reply sp with
  | nil => simpa [OnDemandRequest.invokeAll] using hc
  | cons g gs ih =>
    unfold OnDemandRequest.invokeAll
    cases h : q.call p reply sp g with
    | none => simpa using hc
    | some out =>
      obtain ⟨h1, _, h3⟩ := call_keeps_token q p reply sp g out key htok hc h
      have := ih out.request out.process out.reply out.scratchpad (by rw [h1]; exact htok)
        (by rw [h1]; exact h3)
      simpa [h1] using this

/-- The constructor takes over a persisted non-empty token and generates none. -/
theorem new_persisted (r : Option ClassAd) (su pkf skf : String) (c : ClassAdCollection)
    (cid annexID T : String) (gen : String → String) (hT : T ≠ "")
    (hc : c.attr cid "State_ClientToken" = some (Value.str T)) :
    (OnDemandRequest.new r su pkf skf c cid annexID gen).1.clientToken = T ∧
      (OnDemandRequest.new r su pkf skf c cid annexID gen).2 = r := by
  unfold ClassAdCollection.attr at hc
  cases had : c.Lookup cid with
  | none => simp [had] at hc
  | some ad =>
    simp only [had, Option.some_bind] at hc
    simp [OnDemandRequest.new, had, ClassAd.LookupString, hc, hT]

end Annex

/-! ## Claims on the idempotent submit (OnDemandRequest) -/

namespace Annex

/-- C1 (token reuse across restart).  If the ledger entry of `cid` holds a non-empty
`State_ClientToken` `T`, the constructor yields `clientToken = T` and generates nothing
(the reply ad is returned untouched); every `ec2_vm_start` call of any series of
invocations of `operator()` on that object, from any process state, passes `T`; and when
the process is restarted on the ledger such a series leaves behind (a new object is
constructed from it, the static flag is back to `true`), the constructor again generates
nothing and the calls made before and after the restart all carry `T`. -/
theorem token_reuse_across_restart (r : Option ClassAd) (su pkf skf : String)
    (c : ClassAdCollection) (cid annexID T : String) (gen : String → String)
    (hT : T ≠ "") (hc : c.attr cid "State_ClientToken" = some (Value.str T)) :
    (OnDemandRequest.new r su pkf skf c cid annexID gen).1.clientToken = T ∧
    (OnDemandRequest.new r su pkf skf c cid annexID gen).2 = r ∧
    (∀ (p : Process) (reply sp : ClassAd) (gs : List GahpResult),
      ∀ sc ∈ ((OnDemandRequest.new r su pkf skf c cid annexID gen).1.invokeAll
          p reply sp gs).1, sc.clientToken = T) ∧
    (∀ (b : Bool) (reply sp : ClassAd) (gs : List GahpResult)
        (r2 : Option ClassAd) (annexID2 : String) (gen2 : String → String)
        (reply2 sp2 : ClassAd) (gs2 : List GahpResult),
      (OnDemandRequest.new r2 su pkf skf
          ((OnDemandRequest.new r su pkf skf c cid annexID gen).1.invokeAll
            { commandState := c, incrementTryCount := b } reply sp gs).2.commandState
          cid annexID2 gen2).2 = r2 ∧
      ∀ sc1 ∈ ((OnDemandRequest.new r su pkf skf c cid annexID gen).1.invokeAll
          { commandState := c, incrementTryCount := b } reply sp gs).1,
      ∀ sc2 ∈ ((OnDemandRequest.new r2 su pkf skf
          ((OnDemandRequest.new r su pkf skf c cid annexID gen).1.invokeAll
            { commandState := c, incrementTryCount := b } reply sp gs).2.commandState
          cid annexID2 gen2).1.invokeAll
          { commandState :=
              ((OnDemandRequest.new r su pkf skf c cid annexID gen).1.invokeAll
                { commandState := c, incrementTryCount := b } reply sp gs).2.commandState,
            incrementTryCount := true } reply2 sp2 gs2).1,
        sc1.clientToken = T ∧ sc2.clientToken = T ∧ sc1.clientToken = sc2.clientToken) := by
  obtain ⟨h1, h2⟩ := new_persisted r su pkf skf c cid annexID T gen hT hc
  have hall : ∀ (p : Process) (reply sp : ClassAd) (gs : List GahpResult),
      ∀ sc ∈ ((OnDemandRequest.new r su pkf skf c cid annexID gen).1.invokeAll
          p reply sp gs).1, sc.clientToken = T := by
    intro p reply sp gs sc hsc
    rw [invokeAll_token gs _ p reply sp sc hsc, h1]
  refine ⟨h1, h2, hall, ?_⟩
  intro b reply sp gs r2 annexID2 gen2 reply2 sp2 gs2
  have hled := invokeAll_ledger gs (OnDemandRequest.new r su pkf skf c cid annexID gen).1
    { commandState := c, incrementTryCount := b } reply sp cid (by rw [h1]; exact hT)
    (by rw [h1]; exact hc)
  rw [h1] at hled
  obtain ⟨k1, k2⟩ := new_persisted r2 su pkf skf _ cid annexID2 T gen2 hT hled
  refine ⟨k2, ?_⟩
  intro sc1 hsc1 sc2 hsc2
  have e1 := hall _ reply sp gs sc1 hsc1
  have e2 : sc2.clientToken = T := by
    rw [invokeAll_token gs2 _ _ reply2 sp2 sc2 hsc2, k1]
  exact ⟨e1, e2, e1.trans e2.symm⟩

/-- The constructor always leaves a non-empty token when the generator returns one. -/
theorem new_clientToken_ne (r : Option ClassAd) (su pkf skf : String) (c : ClassAdCollection)
    (cid annexID : String) (gen : String → String) (hgen : gen annexID ≠ "") :
    (OnDemandRequest.new r su pkf skf c cid annexID gen).1.clientToken ≠ "" ∧
      (OnDemandRequest.new r su pkf skf c cid annexID gen).1.commandID = cid := by
  unfold OnDemandRequest.new
  split
  · rename_i ad _
    by_cases h : ad.LookupString "State_ClientToken" "" = "" <;> simp [h, hgen]
  · simp [hgen]

/-- The ledger at every remote call of a series holds the token passed. -/
theorem invokeAll_persisted (gs : List GahpResult) (q : OnDemandRequest) (p : Process)
    (reply sp : ClassAd) (hcid : q.commandID ≠ "") (htok : q.clientToken ≠ "") :
    ∀ sc ∈ (q.invokeAll p reply sp gs).1,
      sc.committed.attr q.commandID "State_ClientToken" = some (Value.str sc.clientToken) := by
  induction gs generalizing q p reply sp with
  | nil => simp [OnDemandRequest.invokeAll]
  | cons g gs ih =>
    intro sc hsc
    unfold OnDemandRequest.invokeAll at hsc
    cases h : q.call p reply sp g with
    | none => simp [h] at hsc
    | some out =>
      simp only [h, List.mem_append] at hsc
      rcases hsc with h1 | h2
      · have h1 : out.call = some sc := by
          cases hcall : out.call with
          | none => simp [hcall] at h1
          | some x => simp [hcall] at h1; simp [h1]
        obtain ⟨_, hentry, hsc⟩ := call_startCall q p reply sp g out sc h h1
        subst hsc
        simp only [OnDemandRequest.startCall, OnDemandRequest.ledgerAtCall]
        apply log_token q _ hcid htok
        split
        · rw [Lookup_Transaction_isSome]; exact hentry
        · exact hentry
      · obtain ⟨e1, e2⟩ := call_request q p reply sp g out h
        have := ih out.request out.process out.reply out.scratchpad (by rw [e2]; exact hcid)
          (by rw [e1]; exact htok) sc h2
        rwa [e2] at this

/-- C2 (persist before call).  For an object built by the constructor with a non-empty
command identifier (the token generator returning a non-empty token), and any series of
invocations of `operator()` on it from any process state: at the moment of every
`ec2_vm_start` call the committed ledger entry of the command holds `State_ClientToken`
equal to the client token passed to that call. -/
theorem token_persisted_before_call (r : Option ClassAd) (su pkf skf : String)
    (c : ClassAdCollection) (cid annexID : String) (gen : String → String)
    (hcid : cid ≠ "") (hgen : gen annexID ≠ "")
    (p : Process) (reply sp : ClassAd) (gs : List GahpResult) :
    ∀ sc ∈ ((OnDemandRequest.new r su pkf skf c cid annexID gen).1.invokeAll p reply sp gs).1,
      sc.committed.attr cid "State_ClientToken" = some (Value.str sc.clientToken) := by
  obtain ⟨h1, h2⟩ := new_clientToken_ne r su pkf skf c cid annexID gen hgen
  intro sc hsc
  have := invokeAll_persisted gs _ p reply sp (by rw [h2]; exact hcid) h1 sc hsc
  rwa [h2] at this


theorem wrapInt_range (n : Int) : -2147483648 ≤ wrapInt n ∧ wrapInt n ≤ INT_MAX := by
  unfold wrapInt INT_MAX
  omega

theorem wrapInt_of_range (n : Int) (h1 : -2147483648 ≤ n) (h2 : n ≤ INT_MAX) :
    wrapInt n = n := by
  unfold wrapInt
  unfold INT_MAX at h2
  omega

theorem wrapInt_wrapInt (n : Int) : wrapInt (wrapInt n) = wrapInt n :=
  wrapInt_of_range _ (wrapInt_range n).1 (wrapInt_range n).2

theorem tryCount_eq_attr (c : ClassAdCollection) (key : String) :
    c.tryCount key =
      match c.attr key "State_TryCount" with
      | some (Value.int n) => wrapInt n
      | _ => 0 := by
  unfold ClassAdCollection.tryCount ClassAdCollection.attr ClassAd.LookupInteger
  cases c.Lookup key <;> simp

theorem isPending_ne_zero (rc : Int) (h : isPending rc = true) : rc ≠ 0 := by
  unfold isPending GAHPCLIENT_COMMAND_NOT_SUBMITTED GAHPCLIENT_COMMAND_PENDING at h
  simp at h
  omega

/-- With the static flag set, the incremented try count is committed at the call. -/
theorem ledgerAtCall_increment (q : OnDemandRequest) (p : Process)
    (had : (p.commandState.Lookup q.commandID).isSome = true)
    (hinc : p.incrementTryCount = true) :
    (q.ledgerAtCall p).attr q.commandID "State_TryCount" =
      some (Value.int (wrapInt (p.commandState.tryCount q.commandID + 1))) := by
  obtain ⟨ad, had⟩ := Option.isSome_iff_exists.mp had
  unfold OnDemandRequest.ledgerAtCall
  rw [log_tryCount, hinc, if_pos rfl, attr_Transaction, had]
  simp [LogOp.effect, Assoc.get_put]

/-- With the static flag clear, the try count at the call is the one found. -/
theorem ledgerAtCall_repoll (q : OnDemandRequest) (p : Process) (key : String)
    (hinc : p.incrementTryCount = false) :
    (q.ledgerAtCall p).attr key "State_TryCount" = p.commandState.attr key "State_TryCount" := by
  unfold OnDemandRequest.ledgerAtCall
  rw [log_tryCount, hinc]
  simp

theorem ledgerAtCall_tryCount (q : OnDemandRequest) (p : Process)
    (had : (p.commandState.Lookup q.commandID).isSome = true) :
    (q.ledgerAtCall p).tryCount q.commandID = q.tryCountAtCall p := by
  unfold OnDemandRequest.tryCountAtCall
  cases hinc : p.incrementTryCount
  · rw [tryCount_eq_attr, ledgerAtCall_repoll q p _ hinc, ← tryCount_eq_attr]; simp
  · rw [tryCount_eq_attr, ledgerAtCall_increment q p had hinc]
    simp [wrapInt_wrapInt]

theorem ledgerAtCall_isSome (q : OnDemandRequest) (p : Process) (key : String) :
    ((q.ledgerAtCall p).Lookup key).isSome = (p.commandState.Lookup key).isSome := by
  unfold OnDemandRequest.ledgerAtCall
  rw [Lookup_log_isSome]
  split
  · exact Lookup_Transaction_isSome _ _ _
  · rfl

theorem call_pending (q : OnDemandRequest) (p : Process) (reply sp : ClassAd) (g : GahpResult)
    (hb : q.bulkRequestID = "") (had : (p.commandState.Lookup q.commandID).isSome = true)
    (hp : isPending g.rc = true) :
    q.call p reply sp g = some
      { rc := StreamResult.KEEP_STREAM, request := q.received g,
        process := { commandState := q.ledgerAtCall p, incrementTryCount := false },
        reply := reply, scratchpad := sp, call := some (q.startCall p),
        timerReset := false } := by
  rw [call_start q p reply sp g hb had, if_pos hp]

theorem call_success (q : OnDemandRequest) (p : Process) (reply sp : ClassAd) (g : GahpResult)
    (hb : q.bulkRequestID = "") (had : (p.commandState.Lookup q.commandID).isSome = true)
    (hrc : g.rc = 0) :
    q.call p reply sp g = some
      ((q.received g).succeed { commandState := q.ledgerAtCall p, incrementTryCount := true }
        reply sp (some (q.startCall p))) := by
  have hnp : ¬ isPending g.rc = true := fun h => isPending_ne_zero g.rc h hrc
  rw [call_start q p reply sp g hb had, if_neg hnp, if_pos hrc]

theorem call_failure (q : OnDemandRequest) (p : Process) (reply sp : ClassAd) (g : GahpResult)
    (hb : q.bulkRequestID = "") (had : (p.commandState.Lookup q.commandID).isSome = true)
    (hrc : g.rc ≠ 0) (hp : ¬ isPending g.rc = true) :
    q.call p reply sp g = some
      ((q.received g).fail { commandState := q.ledgerAtCall p, incrementTryCount := true }
        reply sp (q.tryCountAtCall p) g (some (q.startCall p))) := by
  rw [call_start q p reply sp g hb had, if_neg hp, if_neg hrc]

theorem attr_delTryCount_self (c : ClassAdCollection) (key : String) :
    (c.Transaction [LogOp.DeleteAttribute key "State_TryCount"]).attr key "State_TryCount" =
      none := by
  rw [attr_Transaction]
  cases c.Lookup key <;> simp [LogOp.effect, Assoc.get_del]

/-- What `log()` leaves in the entry for the bulk request ID and the instance IDs. -/
theorem log_remote_ids (q : OnDemandRequest) (c : ClassAdCollection)
    (hcid : q.commandID ≠ "") (hentry : (c.Lookup q.commandID).isSome = true) :
    (q.log c).attr q.commandID "State_BulkRequestID" =
        (if q.bulkRequestID ≠ "" then some (Value.str q.bulkRequestID) else none) ∧
      (q.log c).attr q.commandID "State_InstanceIDs" =
        (if q.instanceIDs.length ≠ 0 then
          some (Value.str (StringList.print_to_delimed_string q.instanceIDs)) else none) := by
  obtain ⟨ad, had⟩ := Option.isSome_iff_exists.mp hentry
  simp only [OnDemandRequest.log, hcid, if_false, attr_Transaction, had, Option.some_bind,
    OnDemandRequest.logOps, List.foldl_cons, List.foldl_nil]
  by_cases h0 : q.clientToken = "" <;> by_cases h1 : q.bulkRequestID = "" <;>
    by_cases h2 : q.instanceIDs.length = 0 <;>
    simp [LogOp.effect, Assoc.get_put, Assoc.get_del, h0, h1, h2]


/-- C4, as stated, fails when `ec2_vm_start` returns 0 without any instance ID: the guard
`rc == 0 && this->instanceIDs.size() != 0` leaves the bulk request ID empty, so `log()`
deletes `State_BulkRequestID` and the reply carries an empty `BulkRequestID`. -/
theorem success_without_instances_has_no_bulk_id :
    Option.map
        (fun out => (out.rc,
          out.process.commandState.attr "cmd" "State_BulkRequestID",
          Assoc.get out.reply "BulkRequestID"))
        (OnDemandRequest.call
          { service_url := "", public_key_file := "", secret_key_file := "",
            commandID := "cmd", clientToken := "tok", bulkRequestID := "",
            instanceIDs := [], targetCapacity := 1, instanceType := "t", imageID := "i",
            instanceProfileARN := "a" }
          { commandState := ⟨[("cmd", [])]⟩, incrementTryCount := true } [] []
          { rc := 0, instanceIDs := [], errorCode := "", errorString := "" }) =
      some (StreamResult.PASS_STREAM, none, some (Value.str "")) := by
  decide

/-- C4 (amended: success path).  When `ec2_vm_start` returns 0 (entry present, command
identifier and client token non-empty), `operator()` returns `PASS_STREAM`, the entry has
no `State_TryCount` and `State_ClientToken` is the token passed, as at the call.  If at
least one instance ID came back, the entry holds them comma-joined in `State_InstanceIDs`
and holds `State_BulkRequestID` = the client token, which is also the reply's
`BulkRequestID`.  If none came back, the entry has neither `State_BulkRequestID` nor
`State_InstanceIDs` and the reply's `BulkRequestID` is the empty string. -/
theorem success_path (q : OnDemandRequest) (p : Process) (reply sp : ClassAd)
    (g : GahpResult) (hb : q.bulkRequestID = "")
    (had : (p.commandState.Lookup q.commandID).isSome = true)
    (hcid : q.commandID ≠ "") (htok : q.clientToken ≠ "") (hrc : g.rc = 0) :
    ∃ out sc, q.call p reply sp g = some out ∧ out.call = some sc ∧
      out.rc = StreamResult.PASS_STREAM ∧
      out.process.commandState.attr q.commandID "State_TryCount" = none ∧
      sc.committed.attr q.commandID "State_ClientToken" = some (Value.str q.clientToken) ∧
      out.process.commandState.attr q.commandID "State_ClientToken" =
        some (Value.str q.clientToken) ∧
      (g.instanceIDs ≠ [] →
        out.process.commandState.attr q.commandID "State_InstanceIDs" =
            some (Value.str (StringList.print_to_delimed_string g.instanceIDs)) ∧
          out.process.commandState.attr q.commandID "State_BulkRequestID" =
            some (Value.str q.clientToken) ∧
          Assoc.get out.reply "BulkRequestID" = some (Value.str q.clientToken)) ∧
      (g.instanceIDs = [] →
        out.process.commandState.attr q.commandID "State_InstanceIDs" = none ∧
          out.process.commandState.attr q.commandID "State_BulkRequestID" = none ∧
          Assoc.get out.reply "BulkRequestID" = some (Value.str "")) := by
  have hout := call_success q p reply sp g hb had hrc
  have hentry : ((q.ledgerAtCall p).Lookup (q.received g).commandID).isSome = true := by
    rw [received_commandID, ledgerAtCall_isSome]; exact had
  have htokc : (q.ledgerAtCall p).attr q.commandID "State_ClientToken" =
      some (Value.str q.clientToken) := by
    unfold OnDemandRequest.ledgerAtCall
    apply log_token q _ hcid htok
    split
    · rw [Lookup_Transaction_isSome]; exact had
    · exact had
  have hids := log_remote_ids (q.received g) (q.ledgerAtCall p) (by simpa using hcid) hentry
  simp only [received_commandID, received_instanceIDs, received_bulkRequestID, hrc,
    true_and] at hids
  refine ⟨_, q.startCall p, hout, rfl, rfl, ?_, htokc, ?_, ?_, ?_⟩
  · simp only [OnDemandRequest.succeed, received_commandID]
    exact attr_delTryCount_self _ _
  · have := succeed_token (q.received g)
      { commandState := q.ledgerAtCall p, incrementTryCount := true } reply sp
      (some (q.startCall p)) q.commandID (by simpa using htok) (by simpa using htokc)
    simpa using this
  · intro hne
    have hlen : g.instanceIDs.length ≠ 0 := by simpa using hne
    simp only [OnDemandRequest.succeed, received_commandID]
    rw [attr_delTryCount _ _ _ _ (by decide), attr_delTryCount _ _ _ _ (by decide)]
    refine ⟨?_, ?_, ?_⟩
    · rw [hids.2]; simp [hlen]
    · rw [hids.1]; simp [hlen, htok]
    · simp [ClassAd.Assign, Assoc.get_put, received_bulkRequestID, hrc, hlen]
  · intro he
    have hlen : g.instanceIDs.length = 0 := by simp [he]
    simp only [OnDemandRequest.succeed, received_commandID]
    rw [attr_delTryCount _ _ _ _ (by decide), attr_delTryCount _ _ _ _ (by decide)]
    refine ⟨?_, ?_, ?_⟩
    · rw [hids.2]; simp [hlen]
    · rw [hids.1]; simp [hlen, hb]
    · simp [ClassAd.Assign, Assoc.get_put, received_bulkRequestID, hrc, hlen, hb]

/-- C5, as stated, fails: on giving up `operator()` writes nothing to the ledger, so the
try count committed before the call is still there.  Here the entry holds
`State_TryCount = 2`, the third attempt fails with code 1, and `operator()` returns
`FALSE` with `State_TryCount = 3` left in the entry. -/
theorem give_up_keeps_try_count :
    Option.map
        (fun out => (out.rc, out.process.commandState.attr "cmd" "State_TryCount"))
        (OnDemandRequest.call
          { service_url := "", public_key_file := "", secret_key_file := "",
            commandID := "cmd", clientToken := "tok", bulkRequestID := "",
            instanceIDs := [], targetCapacity := 1, instanceType := "t", imageID := "i",
            instanceProfileARN := "a" }
          { commandState :=
              ⟨[("cmd", [("State_ClientToken", Value.str "tok"),
                         ("State_TryCount", Value.int 2)])]⟩,
            incrementTryCount := true } [] []
          { rc := 1, instanceIDs := [], errorCode := "E", errorString := "failed" }) =
      some (StreamResult.FALSE, some (Value.int 3)) := by
  decide

/-- C5 (amended: permanent-failure path).  An invocation that reaches `ec2_vm_start`
gives up (returns `FALSE`) exactly when the result is non-zero, not pending, and the try
count of the invocation (the `int` read from the entry, incremented when the static flag
is set) is at least 3.  It then leaves the ledger exactly as committed before the call:
the entry still holds the `State_ClientToken` it held (the token of the object), and
`State_TryCount` is not cleared but keeps its committed value, which reads as at least 3
and is the try count of the invocation. -/
theorem give_up_path (q : OnDemandRequest) (p : Process) (reply sp : ClassAd)
    (g : GahpResult) (hb : q.bulkRequestID = "")
    (had : (p.commandState.Lookup q.commandID).isSome = true) :
    ∃ out sc, q.call p reply sp g = some out ∧ out.call = some sc ∧
      (out.rc = StreamResult.FALSE ↔
        (g.rc ≠ 0 ∧ isPending g.rc = false ∧ 3 ≤ q.tryCountAtCall p)) ∧
      (out.rc = StreamResult.FALSE →
        out.process.commandState = sc.committed ∧
        (∃ n, 3 ≤ wrapInt n ∧ wrapInt n = q.tryCountAtCall p ∧
          (p.incrementTryCount = true → 3 ≤ n) ∧
          out.process.commandState.attr q.commandID "State_TryCount" =
            some (Value.int n)) ∧
        (q.clientToken ≠ "" →
          p.commandState.attr q.commandID "State_ClientToken" =
            some (Value.str q.clientToken) →
          out.process.commandState.attr q.commandID "State_ClientToken" =
            some (Value.str q.clientToken))) := by
  have hcount := ledgerAtCall_tryCount q p had
  by_cases hp : isPending g.rc = true
  · refine ⟨_, q.startCall p, call_pending q p reply sp g hb had hp, rfl, ?_, ?_⟩
    · simp [hp]
    · intro h; cases h
  · have hp2 : isPending g.rc = false := by simpa using hp
    by_cases h0 : g.rc = 0
    · refine ⟨_, q.startCall p, call_success q p reply sp g hb had h0, rfl, ?_, ?_⟩
      · simp [OnDemandRequest.succeed, h0]
      · intro h; cases h
    · refine ⟨_, q.startCall p, call_failure q p reply sp g hb had h0 hp, fail_call _ _ _ _ _ _ _,
        ?_, ?_⟩
      · rw [fail_rc]
        by_cases h3 : q.tryCountAtCall p < 3
        · rw [if_pos h3]
          constructor
          · intro h; cases h
          · intro h; omega
        · rw [if_neg h3]
          constructor
          · intro _; exact ⟨h0, hp2, by omega⟩
          · intro _; rfl
      · rw [fail_rc, fail_process]
        intro hrc
        have h3 : 3 ≤ (q.ledgerAtCall p).tryCount q.commandID := by
          rw [hcount]
          by_contra hlt
          rw [if_pos (by omega)] at hrc
          cases hrc
        refine ⟨rfl, ?_, ?_⟩
        · show ∃ n, 3 ≤ wrapInt n ∧ wrapInt n = q.tryCountAtCall p ∧
            (p.incrementTryCount = true → 3 ≤ n) ∧
            (q.ledgerAtCall p).attr q.commandID "State_TryCount" = some (Value.int n)
          have h4 := h3
          rw [tryCount_eq_attr] at h3
          rw [← hcount, tryCount_eq_attr]
          cases hattr : (q.ledgerAtCall p).attr q.commandID "State_TryCount" with
          | none => simp [hattr] at h3
          | some v =>
            cases v with
            | str s => simp [hattr] at h3
            | int n =>
              have h5 : 3 ≤ wrapInt n := by simpa [hattr] using h3
              refine ⟨n, h5, rfl, ?_, rfl⟩
              intro hinc
              rw [ledgerAtCall_increment q p had hinc] at hattr
              simp only [Option.some.injEq, Value.int.injEq] at hattr
              rw [← hattr] at h5 ⊢
              rwa [wrapInt_wrapInt] at h5
        · intro htok hc
          exact ledgerAtCall_token q p _ htok hc


/-- Witness for C1: an entry that holds the token `tok`. -/
theorem token_reuse_across_restart_witness :
    ("tok" ≠ "" ∧
      ClassAdCollection.attr ⟨[("cmd", [("State_ClientToken", Value.str "tok")])]⟩
        "cmd" "State_ClientToken" = some (Value.str "tok")) ∧
    (OnDemandRequest.new none "" "" ""
        ⟨[("cmd", [("State_ClientToken", Value.str "tok")])]⟩ "cmd" "annex"
        (fun _ => "fresh")).1.clientToken = "tok" :=
  ⟨⟨by decide, by decide⟩,
    (token_reuse_across_restart none "" "" ""
      ⟨[("cmd", [("State_ClientToken", Value.str "tok")])]⟩ "cmd" "annex" "tok"
      (fun _ => "fresh") (by decide) (by decide)).1⟩

/-- Witness for C2: a fresh command whose first call is still pending. -/
theorem token_persisted_before_call_witness :
    ("cmd" ≠ "" ∧ (fun _ : String => "fresh") "annex" ≠ "") ∧
    ClassAdCollection.attr
        ⟨[("cmd", [("State_ClientToken", Value.str "fresh"),
                   ("State_TryCount", Value.int 1)])]⟩
        "cmd" "State_ClientToken" = some (Value.str "fresh") :=
  ⟨⟨by decide, by decide⟩,
    token_persisted_before_call none "" "" "" ⟨[("cmd", [])]⟩ "cmd" "annex"
      (fun _ => "fresh") (by decide) (by decide)
      { commandState := ⟨[("cmd", [])]⟩, incrementTryCount := true } [] []
      [{ rc := -100, instanceIDs := [], errorCode := "", errorString := "" }]
      { clientToken := "fresh", incremented := true,
        committed := ⟨[("cmd", [("State_ClientToken", Value.str "fresh"),
                                ("State_TryCount", Value.int 1)])]⟩ }
      (by decide)⟩

/-- Witness for C4: one instance comes back. -/
theorem success_path_witness :
    ("" = "" ∧ (ClassAdCollection.Lookup ⟨[("cmd", [])]⟩ "cmd").isSome = true ∧
      "cmd" ≠ "" ∧ "tok" ≠ "" ∧ (0 : Int) = 0) ∧
    ∃ out,
      OnDemandRequest.call
        { service_url := "", public_key_file := "", secret_key_file := "",
          commandID := "cmd", clientToken := "tok", bulkRequestID := "",
          instanceIDs := [], targetCapacity := 1, instanceType := "t", imageID := "i",
          instanceProfileARN := "a" }
        { commandState := ⟨[("cmd", [])]⟩, incrementTryCount := true } [] []
        { rc := 0, instanceIDs := ["i-1"], errorCode := "", errorString := "" } = some out ∧
      out.rc = StreamResult.PASS_STREAM :=
  ⟨⟨rfl, by decide, by decide, by decide, rfl⟩,
    match success_path
        { service_url := "", public_key_file := "", secret_key_file := "",
          commandID := "cmd", clientToken := "tok", bulkRequestID := "",
          instanceIDs := [], targetCapacity := 1, instanceType := "t", imageID := "i",
          instanceProfileARN := "a" }
        { commandState := ⟨[("cmd", [])]⟩, incrementTryCount := true } [] []
        { rc := 0, instanceIDs := ["i-1"], errorCode := "", errorString := "" } rfl
        (by decide) (by decide) (by decide) rfl with
    | ⟨out, _, h1, _, h3, _⟩ => ⟨out, h1, h3⟩⟩

/-- Witness for C5: the third attempt fails. -/
theorem give_up_path_witness :
    ("" = "" ∧
      (ClassAdCollection.Lookup ⟨[("cmd", [("State_TryCount", Value.int 2)])]⟩ "cmd").isSome =
        true) ∧
    ∃ out,
      OnDemandRequest.call
        { service_url := "", public_key_file := "", secret_key_file := "",
          commandID := "cmd", clientToken := "tok", bulkRequestID := "",
          instanceIDs := [], targetCapacity := 1, instanceType := "t", imageID := "i",
          instanceProfileARN := "a" }
        { commandState := ⟨[("cmd", [("State_TryCount", Value.int 2)])]⟩,
          incrementTryCount := true } [] []
        { rc := 1, instanceIDs := [], errorCode := "E", errorString := "failed" } = some out ∧
      out.rc = StreamResult.FALSE :=
  ⟨⟨rfl, by decide⟩,
    match give_up_path
        { service_url := "", public_key_file := "", secret_key_file := "",
          commandID := "cmd", clientToken := "tok", bulkRequestID := "",
          instanceIDs := [], targetCapacity := 1, instanceType := "t", imageID := "i",
          instanceProfileARN := "a" }
        { commandState := ⟨[("cmd", [("State_TryCount", Value.int 2)])]⟩,
          incrementTryCount := true } [] []
        { rc := 1, instanceIDs := [], errorCode := "E", errorString := "failed" } rfl
        (by decide) with
    | ⟨out, _, h1, _, h3, _⟩ => ⟨out, h1, h3.mpr ⟨by decide, by decide, by decide⟩⟩⟩

end Annex

/-! ## Lemmas on the slot limiter -/

namespace Globus

theorem hasRoom_iff (s : GlobusResource) :
    s.hasRoom = true ↔ s.held < s.submitJMLimit + s.restartJMLimit := by
  simp [GlobusResource.hasRoom, GlobusResource.held]

/-- The function `promote` moves at most one job, and only into a free slot. -/
theorem promote_spec (s : GlobusResource) :
    (s.promote).submitJMLimit = s.submitJMLimit ∧
    (s.promote).restartJMLimit = s.restartJMLimit ∧
    ((s.promote).held = s.held ∨
      ((s.promote).held = s.held + 1 ∧ s.held < s.submitJMLimit + s.restartJMLimit)) := by
  unfold GlobusResource.promote
  split
  · rename_i h
    have hroom := (hasRoom_iff s).mp h.1
    split
    · split
      · exact ⟨rfl, rfl, Or.inl rfl⟩
      · refine ⟨rfl, rfl, Or.inr ⟨?_, hroom⟩⟩
        simp [GlobusResource.held]; omega
    · split
      · exact ⟨rfl, rfl, Or.inl rfl⟩
      · refine ⟨rfl, rfl, Or.inr ⟨?_, hroom⟩⟩
        simp [GlobusResource.held]; omega
  · exact ⟨rfl, rfl, Or.inl rfl⟩

/-- The function `vacate` never adds a held slot. -/
theorem vacate_spec (s : GlobusResource) (job : Option GlobusJob) :
    (s.vacate job).2.submitJMLimit = s.submitJMLimit ∧
    (s.vacate job).2.restartJMLimit = s.restartJMLimit ∧
    (s.vacate job).2.held ≤ s.held := by
  unfold GlobusResource.vacate
  cases job with
  | none => exact ⟨rfl, rfl, le_refl _⟩
  | some j =>
    simp only
    split
    · refine ⟨rfl, rfl, ?_⟩
      rename_i h
      simp [GlobusResource.held, List.length_erase_of_mem h]
    · split
      · refine ⟨rfl, rfl, ?_⟩
        rename_i h
        simp [GlobusResource.held, List.length_erase_of_mem h]
      · exact ⟨rfl, rfl, le_refl _⟩

theorem JMComplete_limits (s : GlobusResource) (job : Option GlobusJob) :
    (s.JMComplete job).submitJMLimit = s.submitJMLimit ∧
    (s.JMComplete job).restartJMLimit = s.restartJMLimit := by
  unfold GlobusResource.JMComplete
  split
  · obtain ⟨a, b, _⟩ := promote_spec (s.vacate job).2
    obtain ⟨c, d, _⟩ := vacate_spec s job
    exact ⟨a.trans c, b.trans d⟩
  · cases job <;> exact ⟨rfl, rfl⟩

/-- The function `JMComplete` keeps the slot bound. -/
theorem JMComplete_SlotBound (s : GlobusResource) (job : Option GlobusJob)
    (h : s.SlotBound) : (s.JMComplete job).SlotBound := by
  unfold GlobusResource.SlotBound at h ⊢
  obtain ⟨l1, l2⟩ := JMComplete_limits s job
  rw [l1, l2]
  unfold GlobusResource.JMComplete
  split
  · obtain ⟨a, b, hp⟩ := promote_spec (s.vacate job).2
    obtain ⟨c, d, hv⟩ := vacate_spec s job
    rw [c, d] at hp
    rcases hp with hp | ⟨hp, hlt⟩ <;> omega
  · cases job with
    | none => exact h
    | some j => simpa [GlobusResource.held] using h

/-- The function `RequestJM` keeps the limits and the slot bound. -/
theorem RequestJM_SlotBound (s : GlobusResource) (job : GlobusJob) (is_submit : Bool)
    (h : s.SlotBound) : (s.RequestJM job is_submit).2.SlotBound := by
  unfold GlobusResource.SlotBound at h ⊢
  unfold GlobusResource.RequestJM
  by_cases hroom : s.hasRoom = true
  · have hlt := (hasRoom_iff s).mp hroom
    unfold GlobusResource.held at hlt h
    cases is_submit <;> simp only [Bool.false_eq_true, if_false, if_true] <;>
      (split_ifs <;> simp [GlobusResource.held] <;> omega)
  · unfold GlobusResource.held at h
    cases is_submit <;> simp only [Bool.false_eq_true, if_false, if_true] <;>
      (split_ifs <;> simp [GlobusResource.held] <;> omega)

/-- The loop of `Reconfig` keeps the slot bound. -/
theorem widen_SlotBound (fuel : Nat) (s : GlobusResource) (h : s.SlotBound) :
    (GlobusResource.widen fuel s).SlotBound := by
  induction fuel generalizing s with
  | zero => exact h
  | succ n ih =>
    unfold GlobusResource.widen
    split
    · exact ih _ (JMComplete_SlotBound s none h)
    · exact h

theorem setLimits_held (s : GlobusResource) (tmp_int : Int) :
    (s.setLimits tmp_int).held = s.held := by
  unfold GlobusResource.setLimits
  split <;> rfl

/-- A call that is within capacity keeps the slot bound. -/
theorem step_SlotBound (s : GlobusResource) (op : Op) (h : s.SlotBound)
    (hop : op.withinCapacity s) : (s.step op).SlotBound := by
  cases op with
  | RequestJM job is_submit => exact RequestJM_SlotBound s job is_submit h
  | JMComplete job => exact JMComplete_SlotBound s job h
  | JMAlreadyRunning job =>
    simp only [Op.withinCapacity, GlobusResource.held] at hop
    simp only [GlobusResource.step, GlobusResource.JMAlreadyRunning, GlobusResource.SlotBound,
      GlobusResource.held, List.length_append, List.length_singleton]
    push_cast
    omega
  | Reconfig tmp_int =>
    simp only [Op.withinCapacity] at hop
    simp only [GlobusResource.step, GlobusResource.Reconfig]
    apply widen_SlotBound
    unfold GlobusResource.SlotBound
    rw [setLimits_held]
    exact hop

end Globus

/-! ## Claims on the slot limiter -/

namespace Globus

/-- C6, as stated, fails.  `JMAlreadyRunning` appends to the restart allowed queue without
any test: with limits 1 + 1, three calls leave three slots held.  And `Reconfig` evicts
nobody: three slots granted under the default limits 5 + 5 stay held when the limits are
lowered to 1 + 1. -/
theorem slot_bound_broken :
    ¬ (GlobusResource.new.run
        [Op.Reconfig 2, Op.JMAlreadyRunning 1, Op.JMAlreadyRunning 2,
         Op.JMAlreadyRunning 3]).SlotBound ∧
    ¬ (GlobusResource.new.run
        [Op.RequestJM 1 true, Op.RequestJM 2 true, Op.RequestJM 3 true,
         Op.Reconfig 2]).SlotBound := by
  decide

/-- C6 (amended: slot bound).  Starting from empty queues (under limits whose sum is not
negative, such as the constructor's 5 + 5), after any sequence of `RequestJM`,
`JMComplete`, `JMAlreadyRunning` and `Reconfig` calls in which every `JMAlreadyRunning` is
made while a slot is free and every `Reconfig` installs a combined limit that is not below
the number of slots held at that moment, the number of slots held is at most
`submitJMLimit + restartJMLimit`. -/
theorem slot_bound (submitJMLimit restartJMLimit : Int) (ops : List Op)
    (hlim : 0 ≤ submitJMLimit + restartJMLimit)
    (hops : (GlobusResource.empty submitJMLimit restartJMLimit).allWithinCapacity ops) :
    ((GlobusResource.empty submitJMLimit restartJMLimit).run ops).SlotBound := by
  have key : ∀ (ops : List Op) (s : GlobusResource), s.SlotBound →
      s.allWithinCapacity ops → (s.run ops).SlotBound := by
    intro ops
    induction ops with
    | nil => intro s h _; exact h
    | cons op ops ih =>
      intro s h hall
      exact ih (s.step op) (step_SlotBound s op h hall.1) hall.2
  apply key ops _ _ hops
  simpa [GlobusResource.SlotBound, GlobusResource.held, GlobusResource.empty] using hlim

/-- Witness for C6: grants, a release, a widening reconfiguration and a running job
manager under the constructor's limits. -/
theorem slot_bound_witness :
    ((0 : Int) ≤ 5 + 5 ∧
      (GlobusResource.empty 5 5).allWithinCapacity
        [Op.RequestJM 1 true, Op.RequestJM 2 false, Op.JMComplete (some 1),
         Op.Reconfig 20, Op.JMAlreadyRunning 3]) ∧
    ((GlobusResource.empty 5 5).run
        [Op.RequestJM 1 true, Op.RequestJM 2 false, Op.JMComplete (some 1),
         Op.Reconfig 20, Op.JMAlreadyRunning 3]).SlotBound :=
  ⟨⟨by decide, by
      simp only [GlobusResource.allWithinCapacity, Op.withinCapacity]
      decide⟩,
    slot_bound 5 5 _ (by decide) (by
      simp only [GlobusResource.allWithinCapacity, Op.withinCapacity]
      decide)⟩

/-- C7 (grant rule of `RequestJM`).  For a job that is in neither the allowed nor the
wanted queue of the requested kind: if the number of slots held is strictly below
`submitJMLimit + restartJMLimit` the call returns `true` and the state differs only in
that kind's allowed queue, which has the job appended at its tail; otherwise it returns
`false` and the state differs only in that kind's wanted queue, which has the job appended
at its tail. -/
theorem RequestJM_grant_rule (s : GlobusResource) (job : GlobusJob) (is_submit : Bool)
    (hallowed : job ∉ (if is_submit then s.submitJMsAllowed else s.restartJMsAllowed))
    (hwanted : job ∉ (if is_submit then s.submitJMsWanted else s.restartJMsWanted)) :
    s.RequestJM job is_submit =
      if s.held < s.submitJMLimit + s.restartJMLimit then
        (true,
          if is_submit then { s with submitJMsAllowed := s.submitJMsAllowed ++ [job] }
          else { s with restartJMsAllowed := s.restartJMsAllowed ++ [job] })
      else
        (false,
          if is_submit then { s with submitJMsWanted := s.submitJMsWanted ++ [job] }
          else { s with restartJMsWanted := s.restartJMsWanted ++ [job] }) := by
  unfold GlobusResource.RequestJM
  by_cases hroom : s.hasRoom = true
  · have hlt := (hasRoom_iff s).mp hroom
    cases is_submit <;> simp_all
  · have hlt : ¬ s.held < s.submitJMLimit + s.restartJMLimit :=
      fun h => hroom ((hasRoom_iff s).mpr h)
    rw [if_neg hlt]
    cases is_submit <;> simp_all

/-- Witness for C7: a second job asks for a submit slot while one of two is held. -/
theorem RequestJM_grant_rule_witness :
    ((2 : GlobusJob) ∉ [1] ∧ (2 : GlobusJob) ∉ ([] : List GlobusJob)) ∧
    GlobusResource.RequestJM
        { submitJMLimit := 1, restartJMLimit := 1, submitJMsWanted := [],
          submitJMsAllowed := [1], restartJMsWanted := [], restartJMsAllowed := [],
          evaluated := [] } 2 true =
      (true,
        { submitJMLimit := 1, restartJMLimit := 1, submitJMsWanted := [],
          submitJMsAllowed := [1, 2], restartJMsWanted := [], restartJMsAllowed := [],
          evaluated := [] }) :=
  ⟨⟨by decide, by decide⟩,
    (RequestJM_grant_rule
      { submitJMLimit := 1, restartJMLimit := 1, submitJMsWanted := [],
        submitJMsAllowed := [1], restartJMsWanted := [], restartJMsAllowed := [],
        evaluated := [] } 2 true (by decide) (by decide)).trans (by decide)⟩


/-- C8, as stated, fails: `RequestJM` compares the slots held with the combined limit
`submitJMLimit + restartJMLimit` = 2, so the second submit request is granted as well and
only the third one waits; releasing the first job then promotes the third. -/
theorem scenario2_second_request_is_granted :
    ((GlobusResource.empty 1 1).RequestJM 1 true).1 = true ∧
    (((GlobusResource.empty 1 1).RequestJM 1 true).2.RequestJM 2 true).1 = true ∧
    ((((GlobusResource.empty 1 1).RequestJM 1 true).2.RequestJM 2 true).2.RequestJM 3 true).1 =
      false ∧
    2 ∉ ((GlobusResource.empty 1 1).run
          [Op.RequestJM 1 true, Op.RequestJM 2 true, Op.RequestJM 3 true]).submitJMsWanted ∧
    ((GlobusResource.empty 1 1).run
        [Op.RequestJM 1 true, Op.RequestJM 2 true, Op.RequestJM 3 true,
         Op.JMComplete (some 1)]).evaluated = [3] := by
  decide

/-- C8 (amended: scenario 2).  From empty queues with `submitJMLimit = 1` and
`restartJMLimit = 1`, three submit-kind `RequestJM` calls of three distinct jobs return
granted, granted, queued, leaving `j1, j2` in the submit allowed queue and `j3` waiting;
a following `JMComplete(j1)` promotes `j3` into the submit allowed queue (behind `j2`),
signals it, and leaves nobody waiting. -/
theorem scenario2 (j1 j2 j3 : GlobusJob) (h12 : j1 ≠ j2) (h13 : j1 ≠ j3) (h23 : j2 ≠ j3) :
    ((GlobusResource.empty 1 1).RequestJM j1 true).1 = true ∧
    (((GlobusResource.empty 1 1).RequestJM j1 true).2.RequestJM j2 true).1 = true ∧
    ((((GlobusResource.empty 1 1).RequestJM j1 true).2.RequestJM j2 true).2.RequestJM
        j3 true).1 = false ∧
    (GlobusResource.empty 1 1).run
        [Op.RequestJM j1 true, Op.RequestJM j2 true, Op.RequestJM j3 true] =
      { GlobusResource.empty 1 1 with submitJMsAllowed := [j1, j2], submitJMsWanted := [j3] } ∧
    (GlobusResource.empty 1 1).run
        [Op.RequestJM j1 true, Op.RequestJM j2 true, Op.RequestJM j3 true,
         Op.JMComplete (some j1)] =
      { GlobusResource.empty 1 1 with submitJMsAllowed := [j2, j3], evaluated := [j3] } := by
  have h21 : j2 ≠ j1 := fun e => h12 e.symm
  have h31 : j3 ≠ j1 := fun e => h13 e.symm
  have h32 : j3 ≠ j2 := fun e => h23 e.symm
  simp [GlobusResource.run, GlobusResource.step, GlobusResource.RequestJM,
    GlobusResource.empty, GlobusResource.hasRoom, GlobusResource.JMComplete,
    GlobusResource.vacate, GlobusResource.promote, h12, h13, h23, h21, h31, h32]

/-- Witness for C8: the jobs 1, 2, 3. -/
theorem scenario2_witness :
    ((1 : GlobusJob) ≠ 2 ∧ (1 : GlobusJob) ≠ 3 ∧ (2 : GlobusJob) ≠ 3) ∧
    (GlobusResource.empty 1 1).run
        [Op.RequestJM 1 true, Op.RequestJM 2 true, Op.RequestJM 3 true,
         Op.JMComplete (some 1)] =
      { GlobusResource.empty 1 1 with submitJMsAllowed := [2, 3], evaluated := [3] } :=
  ⟨⟨by decide, by decide, by decide⟩,
    (scenario2 1 2 3 (by decide) (by decide) (by decide)).2.2.2.2⟩


theorem nodup_append_erase_left (a w : List GlobusJob) (j : GlobusJob)
    (h : (a ++ w).Nodup) : (a.erase j ++ w).Nodup :=
  h.sublist ((List.erase_sublist j a).append (List.Sublist.refl w))

theorem nodup_append_erase_right (a w : List GlobusJob) (j : GlobusJob)
    (h : (a ++ w).Nodup) : (a ++ w.erase j).Nodup :=
  h.sublist ((List.Sublist.refl a).append (List.erase_sublist j w))

theorem nodup_append_snoc (a w : List GlobusJob) (j : GlobusJob)
    (h : (a ++ w).Nodup) (ha : j ∉ a) (hw : j ∉ w) : ((a ++ [j]) ++ w).Nodup := by
  have hp : ((a ++ [j]) ++ w).Perm (j :: (a ++ w)) := by
    rw [List.append_assoc]
    exact List.perm_middle
  rw [hp.nodup_iff, List.nodup_cons]
  exact ⟨by simp [ha, hw], h⟩

theorem vacate_NoDup (s : GlobusResource) (job : Option GlobusJob) (h : s.NoDup) :
    (s.vacate job).2.NoDup := by
  unfold GlobusResource.vacate
  cases job with
  | none => exact h
  | some j =>
    simp only
    split
    · exact ⟨nodup_append_erase_left _ _ j h.1, h.2⟩
    · split
      · exact ⟨h.1, nodup_append_erase_left _ _ j h.2⟩
      · exact h

theorem promote_NoDup (s : GlobusResource) (h : s.NoDup) : s.promote.NoDup := by
  unfold GlobusResource.promote
  split
  · split
    · cases hw : s.restartJMsWanted with
      | nil => simpa [hw] using h
      | cons q rest =>
        have h2 := h.2
        rw [hw] at h2
        simp only [List.head?_cons, List.erase_cons_head]
        refine ⟨h.1, ?_⟩
        simpa [List.append_assoc] using h2
    · cases hw : s.submitJMsWanted with
      | nil => simpa [hw] using h
      | cons q rest =>
        have h1 := h.1
        rw [hw] at h1
        simp only [List.head?_cons, List.erase_cons_head]
        refine ⟨?_, h.2⟩
        simpa [List.append_assoc] using h1
  · exact h

theorem JMComplete_NoDup (s : GlobusResource) (job : Option GlobusJob) (h : s.NoDup) :
    (s.JMComplete job).NoDup := by
  unfold GlobusResource.JMComplete
  split
  · exact promote_NoDup _ (vacate_NoDup s job h)
  · cases job with
    | none => exact h
    | some j =>
      exact ⟨nodup_append_erase_right _ _ j h.1, nodup_append_erase_right _ _ j h.2⟩

theorem RequestJM_NoDup (s : GlobusResource) (job : GlobusJob) (is_submit : Bool)
    (h : s.NoDup) : (s.RequestJM job is_submit).2.NoDup := by
  unfold GlobusResource.RequestJM
  cases is_submit
  · simp only [Bool.false_eq_true, if_false]
    by_cases hw : job ∈ s.restartJMsWanted
    · simpa [hw] using h
    · by_cases ha : job ∈ s.restartJMsAllowed
      · simpa [hw, ha] using h
      · by_cases hr : s.hasRoom = true
        · simp only [hw, ha, hr, if_false, if_true]
          exact ⟨h.1, nodup_append_snoc _ _ job h.2 ha hw⟩
        · simp only [hw, ha, hr, if_false]
          refine ⟨h.1, ?_⟩
          show (s.restartJMsAllowed ++ (s.restartJMsWanted ++ [job])).Nodup
          rw [← List.append_assoc]
          exact List.Nodup.append h.2 (List.nodup_singleton job) (by simp [ha, hw])
  · simp only [if_true]
    by_cases hw : job ∈ s.submitJMsWanted
    · simpa [hw] using h
    · by_cases ha : job ∈ s.submitJMsAllowed
      · simpa [hw, ha] using h
      · by_cases hr : s.hasRoom = true
        · simp only [hw, ha, hr, if_false, if_true]
          exact ⟨nodup_append_snoc _ _ job h.1 ha hw, h.2⟩
        · simp only [hw, ha, hr, if_false]
          refine ⟨?_, h.2⟩
          show (s.submitJMsAllowed ++ (s.submitJMsWanted ++ [job])).Nodup
          rw [← List.append_assoc]
          exact List.Nodup.append h.1 (List.nodup_singleton job) (by simp [ha, hw])

/-- Every state reachable through `RequestJM` and `JMComplete` is free of duplicates
within each kind. -/
theorem Reachable.NoDup {s : GlobusResource} (h : Reachable s) : s.NoDup := by
  induction h with
  | empty a b => simp [GlobusResource.NoDup, GlobusResource.empty]
  | RequestJM s job k _ ih => exact RequestJM_NoDup s job k ih
  | JMComplete s job _ ih => exact JMComplete_NoDup s job ih

/-- The function `promote` brings no job into the queues that was in none of them. -/
theorem promote_absent (s : GlobusResource) (job : GlobusJob) (h : s.absent job) :
    s.promote.absent job := by
  obtain ⟨h1, h2, h3, h4⟩ := h
  unfold GlobusResource.promote
  split
  · split
    · cases hw : s.restartJMsWanted with
      | nil => simpa [hw, GlobusResource.absent] using ⟨h1, h2, h3⟩
      | cons q rest =>
        rw [hw] at h4
        have hq : job ≠ q := fun e => h4 (by simp [e])
        have hrest : job ∉ rest := fun e => h4 (by simp [e])
        simp [GlobusResource.absent, h1, h2, h3, hq, hrest]
    · cases hw : s.submitJMsWanted with
      | nil => simpa [hw, GlobusResource.absent] using ⟨h1, h2, h4⟩
      | cons q rest =>
        rw [hw] at h3
        have hq : job ≠ q := fun e => h3 (by simp [e])
        have hrest : job ∉ rest := fun e => h3 (by simp [e])
        simp [GlobusResource.absent, h1, h2, h4, hq, hrest]
  · exact ⟨h1, h2, h3, h4⟩


/-- C9, as stated, fails.  A job that was granted a submit slot and a restart slot is in
both allowed queues; `JMComplete` stops at the first successful `Delete`, so the job stays
in the restart allowed queue. -/
theorem release_leaves_second_slot :
    Reachable (((GlobusResource.empty 5 5).RequestJM 1 true).2.RequestJM 1 false).2 ∧
    1 ∈ ((((GlobusResource.empty 5 5).RequestJM 1 true).2.RequestJM 1 false).2.JMComplete
          (some 1)).restartJMsAllowed :=
  ⟨Reachable.RequestJM _ 1 false (Reachable.RequestJM _ 1 true (Reachable.empty 5 5)),
    by decide⟩

/-- C10 (promotion tie-break).  Let `JMComplete(job)` have vacated an allowed slot or been
called with NULL, `v` being the state right after that; let the slots held in `v` be below
the combined limit and both wanted queues non-empty.  Then exactly one job is promoted:
if the restart allowed count is below `restartJMLimit` it is the head of the restart
wanted queue, otherwise it is the head of the submit wanted queue and the submit allowed
count is below `submitJMLimit`; in both cases the promoted job leaves the head of its
wanted queue, is appended to the allowed queue of its kind and gets `SetEvaluateState`,
and nothing else changes. -/
theorem promotion_tie_break (s v : GlobusResource) (job : Option GlobusJob)
    (hv : s.vacate job = (true, v))
    (hroom : v.held < v.submitJMLimit + v.restartJMLimit)
    (hsub : v.submitJMsWanted ≠ []) (hres : v.restartJMsWanted ≠ []) :
    ((v.restartJMsAllowed.length : Int) < v.restartJMLimit →
      ∃ queued_job rest, v.restartJMsWanted = queued_job :: rest ∧
        s.JMComplete job =
          { v with restartJMsWanted := rest,
                   restartJMsAllowed := v.restartJMsAllowed ++ [queued_job],
                   evaluated := v.evaluated ++ [queued_job] }) ∧
    (¬ (v.restartJMsAllowed.length : Int) < v.restartJMLimit →
      (v.submitJMsAllowed.length : Int) < v.submitJMLimit ∧
      ∃ queued_job rest, v.submitJMsWanted = queued_job :: rest ∧
        s.JMComplete job =
          { v with submitJMsWanted := rest,
                   submitJMsAllowed := v.submitJMsAllowed ++ [queued_job],
                   evaluated := v.evaluated ++ [queued_job] }) := by
  have hJM : s.JMComplete job = v.promote := by
    unfold GlobusResource.JMComplete; simp [hv]
  have hr := (hasRoom_iff v).mpr hroom
  obtain ⟨qs, rs, hqs⟩ := List.exists_cons_of_ne_nil hsub
  obtain ⟨qr, rr, hqr⟩ := List.exists_cons_of_ne_nil hres
  constructor
  · intro hlt
    refine ⟨qr, rr, hqr, ?_⟩
    rw [hJM]
    unfold GlobusResource.promote
    simp [hr, hqs, hqr, hlt]
  · intro hge
    refine ⟨?_, qs, rs, hqs, ?_⟩
    · unfold GlobusResource.held at hroom
      omega
    · rw [hJM]
      unfold GlobusResource.promote
      simp [hr, hqs, hqr, hge]

/-- Witness for C10: job 1 releases its submit slot while jobs 2 (submit) and 3
(restart) wait; the restart job is promoted. -/
theorem promotion_tie_break_witness :
    (GlobusResource.vacate
        { submitJMLimit := 1, restartJMLimit := 1, submitJMsWanted := [2],
          submitJMsAllowed := [1], restartJMsWanted := [3], restartJMsAllowed := [],
          evaluated := [] } (some 1) =
      (true,
        { submitJMLimit := 1, restartJMLimit := 1, submitJMsWanted := [2],
          submitJMsAllowed := [], restartJMsWanted := [3], restartJMsAllowed := [],
          evaluated := [] }) ∧
      (0 : Int) < 1 + 1 ∧ ([2] : List GlobusJob) ≠ [] ∧ ([3] : List GlobusJob) ≠ []) ∧
    ∃ queued_job rest, ([3] : List GlobusJob) = queued_job :: rest ∧
      GlobusResource.JMComplete
          { submitJMLimit := 1, restartJMLimit := 1, submitJMsWanted := [2],
            submitJMsAllowed := [1], restartJMsWanted := [3], restartJMsAllowed := [],
            evaluated := [] } (some 1) =
        { submitJMLimit := 1, restartJMLimit := 1, submitJMsWanted := [2],
          submitJMsAllowed := [], restartJMsWanted := rest,
          restartJMsAllowed := [] ++ [queued_job], evaluated := [] ++ [queued_job] } :=
  ⟨⟨by decide, by decide, by decide, by decide⟩,
    (promotion_tie_break
      { submitJMLimit := 1, restartJMLimit := 1, submitJMsWanted := [2],
        submitJMsAllowed := [1], restartJMsWanted := [3], restartJMsAllowed := [],
        evaluated := [] }
      { submitJMLimit := 1, restartJMLimit := 1, submitJMsWanted := [2],
        submitJMsAllowed := [], restartJMsWanted := [3], restartJMsAllowed := [],
        evaluated := [] }
      (some 1) (by decide) (by decide) (by decide) (by decide)).1 (by decide)⟩

end Globus

/-! ## Claims on `Reconfig` -/

namespace Globus

theorem widen_limits (fuel : Nat) (s : GlobusResource) :
    (GlobusResource.widen fuel s).submitJMLimit = s.submitJMLimit ∧
    (GlobusResource.widen fuel s).restartJMLimit = s.restartJMLimit := by
  induction fuel generalizing s with
  | zero => exact ⟨rfl, rfl⟩
  | succ n ih =>
    unfold GlobusResource.widen
    split
    · obtain ⟨a, b⟩ := ih (s.JMComplete none)
      obtain ⟨c, d⟩ := JMComplete_limits s none
      exact ⟨a.trans c, b.trans d⟩
    · exact ⟨rfl, rfl⟩

/-- C11 (limit split in `Reconfig`).  For a configured capacity `C ≠ 0`, with
`C' = max(C, 2)`, `Reconfig` leaves `submitJMLimit = floor(C'/2)` and
`restartJMLimit = C' - submitJMLimit`; so the two limits add up to `C' ≥ 2`, both are at
least 1, and `restartJMLimit - submitJMLimit` is 0 or 1.  For `C = 0` both limits are the
unlimited value. -/
theorem Reconfig_limit_split (s : GlobusResource) (C : Int) :
    (C ≠ 0 →
      (s.Reconfig C).submitJMLimit = max C 2 / 2 ∧
      (s.Reconfig C).restartJMLimit = max C 2 - (s.Reconfig C).submitJMLimit ∧
      (s.Reconfig C).submitJMLimit + (s.Reconfig C).restartJMLimit = max C 2 ∧
      2 ≤ max C 2 ∧
      1 ≤ (s.Reconfig C).submitJMLimit ∧ 1 ≤ (s.Reconfig C).restartJMLimit ∧
      ((s.Reconfig C).restartJMLimit - (s.Reconfig C).submitJMLimit = 0 ∨
        (s.Reconfig C).restartJMLimit - (s.Reconfig C).submitJMLimit = 1)) ∧
    (C = 0 →
      (s.Reconfig C).submitJMLimit = GM_RESOURCE_UNLIMITED ∧
      (s.Reconfig C).restartJMLimit = GM_RESOURCE_UNLIMITED) := by
  obtain ⟨h1, h2⟩ := widen_limits
    ((s.setLimits C).submitJMsWanted.length + (s.setLimits C).restartJMsWanted.length)
    (s.setLimits C)
  have e1 : (s.Reconfig C).submitJMLimit = (s.setLimits C).submitJMLimit := h1
  have e2 : (s.Reconfig C).restartJMLimit = (s.setLimits C).restartJMLimit := h2
  rw [e1, e2]
  constructor
  · intro hC
    by_cases h2 : C < 2
    · have hm : max C 2 = 2 := max_eq_right (le_of_lt h2)
      simp only [GlobusResource.setLimits, hC, if_false, h2, if_true, hm]
      decide
    · have hm : max C 2 = C := max_eq_left (by omega)
      simp only [GlobusResource.setLimits, hC, if_false, h2, hm]
      refine ⟨trivial, trivial, ?_, ?_, ?_, ?_, ?_⟩ <;> omega
  · intro hC
    simp [GlobusResource.setLimits, hC]

/-- Witness for C11: a configured capacity of 7. -/
theorem Reconfig_limit_split_witness :
    (7 : Int) ≠ 0 ∧
      (GlobusResource.new.Reconfig 7).submitJMLimit = max 7 2 / 2 ∧
      (GlobusResource.new.Reconfig 7).restartJMLimit =
        max 7 2 - (GlobusResource.new.Reconfig 7).submitJMLimit :=
  ⟨by decide,
    ((Reconfig_limit_split GlobusResource.new 7).1 (by decide)).1,
    ((Reconfig_limit_split GlobusResource.new 7).1 (by decide)).2.1⟩

/-- One promotion under the loop condition moves exactly one job. -/
theorem promote_moves (s : GlobusResource) (h : s.canPromote) :
    ∃ q, s.MovedTo s.promote [] [q] ∨ s.MovedTo s.promote [q] [] := by
  obtain ⟨hroom, hw⟩ := h
  unfold GlobusResource.promote
  simp only [hroom, hw, and_self, if_true]
  split
  · rename_i hc
    cases hrw : s.restartJMsWanted with
    | nil =>
      exfalso
      rcases hc with hc | hc
      · rcases hw with hw | hw
        · exact hw hc
        · simp [hrw] at hw
      · simp [hrw] at hc
    | cons q rest =>
      refine ⟨q, Or.inl ?_⟩
      simp [GlobusResource.MovedTo, hrw]
  · rename_i hc
    cases hsw : s.submitJMsWanted with
    | nil => simp [hsw] at hc
    | cons q rest =>
      refine ⟨q, Or.inr ?_⟩
      simp [GlobusResource.MovedTo, hsw]

theorem MovedTo_waiting {s r : GlobusResource} {ms mr : List GlobusJob}
    (h : s.MovedTo r ms mr) : s.waiting = ms.length + mr.length + r.waiting := by
  obtain ⟨h1, _, h3, _⟩ := h
  simp only [GlobusResource.waiting, h1, h3, List.length_append]
  omega

theorem MovedTo_trans {s r t : GlobusResource} {ms mr ms2 mr2 : List GlobusJob}
    (h : s.MovedTo r ms mr) (k : r.MovedTo t ms2 mr2) :
    s.MovedTo t (ms ++ ms2) (mr ++ mr2) := by
  obtain ⟨h1, h2, h3, h4, h5, h6, ev, h7, h8⟩ := h
  obtain ⟨k1, k2, k3, k4, k5, k6, ev2, k7, k8⟩ := k
  refine ⟨by rw [h1, k1, List.append_assoc], by rw [k2, h2, List.append_assoc],
    by rw [h3, k3, List.append_assoc], by rw [k4, h4, List.append_assoc],
    k5.trans h5, k6.trans h6, ev ++ ev2, by rw [k7, h7, List.append_assoc], ?_⟩
  have hp : (ev ++ ev2).Perm ((ms ++ mr) ++ (ms2 ++ mr2)) := h8.append k8
  refine hp.trans ?_
  simp only [List.append_assoc]
  exact List.Perm.append_left ms (List.perm_append_comm_assoc mr ms2 mr2)

theorem JMComplete_NULL (s : GlobusResource) : s.JMComplete none = s.promote := by
  simp [GlobusResource.JMComplete, GlobusResource.vacate]

/-- The loop of `Reconfig`, given at least as many rounds as jobs wait: it only moves
jobs, ends with the loop condition false, and more rounds change nothing. -/
theorem widen_spec (fuel : Nat) (s : GlobusResource) (hfuel : s.waiting ≤ fuel) :
    (∃ ms mr, s.MovedTo (GlobusResource.widen fuel s) ms mr) ∧
    ¬ (GlobusResource.widen fuel s).canPromote ∧
    GlobusResource.widen fuel s = GlobusResource.widen s.waiting s := by
  induction fuel generalizing s with
  | zero =>
    have hw : s.waiting = 0 := by omega
    refine ⟨⟨[], [], by simp [GlobusResource.MovedTo, GlobusResource.widen]⟩, ?_, by rw [hw]⟩
    intro hc
    have := hc.2
    simp only [GlobusResource.waiting] at hw
    simp only [GlobusResource.widen] at this
    omega
  | succ n ih =>
    by_cases hc : s.canPromote
    · obtain ⟨q, hq⟩ := promote_moves s hc
      have hstep : GlobusResource.widen (n + 1) s = GlobusResource.widen n s.promote := by
        have hc2 : s.hasRoom = true ∧
            (s.submitJMsWanted.length ≠ 0 ∨ s.restartJMsWanted.length ≠ 0) := hc
        rw [GlobusResource.widen, if_pos hc2, JMComplete_NULL]
      have hwait : s.waiting = s.promote.waiting + 1 := by
        rcases hq with hq | hq <;> have := MovedTo_waiting hq <;> simp at this <;> omega
      obtain ⟨⟨ms, mr, hm⟩, hnc, hind⟩ := ih s.promote (by omega)
      rw [hstep]
      refine ⟨?_, hnc, ?_⟩
      · rcases hq with hq | hq
        · exact ⟨_, _, MovedTo_trans hq hm⟩
        · exact ⟨_, _, MovedTo_trans hq hm⟩
      · rw [hind, hwait]
        have hc2 : s.hasRoom = true ∧
            (s.submitJMsWanted.length ≠ 0 ∨ s.restartJMsWanted.length ≠ 0) := hc
        rw [GlobusResource.widen, if_pos hc2, JMComplete_NULL]
    · have hc2 : ¬ (s.hasRoom = true ∧
          (s.submitJMsWanted.length ≠ 0 ∨ s.restartJMsWanted.length ≠ 0)) := hc
      have hstop : ∀ k, GlobusResource.widen k s = s := by
        intro k
        cases k with
        | zero => rfl
        | succ k => rw [GlobusResource.widen, if_neg hc2]
      rw [hstop, hstop]
      exact ⟨⟨[], [], by simp [GlobusResource.MovedTo]⟩, hc, rfl⟩

/-- C12 (`Reconfig` drains the wait queues).  For every limiter state and configured
value, the promotion loop of `Reconfig` ends after at most as many rounds as jobs wait
(any larger number of rounds gives the same state), and on exit the slots held are not
below `submitJMLimit + restartJMLimit` or both wanted queues are empty.  The jobs moved
were the heads of the wanted queues and were appended, in order, to the allowed queue of
their own kind (each one signalled): within each kind the allowed queue followed by the
wanted queue is the same list as before, so no job is lost or duplicated. -/
theorem Reconfig_drains (s : GlobusResource) (tmp_int : Int) :
    (∀ fuel, (s.setLimits tmp_int).waiting ≤ fuel →
      GlobusResource.widen fuel (s.setLimits tmp_int) = s.Reconfig tmp_int) ∧
    ((s.Reconfig tmp_int).submitJMLimit + (s.Reconfig tmp_int).restartJMLimit ≤
        (s.Reconfig tmp_int).held ∨
      ((s.Reconfig tmp_int).submitJMsWanted = [] ∧
        (s.Reconfig tmp_int).restartJMsWanted = [])) ∧
    (∃ ms mr, (s.setLimits tmp_int).MovedTo (s.Reconfig tmp_int) ms mr) ∧
    (s.Reconfig tmp_int).submitJMsAllowed ++ (s.Reconfig tmp_int).submitJMsWanted =
      s.submitJMsAllowed ++ s.submitJMsWanted ∧
    (s.Reconfig tmp_int).restartJMsAllowed ++ (s.Reconfig tmp_int).restartJMsWanted =
      s.restartJMsAllowed ++ s.restartJMsWanted := by
  have hR : s.Reconfig tmp_int =
      GlobusResource.widen (s.setLimits tmp_int).waiting (s.setLimits tmp_int) := rfl
  obtain ⟨⟨ms, mr, hm⟩, hnc, _⟩ :=
    widen_spec (s.setLimits tmp_int).waiting (s.setLimits tmp_int) (le_refl _)
  rw [← hR] at hm hnc
  have hq : (s.setLimits tmp_int).submitJMsWanted = s.submitJMsWanted ∧
      (s.setLimits tmp_int).submitJMsAllowed = s.submitJMsAllowed ∧
      (s.setLimits tmp_int).restartJMsWanted = s.restartJMsWanted ∧
      (s.setLimits tmp_int).restartJMsAllowed = s.restartJMsAllowed := by
    unfold GlobusResource.setLimits
    split <;> exact ⟨rfl, rfl, rfl, rfl⟩
  refine ⟨?_, ?_, ⟨ms, mr, hm⟩, ?_, ?_⟩
  · intro fuel hfuel
    rw [hR]
    exact (widen_spec fuel _ hfuel).2.2
  · by_cases hroom : (s.Reconfig tmp_int).hasRoom = true
    · right
      have hno : ¬ ((s.Reconfig tmp_int).submitJMsWanted.length ≠ 0 ∨
          (s.Reconfig tmp_int).restartJMsWanted.length ≠ 0) := fun h => hnc ⟨hroom, h⟩
      simp only [not_or, not_not, List.length_eq_zero] at hno
      exact hno
    · left
      have := (hasRoom_iff (s.Reconfig tmp_int)).not.mp hroom
      omega
  · obtain ⟨h1, h2, _⟩ := hm
    rw [h2, List.append_assoc, ← h1, hq.1, hq.2.1]
  · obtain ⟨_, _, h3, h4, _⟩ := hm
    rw [h4, List.append_assoc, ← h3, hq.2.2.1, hq.2.2.2]

/-- Witness for C12: two waiting jobs and a widening from 1 + 1 to 2 + 2. -/
theorem Reconfig_drains_witness :
    (GlobusResource.waiting
        (GlobusResource.setLimits
          { submitJMLimit := 1, restartJMLimit := 1, submitJMsWanted := [3],
            submitJMsAllowed := [1], restartJMsWanted := [4], restartJMsAllowed := [2],
            evaluated := [] } 4) ≤ 5) ∧
    GlobusResource.widen 5
        (GlobusResource.setLimits
          { submitJMLimit := 1, restartJMLimit := 1, submitJMsWanted := [3],
            submitJMsAllowed := [1], restartJMsWanted := [4], restartJMsAllowed := [2],
            evaluated := [] } 4) =
      GlobusResource.Reconfig
        { submitJMLimit := 1, restartJMLimit := 1, submitJMsWanted := [3],
          submitJMsAllowed := [1], restartJMsWanted := [4], restartJMsAllowed := [2],
          evaluated := [] } 4 :=
  ⟨by decide,
    (Reconfig_drains
      { submitJMLimit := 1, restartJMLimit := 1, submitJMsWanted := [3],
        submitJMsAllowed := [1], restartJMsWanted := [4], restartJMsAllowed := [2],
        evaluated := [] } 4).1 5 (by decide)⟩

end Globus

/-! ## Claims on the batch aggregator (BoincResource) -/

namespace Boinc

/-- The function `updateFirst` changes the first batch that satisfies the test, and only
that one. -/
theorem updateFirst_of_find (p : BoincBatch → Bool) (f : BoincBatch → BoincBatch)
    (l : List BoincBatch) (b : BoincBatch) (h : l.find? p = some b) :
    ∃ before after, l = before ++ b :: after ∧ (∀ a ∈ before, p a = false) ∧ p b = true ∧
      updateFirst p f l = before ++ f b :: after := by
  induction l with
  | nil => simp at h
  | cons x xs ih =>
    by_cases hx : p x = true
    · simp only [List.find?_cons, hx] at h
      cases h
      exact ⟨[], xs, rfl, by simp, hx, by simp [updateFirst, hx]⟩
    · have hx2 : p x = false := by simpa using hx
      simp only [List.find?_cons, hx2] at h
      obtain ⟨before, after, h1, h2, h3, h4⟩ := ih h
      refine ⟨x :: before, after, by simp [h1], ?_, h3, by simp [updateFirst, hx2, h4]⟩
      intro a ha
      rcases List.mem_cons.mp ha with rfl | ha
      · exact hx2
      · exact h2 a ha

/-- C14 (result of `Submit`).  `Submit` returns `BoincSubmitFailure` exactly when the job
has no batch name (error "Job has no batch name"), no batch with that name exists (error
"BoincBatch not found"), or the batch is in `BatchFailed` (error = its
`m_error_message`); it returns `BoincSubmitSuccess` exactly when the batch is in
`BatchSubmitted`; otherwise it returns `BoincSubmitWait`.  The batch list changes only
when the batch is in `BatchUnsubmitted` or `BatchMaybeSubmitted`, and then only in that
the job is inserted in the ready set of that batch; in every other case the state is
returned as it was. -/
theorem Submit_result (s : BoincResource) (now : Int) (job : BoincJob)
    (remoteBatchName : Option String) (error_str : String) :
    ((s.Submit now job remoteBatchName error_str).1 = BoincSubmitResponse.BoincSubmitFailure ↔
      (remoteBatchName = none ∨ s.batchOf remoteBatchName = none ∨
        ∃ b, s.batchOf remoteBatchName = some b ∧
          b.m_submit_status = BatchSubmitStatus.BatchFailed)) ∧
    (remoteBatchName = none →
      (s.Submit now job remoteBatchName error_str).2.1 = "Job has no batch name") ∧
    (remoteBatchName ≠ none → s.batchOf remoteBatchName = none →
      (s.Submit now job remoteBatchName error_str).2.1 = "BoincBatch not found") ∧
    (∀ b, s.batchOf remoteBatchName = some b →
      b.m_submit_status = BatchSubmitStatus.BatchFailed →
      (s.Submit now job remoteBatchName error_str).2.1 = b.m_error_message) ∧
    ((s.Submit now job remoteBatchName error_str).1 = BoincSubmitResponse.BoincSubmitSuccess ↔
      ∃ b, s.batchOf remoteBatchName = some b ∧
        b.m_submit_status = BatchSubmitStatus.BatchSubmitted) ∧
    ((s.Submit now job remoteBatchName error_str).1 = BoincSubmitResponse.BoincSubmitWait ↔
      ∃ b, s.batchOf remoteBatchName = some b ∧
        b.m_submit_status ≠ BatchSubmitStatus.BatchFailed ∧
        b.m_submit_status ≠ BatchSubmitStatus.BatchSubmitted) ∧
    (∀ b, s.batchOf remoteBatchName = some b →
      (b.m_submit_status = BatchSubmitStatus.BatchUnsubmitted ∨
        b.m_submit_status = BatchSubmitStatus.BatchMaybeSubmitted) →
      ∃ before after, s.m_batches = before ++ b :: after ∧
        (s.Submit now job remoteBatchName error_str).2.2.m_batches =
          before ++ { b with m_jobs_ready := insert job b.m_jobs_ready } :: after) ∧
    ((¬ ∃ b, s.batchOf remoteBatchName = some b ∧
        (b.m_submit_status = BatchSubmitStatus.BatchUnsubmitted ∨
          b.m_submit_status = BatchSubmitStatus.BatchMaybeSubmitted)) →
      (s.Submit now job remoteBatchName error_str).2.2 = s) := by
  cases remoteBatchName with
  | none => simp [BoincResource.Submit, BoincResource.batchOf]
  | some name =>
    cases hf : s.m_batches.find? (fun b => b.m_batch_name = name) with
    | none => simp [BoincResource.Submit, BoincResource.batchOf, hf]
    | some batch =>
      obtain ⟨before, after, h1, _, _, h4⟩ := updateFirst_of_find
        (fun b => b.m_batch_name = name)
        (fun b => { b with m_jobs_ready := insert job b.m_jobs_ready }) s.m_batches batch hf
      cases hst : batch.m_submit_status <;>
        simp [BoincResource.Submit, BoincResource.batchOf, hf, hst]
      · exact ⟨before, after, h1, by rw [h4, hst]⟩
      · exact ⟨before, after, h1, by rw [h4, hst]⟩

end Boinc

namespace Boinc

/-- Witness for C14: a job without a batch name. -/
theorem Submit_result_witness :
    (none : Option String) = none ∧
      (BoincResource.new.Submit 0 1 none "").2.1 = "Job has no batch name" :=
  ⟨rfl, (Submit_result BoincResource.new 0 1 none "").2.1 rfl⟩

/-- C18: what `UnregisterJob` does on a batch of two jobs that have both called `Submit`.
Jobs 1 and 2 (cluster 7) join a new batch at time 100 and call `Submit`; then job 1
unregisters.  The remaining batch has member set `{2}` but job 1 is still in its ready
set `{1, 2}`, so the two sets differ, and `BatchReadyToSubmit` is false at any later
time. -/
theorem UnregisterJob_keeps_ready_entry :
    ((BoincResource.new.JoinBatch 100 "schedd" (fun _ => 7) 1 "" "").bind fun r1 =>
      (r1.2.2.JoinBatch 100 "schedd" (fun _ => 7) 2 "" "").map fun r2 =>
        ((((r2.2.2.Submit 100 1 (some r1.2.1) "").2.2.Submit 100 2 (some r2.2.1) "").2.2.UnregisterJob
            1).m_batches.map
          fun b =>
            (b.m_submit_status, b.m_jobs, b.m_jobs_ready, BatchReadyToSubmit 1000 b))).toList =
      [[(BatchSubmitStatus.BatchUnsubmitted, {2}, {1, 2}, false)]] := by
  decide

/-- The loop of `UnregisterJob` up to and including the first batch it empties. -/
theorem unregisterLoop_spec (job : BoincJob) (before after : List BoincBatch)
    (b : BoincBatch) (hbefore : ∀ a ∈ before, a.m_jobs.erase job ≠ ∅)
    (hb : b.m_jobs.erase job = ∅) :
    unregisterLoop job (before ++ b :: after) =
      (before.map (fun a => { a with m_jobs := a.m_jobs.erase job }) ++ after, some b) := by
  induction before with
  | nil => simp [unregisterLoop, hb]
  | cons x xs ih =>
    have hx : x.m_jobs.erase job ≠ ∅ := hbefore x (by simp)
    have := ih (fun a ha => hbefore a (by simp [ha]))
    simp [unregisterLoop, hx, this]

/-- The loop of `UnregisterJob` leaves no batch without members, if there was none. -/
theorem unregisterLoop_nonempty (job : BoincJob) (l : List BoincBatch)
    (h : ∀ a ∈ l, a.m_jobs ≠ ∅) : ∀ a ∈ (unregisterLoop job l).1, a.m_jobs ≠ ∅ := by
  induction l with
  | nil => simp [unregisterLoop]
  | cons x xs ih =>
    have hxs : ∀ a ∈ xs, a.m_jobs ≠ ∅ := fun a ha => h a (by simp [ha])
    unfold unregisterLoop
    split
    · exact hxs
    · rename_i hx
      intro a ha
      rcases List.mem_cons.mp ha with rfl | ha
      · exact hx
      · exact ih hxs a ha

theorem UnregisterJob_batches (s : BoincResource) (job : BoincJob) :
    (s.UnregisterJob job).m_batches = (unregisterLoop job s.m_batches).1 := by
  unfold BoincResource.UnregisterJob
  split
  · rfl
  · rfl

/-- C19, as stated, fails: "all other batches are unchanged" does not hold for a batch
that precedes the emptied one and also has the job as a member.  Job 1 joins batch `a`
(with job 2) and batch `b` (alone); `UnregisterJob(1)` deletes `b` and also takes job 1
out of `a`. -/
theorem UnregisterJob_changes_earlier_batch :
    ((BoincResource.new.JoinBatch 100 "schedd" (fun _ => 7) 1 "" "a").bind fun r1 =>
      (r1.2.2.JoinBatch 100 "schedd" (fun _ => 7) 2 "" "a").bind fun r2 =>
        (r2.2.2.JoinBatch 100 "schedd" (fun _ => 7) 1 "" "b").map fun r3 =>
          (r3.2.2.m_batches.map (fun b => (b.m_batch_name, b.m_jobs)),
            (r3.2.2.UnregisterJob 1).m_batches.map
              (fun b => (b.m_batch_name, b.m_jobs)))).toList =
      [([("a", {1, 2}), ("b", {1})], [("a", {2})])] := by
  decide

/-- C19 (amended: teardown of an empty batch).  Let `b` be the first batch of the list
that is empty once the job is taken out of its member set.  After `UnregisterJob(job)`
that batch is gone from the list, the batches behind it are unchanged, and the batches
before it are unchanged except that the job is taken out of their member sets; neither
`m_activeSubmitBatch` nor `m_activeLeaseBatch` refers to `b` (a pointer that did is reset
to NULL, with the gahp's pending requests purged and the timer re-armed with delay 0, and
a pointer that did not is left alone).  And for every state and job: if no batch was
without members before the call, none is after it. -/
theorem UnregisterJob_teardown (s : BoincResource) (job : BoincJob)
    (before after : List BoincBatch) (b : BoincBatch)
    (hs : s.m_batches = before ++ b :: after)
    (hbefore : ∀ a ∈ before, a.m_jobs.erase job ≠ ∅)
    (hb : b.m_jobs.erase job = ∅) :
    (s.UnregisterJob job).m_batches =
      before.map (fun a => { a with m_jobs := a.m_jobs.erase job }) ++ after ∧
    ((∀ a ∈ before ++ after, a.ptr ≠ b.ptr) →
      ∀ a ∈ (s.UnregisterJob job).m_batches, a.ptr ≠ b.ptr) ∧
    (s.UnregisterJob job).m_activeSubmitBatch ≠ some b.ptr ∧
    (s.UnregisterJob job).m_activeLeaseBatch ≠ some b.ptr ∧
    (s.m_activeSubmitBatch = some b.ptr →
      (s.UnregisterJob job).m_activeSubmitBatch = none ∧
      Gahp.m_submitGahp ∈ (s.UnregisterJob job).purged ∧
      (Timer.m_submitTid, 0) ∈ (s.UnregisterJob job).timers) ∧
    (s.m_activeSubmitBatch ≠ some b.ptr →
      (s.UnregisterJob job).m_activeSubmitBatch = s.m_activeSubmitBatch) ∧
    (s.m_activeLeaseBatch = some b.ptr →
      (s.UnregisterJob job).m_activeLeaseBatch = none ∧
      Gahp.m_leaseGahp ∈ (s.UnregisterJob job).purged ∧
      (Timer.m_leaseTid, 0) ∈ (s.UnregisterJob job).timers) ∧
    (s.m_activeLeaseBatch ≠ some b.ptr →
      (s.UnregisterJob job).m_activeLeaseBatch = s.m_activeLeaseBatch) ∧
    (∀ (t : BoincResource) (j : BoincJob), (∀ a ∈ t.m_batches, a.m_jobs ≠ ∅) →
      ∀ a ∈ (t.UnregisterJob j).m_batches, a.m_jobs ≠ ∅) := by
  have hloop := unregisterLoop_spec job before after b hbefore hb
  rw [← hs] at hloop
  have hbat : (s.UnregisterJob job).m_batches =
      before.map (fun a => { a with m_jobs := a.m_jobs.erase job }) ++ after := by
    rw [UnregisterJob_batches, hloop]
  have hU : s.UnregisterJob job =
      { (if (if s.m_activeLeaseBatch = some b.ptr then
              { s with m_activeLeaseBatch := none,
                       purged := s.purged ++ [Gahp.m_leaseGahp],
                       timers := s.timers ++ [(Timer.m_leaseTid, 0)] }
            else s).m_activeSubmitBatch = some b.ptr then
          { (if s.m_activeLeaseBatch = some b.ptr then
              { s with m_activeLeaseBatch := none,
                       purged := s.purged ++ [Gahp.m_leaseGahp],
                       timers := s.timers ++ [(Timer.m_leaseTid, 0)] }
            else s) with
            m_activeSubmitBatch := none,
            purged := (if s.m_activeLeaseBatch = some b.ptr then
              { s with m_activeLeaseBatch := none,
                       purged := s.purged ++ [Gahp.m_leaseGahp],
                       timers := s.timers ++ [(Timer.m_leaseTid, 0)] }
            else s).purged ++ [Gahp.m_submitGahp],
            timers := (if s.m_activeLeaseBatch = some b.ptr then
              { s with m_activeLeaseBatch := none,
                       purged := s.purged ++ [Gahp.m_leaseGahp],
                       timers := s.timers ++ [(Timer.m_leaseTid, 0)] }
            else s).timers ++ [(Timer.m_submitTid, 0)] }
        else (if s.m_activeLeaseBatch = some b.ptr then
              { s with m_activeLeaseBatch := none,
                       purged := s.purged ++ [Gahp.m_leaseGahp],
                       timers := s.timers ++ [(Timer.m_leaseTid, 0)] }
            else s)) with
        m_batches := (unregisterLoop job s.m_batches).1 } := by
    unfold BoincResource.UnregisterJob
    rw [hloop]
  refine ⟨hbat, ?_, ?_, ?_, ?_, ?_, ?_, ?_, ?_⟩
  · intro hne a ha
    rw [hbat] at ha
    rcases List.mem_append.mp ha with ha | ha
    · obtain ⟨a0, ha0, rfl⟩ := List.mem_map.mp ha
      exact hne a0 (by simp [ha0])
    · exact hne a (by simp [ha])
  · rw [hU]
    by_cases h1 : s.m_activeLeaseBatch = some b.ptr <;>
      by_cases h2 : s.m_activeSubmitBatch = some b.ptr <;> simp [h1, h2]
  · rw [hU]
    by_cases h1 : s.m_activeLeaseBatch = some b.ptr <;>
      by_cases h2 : s.m_activeSubmitBatch = some b.ptr <;> simp [h1, h2]
  · intro h2
    rw [hU]
    by_cases h1 : s.m_activeLeaseBatch = some b.ptr <;> simp [h1, h2]
  · intro h2
    rw [hU]
    by_cases h1 : s.m_activeLeaseBatch = some b.ptr <;> simp [h1, h2]
  · intro h1
    rw [hU]
    by_cases h2 : s.m_activeSubmitBatch = some b.ptr <;> simp [h1, h2]
  · intro h1
    rw [hU]
    by_cases h2 : s.m_activeSubmitBatch = some b.ptr <;> simp [h1, h2]
  · intro t j ht a ha
    rw [UnregisterJob_batches] at ha
    exact unregisterLoop_nonempty j t.m_batches ht a ha

end Boinc

namespace Boinc

/-- Witness for C19: the only member of the only batch unregisters while a submit command
for that batch is in flight. -/
theorem UnregisterJob_teardown_witness :
    (([{ ptr := 0, m_batch_name := "a",
         m_submit_status := BatchSubmitStatus.BatchUnsubmitted, m_lease_time := 0,
         m_last_insert := 0, m_error_message := "", m_jobs := {1}, m_jobs_ready := {1} }] :
        List BoincBatch) =
        [] ++ { ptr := 0, m_batch_name := "a",
                m_submit_status := BatchSubmitStatus.BatchUnsubmitted, m_lease_time := 0,
                m_last_insert := 0, m_error_message := "", m_jobs := {1},
                m_jobs_ready := {1} } :: [] ∧
      (∀ a ∈ ([] : List BoincBatch), a.m_jobs.erase 1 ≠ ∅) ∧
      ({1} : Finset BoincJob).erase 1 = ∅) ∧
    (BoincResource.UnregisterJob
        { BoincResource.new with
          m_batches :=
            [{ ptr := 0, m_batch_name := "a",
               m_submit_status := BatchSubmitStatus.BatchUnsubmitted, m_lease_time := 0,
               m_last_insert := 0, m_error_message := "", m_jobs := {1},
               m_jobs_ready := {1} }],
          m_activeSubmitBatch := some 0, nextPtr := 1 } 1).m_batches = [] :=
  ⟨⟨rfl, by simp, by decide⟩,
    (UnregisterJob_teardown
      { BoincResource.new with
        m_batches :=
          [{ ptr := 0, m_batch_name := "a",
             m_submit_status := BatchSubmitStatus.BatchUnsubmitted, m_lease_time := 0,
             m_last_insert := 0, m_error_message := "", m_jobs := {1},
             m_jobs_ready := {1} }],
        m_activeSubmitBatch := some 0, nextPtr := 1 } 1 []
      [] { ptr := 0, m_batch_name := "a",
           m_submit_status := BatchSubmitStatus.BatchUnsubmitted, m_lease_time := 0,
           m_last_insert := 0, m_error_message := "", m_jobs := {1}, m_jobs_ready := {1} }
      rfl (by simp) (by decide)).1⟩

/-- The status test of `UpdateBoincLeases` never skips a batch. -/
theorem leaseSkip_false (b : BoincBatch) : leaseSkip b = false := by
  unfold leaseSkip
  cases b.m_submit_status <;> decide

/-- C20: what `UpdateBoincLeases` does with a batch that has not been submitted.  Job 1
joins a new batch at time 100; the batch is in `BatchUnsubmitted` with `m_lease_time` 0.
A run of `UpdateBoincLeases` at time 10000 calls `boinc_set_lease` for that batch (with
expiry 10000 + `DEFAULT_LEASE_DURATION`), and with the call pending the batch becomes the
active lease batch. -/
theorem UpdateBoincLeases_leases_unsubmitted_batch :
    ((BoincResource.new.JoinBatch 100 "schedd" (fun _ => 7) 1 "" "").map fun r =>
      (((r.2.2.UpdateBoincLeases (-1) 10000 true
            (fun _ => { rc := Annex.GAHPCLIENT_COMMAND_PENDING, errorString := "" })).leaseCalls.map
          fun c => (c.batch.m_submit_status, c.batch.ptr, c.time, c.isNew)),
        (r.2.2.UpdateBoincLeases (-1) 10000 true
            (fun _ => { rc := Annex.GAHPCLIENT_COMMAND_PENDING,
                        errorString := "" })).m_activeLeaseBatch)).toList =
      [([(BatchSubmitStatus.BatchUnsubmitted, 0, 31600, true)], some 0)] := by
  decide

end Boinc

namespace Boinc

theorem BatchReadyToSubmit_iff (now : Int) (b : BoincBatch) :
    BatchReadyToSubmit now b = true ↔
      (b.m_last_insert + SUBMIT_DELAY ≤ now ∧ b.m_jobs = b.m_jobs_ready) := by
  unfold BatchReadyToSubmit
  by_cases h1 : now < b.m_last_insert + SUBMIT_DELAY
  · simp [h1]
  · by_cases h2 : b.m_jobs = b.m_jobs_ready
    · simp [h1, h2]; omega
    · simp [h1, h2]

/-- The `boinc_submit` calls of one pass of `DoBatchSubmits`: each is for a batch of the
list whose status is not skipped, and a call that starts a new command is for a batch
that is ready. -/
theorem submitLoop_calls (TIMER_NEVER now : Int) (gahp : Nat → GahpReply)
    (l : List BoincBatch) (st : Pass) :
    ∃ calls, (submitLoop TIMER_NEVER now gahp l st).2.res.submitCalls =
        st.res.submitCalls ++ calls ∧
      ∀ c ∈ calls, c.batch ∈ l ∧ c.batch.eligible ∧
        (c.isNew = true → BatchReadyToSubmit now c.batch = true) := by
  induction l generalizing st with
  | nil => exact ⟨[], by simp [submitLoop], by simp⟩
  | cons b rest ih =>
    have lift : ∀ (st2 : Pass) (pre : List SubmitCall),
        st2.res.submitCalls = st.res.submitCalls ++ pre →
        (∀ c ∈ pre, c.batch ∈ b :: rest ∧ c.batch.eligible ∧
          (c.isNew = true → BatchReadyToSubmit now c.batch = true)) →
        ∃ calls, (submitLoop TIMER_NEVER now gahp rest st2).2.res.submitCalls =
            st.res.submitCalls ++ calls ∧
          ∀ c ∈ calls, c.batch ∈ b :: rest ∧ c.batch.eligible ∧
            (c.isNew = true → BatchReadyToSubmit now c.batch = true) := by
      intro st2 pre h1 h2
      obtain ⟨calls, hc1, hc2⟩ := ih st2
      refine ⟨pre ++ calls, by rw [hc1, h1, List.append_assoc], ?_⟩
      intro c hc
      rcases List.mem_append.mp hc with hc | hc
      · exact h2 c hc
      · obtain ⟨a1, a2, a3⟩ := hc2 c hc
        exact ⟨List.mem_cons_of_mem _ a1, a2, a3⟩
    unfold submitLoop
    split
    · exact lift st [] (by simp) (by simp)
    · rename_i hst
      have hel : b.eligible := by
        unfold BoincBatch.eligible
        exact ⟨fun e => hst (Or.inl e), fun e => hst (Or.inr (Or.inl e)),
          fun e => hst (Or.inr (Or.inr e))⟩
      split
      · exact lift st [] (by simp) (by simp)
      · split
        · exact lift _ [] (by simp) (by simp)
        · rename_i hnr
          split
          · rename_i hact
            have hready : BatchReadyToSubmit now b = true := by
              by_contra hc
              exact hnr ⟨hact, hc⟩
            split
            · exact lift _ [{ batch := b, isNew := true }] (by simp)
                (by simp [hel, hready])
            · exact ⟨[{ batch := b, isNew := true }], by simp, by simp [hel, hready]⟩
          · split
            · exact ⟨[{ batch := b, isNew := false }], by simp, by simp [hel]⟩
            · exact lift _ [{ batch := b, isNew := false }] (by simp) (by simp [hel])

theorem DoBatchSubmits_calls (s : BoincResource) (TIMER_NEVER now : Int) (started : Bool)
    (gahp : Nat → GahpReply) :
    ∃ calls, (s.DoBatchSubmits TIMER_NEVER now started gahp).submitCalls =
        s.submitCalls ++ calls ∧
      ∀ c ∈ calls, c.batch ∈ s.m_batches ∧ c.batch.eligible ∧
        (c.isNew = true → BatchReadyToSubmit now c.batch = true) := by
  unfold BoincResource.DoBatchSubmits
  split
  · exact ⟨[], by simp, by simp⟩
  · exact submitLoop_calls TIMER_NEVER now gahp s.m_batches
      { res := s, delay := TIMER_NEVER, ncalls := 0 }

theorem first_eq_none (jobs : Finset BoincJob) : first jobs = none ↔ jobs = ∅ := by
  unfold first
  exact Finset.min_eq_top

/-- The search loop of `JoinBatch` without a batch name: what it finds. -/
theorem joinExisting_some (now : Int) (cluster : BoincJob → Int) (job : BoincJob)
    (l : List BoincBatch) (name : String) (l2 : List BoincBatch)
    (h : joinExisting now cluster job l = some (some (name, l2))) :
    ∃ before b after, l = before ++ b :: after ∧
      b.m_submit_status = BatchSubmitStatus.BatchUnsubmitted ∧ name = b.m_batch_name ∧
      l2 = before ++ joinCluster now job b :: after := by
  induction l generalizing l2 with
  | nil => simp [joinExisting] at h
  | cons x xs ih =>
    unfold joinExisting at h
    cases hf : first x.m_jobs with
    | none => simp [hf] at h
    | some j =>
      simp only [hf] at h
      split at h
      · rename_i hc
        simp only [Option.some.injEq, Prod.mk.injEq] at h
        exact ⟨[], x, xs, rfl, hc.2, h.1.symm, by simp [h.2]⟩
      · cases hr : joinExisting now cluster job xs with
        | none => simp [hr] at h
        | some o =>
          cases o with
          | none => simp [hr] at h
          | some pr =>
            obtain ⟨n, l3⟩ := pr
            simp only [hr, Option.some.injEq, Prod.mk.injEq] at h
            obtain ⟨before, b, after, h1, h2, h3, h4⟩ := ih l3 (by rw [hr, h.1])
            exact ⟨x :: before, b, after, by simp [h1], h2, h3, by simp [← h.2, h4]⟩

/-- The search loop of `JoinBatch` without a batch name is defined when no batch is
without members. -/
theorem joinExisting_isSome (now : Int) (cluster : BoincJob → Int) (job : BoincJob)
    (l : List BoincBatch) (h : ∀ a ∈ l, a.m_jobs ≠ ∅) :
    (joinExisting now cluster job l).isSome = true := by
  induction l with
  | nil => simp [joinExisting]
  | cons x xs ih =>
    have hx : x.m_jobs ≠ ∅ := h x (by simp)
    have hxs := ih (fun a ha => h a (by simp [ha]))
    unfold joinExisting
    cases hf : first x.m_jobs with
    | none => exact absurd ((first_eq_none _).mp hf) hx
    | some j =>
      simp only
      split
      · rfl
      · cases hr : joinExisting now cluster job xs with
        | none => simp [hr] at hxs
        | some o => cases o <;> rfl

/-- What `JoinBatch` does to the state: either one existing batch takes the job in, or a
new batch with the job in it is appended. -/
theorem JoinBatch_spec (s : BoincResource) (now : Int) (ScheddName : String)
    (cluster : BoincJob → Int) (job : BoincJob) (remoteState batch_name : String)
    (r : Bool × String × BoincResource)
    (h : s.JoinBatch now ScheddName cluster job remoteState batch_name = some r) :
    (batch_name ≠ "" ∧ r.2.1 = batch_name ∧
      ((∃ before b after, s.m_batches = before ++ b :: after ∧
          (∀ a ∈ before, a.m_batch_name ≠ batch_name) ∧ b.m_batch_name = batch_name ∧
          r.2.2 = { s with m_batches :=
                      before ++ joinNamed now job remoteState b :: after }) ∨
        ((∀ a ∈ s.m_batches, a.m_batch_name ≠ batch_name) ∧
          r.2.2 = { s with
                    m_batches := s.m_batches ++
                      [joinNamed now job remoteState
                        (s.newBatch batch_name BatchSubmitStatus.BatchMaybeSubmitted)],
                    nextPtr := s.nextPtr + 1 }))) ∨
    (batch_name = "" ∧
      ((∃ before b after, s.m_batches = before ++ b :: after ∧
          b.m_submit_status = BatchSubmitStatus.BatchUnsubmitted ∧
          r.2.1 = b.m_batch_name ∧
          r.2.2 = { s with m_batches := before ++ joinCluster now job b :: after }) ∨
        (r.2.1 = clusterBatchName ScheddName (cluster job) now ∧
          r.2.2 = { s with
                    m_batches := s.m_batches ++
                      [joinCluster now job
                        (s.newBatch (clusterBatchName ScheddName (cluster job) now)
                          BatchSubmitStatus.BatchUnsubmitted)],
                    nextPtr := s.nextPtr + 1 }))) := by
  unfold BoincResource.JoinBatch at h
  by_cases hn : batch_name = ""
  · right
    refine ⟨hn, ?_⟩
    simp only [hn, ne_eq, not_true_eq_false, if_false] at h
    cases hj : joinExisting now cluster job s.m_batches with
    | none => simp [hj] at h
    | some o =>
      cases o with
      | none =>
        simp only [hj, Option.some.injEq] at h
        subst h
        exact Or.inr ⟨rfl, rfl⟩
      | some pr =>
        obtain ⟨n, l2⟩ := pr
        simp only [hj, Option.some.injEq] at h
        subst h
        obtain ⟨before, b, after, h1, h2, h3, h4⟩ :=
          joinExisting_some now cluster job s.m_batches n l2 hj
        exact Or.inl ⟨before, b, after, h1, h2, h3, by simp [h4]⟩
  · left
    refine ⟨hn, ?_⟩
    simp only [hn, ne_eq, not_false_eq_true, if_true] at h
    cases hf : s.m_batches.find? (fun b => b.m_batch_name = batch_name) with
    | none =>
      simp only [hf, Option.some.injEq] at h
      subst h
      refine ⟨rfl, Or.inr ⟨?_, rfl⟩⟩
      intro a ha
      have := List.find?_eq_none.mp hf a ha
      simpa using this
    | some b =>
      simp only [hf, Option.some.injEq] at h
      subst h
      obtain ⟨before, after, h1, h2, h3, h4⟩ := updateFirst_of_find
        (fun b => b.m_batch_name = batch_name) (joinNamed now job remoteState) s.m_batches b hf
      refine ⟨rfl, Or.inl ⟨before, b, after, h1, ?_, by simpa using h3, by simp [h4]⟩⟩
      intro a ha
      simpa using h2 a ha

end Boinc

namespace Boinc

/-- C13 (batch readiness).  Every `boinc_submit` call by which `DoBatchSubmits` starts a
new command (no submit command active) is for a batch of the resource whose ready set
equals its member set and whose `m_last_insert` is at least `SUBMIT_DELAY` (2 seconds)
before the current time; `BatchReadyToSubmit` is true exactly under these two
conditions; and every `JoinBatch` that returns puts the job in the member set of a batch
with the returned name and sets the `m_last_insert` of that batch to the current time,
where `JoinBatch` does return whenever no batch is without members. -/
theorem batch_readiness (s : BoincResource) (TIMER_NEVER now : Int) (started : Bool)
    (gahp : Nat → GahpReply) :
    (∃ calls, (s.DoBatchSubmits TIMER_NEVER now started gahp).submitCalls =
        s.submitCalls ++ calls ∧
      ∀ c ∈ calls, c.isNew = true →
        c.batch ∈ s.m_batches ∧ c.batch.m_jobs = c.batch.m_jobs_ready ∧
          c.batch.m_last_insert + SUBMIT_DELAY ≤ now) ∧
    SUBMIT_DELAY = 2 ∧
    (∀ b : BoincBatch, BatchReadyToSubmit now b = true ↔
      (b.m_last_insert + SUBMIT_DELAY ≤ now ∧ b.m_jobs = b.m_jobs_ready)) ∧
    (∀ (ScheddName : String) (cluster : BoincJob → Int) (job : BoincJob)
        (remoteState batch_name : String),
      ((∀ a ∈ s.m_batches, a.m_jobs ≠ ∅) →
        (s.JoinBatch now ScheddName cluster job remoteState batch_name).isSome = true) ∧
      ∀ r, s.JoinBatch now ScheddName cluster job remoteState batch_name = some r →
        ∃ before b after, r.2.2.m_batches = before ++ b :: after ∧
          b.m_batch_name = r.2.1 ∧ job ∈ b.m_jobs ∧ b.m_last_insert = now) := by
  refine ⟨?_, rfl, BatchReadyToSubmit_iff now, ?_⟩
  · obtain ⟨calls, h1, h2⟩ := DoBatchSubmits_calls s TIMER_NEVER now started gahp
    refine ⟨calls, h1, ?_⟩
    intro c hc hnew
    obtain ⟨a1, _, a3⟩ := h2 c hc
    obtain ⟨b1, b2⟩ := (BatchReadyToSubmit_iff now c.batch).mp (a3 hnew)
    exact ⟨a1, b2, b1⟩
  · intro ScheddName cluster job remoteState batch_name
    constructor
    · intro hne
      unfold BoincResource.JoinBatch
      by_cases hn : batch_name = ""
      · simp only [hn, ne_eq, not_true_eq_false, if_false]
        have := joinExisting_isSome now cluster job s.m_batches hne
        cases hj : joinExisting now cluster job s.m_batches with
        | none => simp [hj] at this
        | some o => cases o <;> rfl
      · simp only [hn, ne_eq, not_false_eq_true, if_true]
        cases s.m_batches.find? (fun b => b.m_batch_name = batch_name) <;> rfl
    · intro r hr
      rcases JoinBatch_spec s now ScheddName cluster job remoteState batch_name r hr with
        ⟨_, hname, h | h⟩ | ⟨_, h | h⟩
      · obtain ⟨before, b, after, _, _, hb, hr2⟩ := h
        refine ⟨before, joinNamed now job remoteState b, after, by rw [hr2], ?_, ?_, ?_⟩
        · rw [hname]; exact hb
        · simp [joinNamed]
        · rfl
      · obtain ⟨_, hr2⟩ := h
        refine ⟨s.m_batches, _, [], by rw [hr2], ?_, ?_, ?_⟩
        · rw [hname]; rfl
        · simp [joinNamed]
        · rfl
      · obtain ⟨before, b, after, _, _, hb, hr2⟩ := h
        refine ⟨before, joinCluster now job b, after, by rw [hr2], ?_, ?_, ?_⟩
        · rw [hb]; rfl
        · simp [joinCluster]
        · rfl
      · obtain ⟨hb, hr2⟩ := h
        refine ⟨s.m_batches, _, [], by rw [hr2], ?_, ?_, ?_⟩
        · rw [hb]; rfl
        · simp [joinCluster]
        · rfl

/-- Witness for C13: the only submit call of a pass over one ready batch. -/
theorem batch_readiness_witness :
    BatchReadyToSubmit 102
        { ptr := 0, m_batch_name := "a",
          m_submit_status := BatchSubmitStatus.BatchUnsubmitted,
          m_lease_time := 0, m_last_insert := 100, m_error_message := "",
          m_jobs := {1}, m_jobs_ready := {1} } = true ∧
    (100 : Int) + SUBMIT_DELAY ≤ 102 :=
  ⟨by decide,
    ((batch_readiness BoincResource.new (-1) 102 true
        (fun _ => { rc := 0, errorString := "" })).2.2.1
      { ptr := 0, m_batch_name := "a",
        m_submit_status := BatchSubmitStatus.BatchUnsubmitted,
        m_lease_time := 0, m_last_insert := 100, m_error_message := "",
        m_jobs := {1}, m_jobs_ready := {1} }).mp (by decide) |>.1⟩

end Boinc

namespace Boinc

/-- While a submit command is active, the pass skips every batch that is not the active
one. -/
theorem submitLoop_skip (TIMER_NEVER now : Int) (gahp : Nat → GahpReply) (p : Nat)
    (before rest : List BoincBatch) (st : Pass)
    (hact : st.res.m_activeSubmitBatch = some p)
    (hbefore : ∀ a ∈ before, a.eligible → a.ptr ≠ p) :
    submitLoop TIMER_NEVER now gahp (before ++ rest) st =
      (before ++ (submitLoop TIMER_NEVER now gahp rest st).1,
        (submitLoop TIMER_NEVER now gahp rest st).2) := by
  induction before with
  | nil => simp
  | cons x xs ih =>
    have ih2 := ih (fun a ha => hbefore a (by simp [ha]))
    have hx := hbefore x (by simp)
    simp only [List.cons_append]
    rw [submitLoop]
    split
    · simp [ih2]
    · rename_i hst
      have hel : x.eligible :=
        ⟨fun e => hst (Or.inl e), fun e => hst (Or.inr (Or.inl e)),
          fun e => hst (Or.inr (Or.inr e))⟩
      have hne : st.res.m_activeSubmitBatch ≠ none ∧
          st.res.m_activeSubmitBatch ≠ some x.ptr := by
        rw [hact]
        refine ⟨by simp, ?_⟩
        intro e
        exact hx hel (Option.some.inj e).symm
      rw [if_pos hne]
      simp [ih2]

/-- The round of the pass in which the active submit command is found complete. -/
theorem submitLoop_complete (TIMER_NEVER now : Int) (gahp : Nat → GahpReply)
    (b : BoincBatch) (after : List BoincBatch) (st : Pass)
    (hact : st.res.m_activeSubmitBatch = some b.ptr) (hel : b.eligible)
    (hrc : (gahp st.ncalls).rc ≠ Annex.GAHPCLIENT_COMMAND_PENDING) :
    submitLoop TIMER_NEVER now gahp (b :: after) st =
      (b.submitted (gahp st.ncalls) ::
          (submitLoop TIMER_NEVER now gahp after (st.afterCompletion b)).1,
        (submitLoop TIMER_NEVER now gahp after (st.afterCompletion b)).2) := by
  obtain ⟨e1, e2, e3⟩ := hel
  have h1 : ¬ (b.m_submit_status = BatchSubmitStatus.BatchMaybeSubmitted ∨
      b.m_submit_status = BatchSubmitStatus.BatchSubmitted ∨
      b.m_submit_status = BatchSubmitStatus.BatchFailed) := by
    rintro (h | h | h)
    · exact e1 h
    · exact e2 h
    · exact e3 h
  have h2 : ¬ (st.res.m_activeSubmitBatch ≠ none ∧
      st.res.m_activeSubmitBatch ≠ some b.ptr) := by
    rw [hact]; simp
  have h3 : ¬ (st.res.m_activeSubmitBatch = none ∧ ¬ BatchReadyToSubmit now b = true) := by
    rw [hact]; simp
  have h4 : ¬ st.res.m_activeSubmitBatch = none := by rw [hact]; simp
  rw [submitLoop, if_neg h1, if_neg h2, if_neg h3, if_neg h4, if_neg hrc]
  simp only [BoincBatch.submitted, Pass.afterCompletion]

/-- A pass with no submit command active changes no batch and signals nobody; it only
starts commands, and ends with no command active or with the command it started last. -/
theorem submitLoop_idle (TIMER_NEVER now : Int) (gahp : Nat → GahpReply)
    (l : List BoincBatch) (st : Pass) (hact : st.res.m_activeSubmitBatch = none) :
    (submitLoop TIMER_NEVER now gahp l st).1 = l ∧
    (submitLoop TIMER_NEVER now gahp l st).2.res.evaluated = st.res.evaluated ∧
    (∃ calls, (submitLoop TIMER_NEVER now gahp l st).2.res.submitCalls =
        st.res.submitCalls ++ calls ∧
      (∀ c ∈ calls, c.isNew = true ∧ c.batch ∈ l) ∧
      ((submitLoop TIMER_NEVER now gahp l st).2.res.m_activeSubmitBatch = none ∨
        ∃ c, calls.getLast? = some c ∧
          (submitLoop TIMER_NEVER now gahp l st).2.res.m_activeSubmitBatch =
            some c.batch.ptr)) := by
  induction l generalizing st with
  | nil => exact ⟨rfl, rfl, [], by simp [submitLoop], by simp, Or.inl hact⟩
  | cons b rest ih =>
    have lift : ∀ (st2 : Pass) (pre : List SubmitCall),
        st2.res.m_activeSubmitBatch = none → st2.res.evaluated = st.res.evaluated →
        st2.res.submitCalls = st.res.submitCalls ++ pre →
        (∀ c ∈ pre, c.isNew = true ∧ c.batch ∈ b :: rest) →
        (b :: (submitLoop TIMER_NEVER now gahp rest st2).1 = b :: rest ∧
          (submitLoop TIMER_NEVER now gahp rest st2).2.res.evaluated = st.res.evaluated ∧
          ∃ calls, (submitLoop TIMER_NEVER now gahp rest st2).2.res.submitCalls =
              st.res.submitCalls ++ calls ∧
            (∀ c ∈ calls, c.isNew = true ∧ c.batch ∈ b :: rest) ∧
            ((submitLoop TIMER_NEVER now gahp rest st2).2.res.m_activeSubmitBatch = none ∨
              ∃ c, calls.getLast? = some c ∧
                (submitLoop TIMER_NEVER now gahp rest st2).2.res.m_activeSubmitBatch =
                  some c.batch.ptr)) := by
      intro st2 pre h0 h1 h2 h3
      obtain ⟨a1, a2, calls, a3, a4, a5⟩ := ih st2 h0
      refine ⟨by rw [a1], a2.trans h1, pre ++ calls, by rw [a3, h2, List.append_assoc], ?_, ?_⟩
      · intro c hc
        rcases List.mem_append.mp hc with hc | hc
        · exact h3 c hc
        · exact ⟨(a4 c hc).1, List.mem_cons_of_mem _ (a4 c hc).2⟩
      · rcases a5 with a5 | ⟨c, hc1, hc2⟩
        · exact Or.inl a5
        · refine Or.inr ⟨c, ?_, hc2⟩
          rw [List.getLast?_append, hc1]
          rfl
    rw [submitLoop]
    by_cases h1 : b.m_submit_status = BatchSubmitStatus.BatchMaybeSubmitted ∨
        b.m_submit_status = BatchSubmitStatus.BatchSubmitted ∨
        b.m_submit_status = BatchSubmitStatus.BatchFailed
    · rw [if_pos h1]
      exact lift st [] hact rfl (by simp) (by simp)
    · have h2 : ¬ (st.res.m_activeSubmitBatch ≠ none ∧
          st.res.m_activeSubmitBatch ≠ some b.ptr) := by
        rw [hact]; simp
      rw [if_neg h1, if_neg h2]
      by_cases h3 : st.res.m_activeSubmitBatch = none ∧ ¬ BatchReadyToSubmit now b = true
      · rw [if_pos h3]
        exact lift _ [] hact rfl (by simp) (by simp)
      · rw [if_neg h3, if_pos hact]
        by_cases h5 : (gahp st.ncalls).rc ≠ Annex.GAHPCLIENT_COMMAND_PENDING
        · rw [if_pos h5]
          exact lift _ [{ batch := b, isNew := true }] hact rfl (by simp) (by simp)
        · rw [if_neg h5]
          exact ⟨rfl, rfl, [{ batch := b, isNew := true }], by simp, by simp,
            Or.inr ⟨_, rfl, rfl⟩⟩

end Boinc

namespace Boinc

/-- C15 (completion of a batch submit).  Let a submit command be active for batch `b`,
let `b` be the first batch of the list with that address that the pass does not skip on
account of its status, and let the channel return a result other than pending when
`DoBatchSubmits` polls.  Then the pass skips the batches before `b` and polls `b`; in
that round the status of `b` becomes `BatchSubmitted` if the result is 0 and `BatchFailed`
otherwise (with `m_error_message` set to the channel's error string), the active-submit
pointer is reset to NULL and `SetEvaluateState` is called on the members of `b`; the pass
then goes on behind `b` with no command active.  On return no other batch has changed,
nobody else has been signalled, every further `boinc_submit` call of the pass started a
new command for a batch behind `b`, and the active-submit pointer is NULL unless the last
of these calls started a command, to whose batch it then refers. -/
theorem submit_completion (s : BoincResource) (TIMER_NEVER now : Int)
    (gahp : Nat → GahpReply) (before after : List BoincBatch) (b : BoincBatch)
    (hact : s.m_activeSubmitBatch = some b.ptr)
    (hs : s.m_batches = before ++ b :: after)
    (hel : b.eligible)
    (hbefore : ∀ a ∈ before, a.eligible → a.ptr ≠ b.ptr)
    (hrc : (gahp 0).rc ≠ Annex.GAHPCLIENT_COMMAND_PENDING) :
    submitLoop TIMER_NEVER now gahp s.m_batches
        { res := s, delay := TIMER_NEVER, ncalls := 0 } =
      (before ++ b.submitted (gahp 0) :: after,
        (submitLoop TIMER_NEVER now gahp after
          (Pass.afterCompletion { res := s, delay := TIMER_NEVER, ncalls := 0 } b)).2) ∧
    (Pass.afterCompletion { res := s, delay := TIMER_NEVER, ncalls := 0 }
        b).res.m_activeSubmitBatch = none ∧
    (s.DoBatchSubmits TIMER_NEVER now true gahp).m_batches =
      before ++ b.submitted (gahp 0) :: after ∧
    (b.submitted (gahp 0)).m_submit_status =
      (if (gahp 0).rc = 0 then BatchSubmitStatus.BatchSubmitted
        else BatchSubmitStatus.BatchFailed) ∧
    ((gahp 0).rc ≠ 0 → (b.submitted (gahp 0)).m_error_message = (gahp 0).errorString) ∧
    (s.DoBatchSubmits TIMER_NEVER now true gahp).evaluated = s.evaluated ++ [b.m_jobs] ∧
    (∃ calls, (s.DoBatchSubmits TIMER_NEVER now true gahp).submitCalls =
        s.submitCalls ++ { batch := b, isNew := false } :: calls ∧
      (∀ c ∈ calls, c.isNew = true ∧ c.batch ∈ after) ∧
      ((s.DoBatchSubmits TIMER_NEVER now true gahp).m_activeSubmitBatch = none ∨
        ∃ c, calls.getLast? = some c ∧
          (s.DoBatchSubmits TIMER_NEVER now true gahp).m_activeSubmitBatch =
            some c.batch.ptr)) := by
  have hskip := submitLoop_skip TIMER_NEVER now gahp b.ptr before (b :: after)
    { res := s, delay := TIMER_NEVER, ncalls := 0 } hact hbefore
  have hdone := submitLoop_complete TIMER_NEVER now gahp b after
    { res := s, delay := TIMER_NEVER, ncalls := 0 } hact hel hrc
  obtain ⟨i1, i2, calls, i3, i4, i5⟩ := submitLoop_idle TIMER_NEVER now gahp after
    (Pass.afterCompletion { res := s, delay := TIMER_NEVER, ncalls := 0 } b) rfl
  have hloop : submitLoop TIMER_NEVER now gahp s.m_batches
      { res := s, delay := TIMER_NEVER, ncalls := 0 } =
      (before ++ b.submitted (gahp 0) :: after,
        (submitLoop TIMER_NEVER now gahp after
          (Pass.afterCompletion { res := s, delay := TIMER_NEVER, ncalls := 0 } b)).2) := by
    rw [hs, hskip, hdone, i1]
  have hD : s.DoBatchSubmits TIMER_NEVER now true gahp =
      { (submitLoop TIMER_NEVER now gahp s.m_batches
            { res := s, delay := TIMER_NEVER, ncalls := 0 }).2.res with
        m_batches := (submitLoop TIMER_NEVER now gahp s.m_batches
            { res := s, delay := TIMER_NEVER, ncalls := 0 }).1,
        timers := (submitLoop TIMER_NEVER now gahp s.m_batches
            { res := s, delay := TIMER_NEVER, ncalls := 0 }).2.res.timers ++
          [(Timer.m_submitTid, (submitLoop TIMER_NEVER now gahp s.m_batches
            { res := s, delay := TIMER_NEVER, ncalls := 0 }).2.delay)] } := by
    simp [BoincResource.DoBatchSubmits]
  refine ⟨hloop, rfl, ?_, ?_, ?_, ?_, calls, ?_, i4, ?_⟩
  · rw [hD, hloop]
  · unfold BoincBatch.submitted
    split <;> simp [*]
  · intro h0
    simp [BoincBatch.submitted, h0]
  · rw [hD, hloop]
    exact i2
  · rw [hD, hloop]
    simpa [Pass.afterCompletion] using i3
  · rw [hD, hloop]
    exact i5

/-- Witness for C15: the submit command of the only batch completes with success. -/
theorem submit_completion_witness :
    (BoincResource.m_activeSubmitBatch
        { BoincResource.new with
          m_batches :=
            [{ ptr := 0, m_batch_name := "a",
               m_submit_status := BatchSubmitStatus.BatchUnsubmitted, m_lease_time := 0,
               m_last_insert := 0, m_error_message := "", m_jobs := {1},
               m_jobs_ready := {1} }],
          m_activeSubmitBatch := some 0, nextPtr := 1 } = some 0 ∧
      (0 : Int) ≠ Annex.GAHPCLIENT_COMMAND_PENDING) ∧
    (BoincResource.DoBatchSubmits
        { BoincResource.new with
          m_batches :=
            [{ ptr := 0, m_batch_name := "a",
               m_submit_status := BatchSubmitStatus.BatchUnsubmitted, m_lease_time := 0,
               m_last_insert := 0, m_error_message := "", m_jobs := {1},
               m_jobs_ready := {1} }],
          m_activeSubmitBatch := some 0, nextPtr := 1 }
        (-1) 10 true (fun _ => { rc := 0, errorString := "" })).m_batches =
      [] ++ BoincBatch.submitted
          { ptr := 0, m_batch_name := "a",
            m_submit_status := BatchSubmitStatus.BatchUnsubmitted, m_lease_time := 0,
            m_last_insert := 0, m_error_message := "", m_jobs := {1},
            m_jobs_ready := {1} } { rc := 0, errorString := "" } :: [] :=
  ⟨⟨rfl, by decide⟩,
    (submit_completion
      { BoincResource.new with
        m_batches :=
          [{ ptr := 0, m_batch_name := "a",
             m_submit_status := BatchSubmitStatus.BatchUnsubmitted, m_lease_time := 0,
             m_last_insert := 0, m_error_message := "", m_jobs := {1},
             m_jobs_ready := {1} }],
        m_activeSubmitBatch := some 0, nextPtr := 1 }
      (-1) 10 (fun _ => { rc := 0, errorString := "" }) [] []
      { ptr := 0, m_batch_name := "a",
        m_submit_status := BatchSubmitStatus.BatchUnsubmitted, m_lease_time := 0,
        m_last_insert := 0, m_error_message := "", m_jobs := {1}, m_jobs_ready := {1} }
      rfl rfl (by unfold BoincBatch.eligible; decide) (by simp) (by decide)).2.2.1⟩

end Boinc

/-! ## How the batch operations change the batch list -/

namespace Boinc

theorem Keeps_refl (a : BoincBatch) : a.Keeps a :=
  ⟨rfl, rfl, id, id, id⟩

theorem Keeps_trans {a b c : BoincBatch} (h : a.Keeps b) (k : b.Keeps c) : a.Keeps c :=
  ⟨k.1.trans h.1, k.2.1.trans h.2.1, fun e => k.2.2.1 (h.2.2.1 e),
    fun e => k.2.2.2.1 (h.2.2.2.1 e), fun e => h.2.2.2.2 (k.2.2.2.2 e)⟩

theorem Forall₂_Keeps_refl (l : List BoincBatch) : List.Forall₂ BoincBatch.Keeps l l := by
  induction l with
  | nil => exact List.Forall₂.nil
  | cons x xs ih => exact List.Forall₂.cons (Keeps_refl x) ih

theorem Forall₂_Keeps_trans {l1 l2 l3 : List BoincBatch}
    (h : List.Forall₂ BoincBatch.Keeps l1 l2) (k : List.Forall₂ BoincBatch.Keeps l2 l3) :
    List.Forall₂ BoincBatch.Keeps l1 l3 := by
  induction h generalizing l3 with
  | nil => cases k; exact List.Forall₂.nil
  | cons hab _ ih =>
    cases k with
    | cons hbc kt => exact List.Forall₂.cons (Keeps_trans hab hbc) (ih kt)

theorem Forall₂_Keeps_mem {l l2 : List BoincBatch}
    (h : List.Forall₂ BoincBatch.Keeps l l2) :
    ∀ b ∈ l2, ∃ a ∈ l, a.Keeps b := by
  induction h with
  | nil => simp
  | cons hab _ ih =>
    intro b hb
    rcases List.mem_cons.mp hb with rfl | hb
    · exact ⟨_, by simp, hab⟩
    · obtain ⟨a, ha, hk⟩ := ih b hb
      exact ⟨a, by simp [ha], hk⟩

theorem Forall₂_Keeps_ptr {l l2 : List BoincBatch}
    (h : List.Forall₂ BoincBatch.Keeps l l2) :
    l2.map (fun b => b.ptr) = l.map (fun b => b.ptr) := by
  induction h with
  | nil => rfl
  | cons hab _ ih => simp [hab.1, ih]

theorem updateFirst_Keeps (p : BoincBatch → Bool) (f : BoincBatch → BoincBatch)
    (hf : ∀ b : BoincBatch, b.Keeps (f b)) (l : List BoincBatch) :
    List.Forall₂ BoincBatch.Keeps l (updateFirst p f l) := by
  induction l with
  | nil => exact List.Forall₂.nil
  | cons x xs ih =>
    unfold updateFirst
    split
    · exact List.Forall₂.cons (hf x) (Forall₂_Keeps_refl xs)
    · exact List.Forall₂.cons (Keeps_refl x) ih

theorem submitted_Keeps (b : BoincBatch) (reply : GahpReply) (hel : b.eligible) :
    b.Keeps (b.submitted reply) := by
  obtain ⟨e1, e2, e3⟩ := hel
  unfold BoincBatch.submitted
  split
  · exact ⟨rfl, rfl, fun e => absurd e e3, fun _ => rfl, fun e => by cases e⟩
  · exact ⟨rfl, rfl, fun _ => rfl, fun e => absurd e e2, fun e => by cases e⟩

theorem submitLoop_Keeps (TIMER_NEVER now : Int) (gahp : Nat → GahpReply)
    (l : List BoincBatch) (st : Pass) :
    List.Forall₂ BoincBatch.Keeps l (submitLoop TIMER_NEVER now gahp l st).1 ∧
      (submitLoop TIMER_NEVER now gahp l st).2.res.nextPtr = st.res.nextPtr := by
  induction l generalizing st with
  | nil => exact ⟨List.Forall₂.nil, rfl⟩
  | cons b rest ih =>
    rw [submitLoop]
    by_cases h1 : b.m_submit_status = BatchSubmitStatus.BatchMaybeSubmitted ∨
        b.m_submit_status = BatchSubmitStatus.BatchSubmitted ∨
        b.m_submit_status = BatchSubmitStatus.BatchFailed
    · rw [if_pos h1]
      exact ⟨List.Forall₂.cons (Keeps_refl b) (ih st).1, (ih st).2⟩
    · have hel : b.eligible :=
        ⟨fun e => h1 (Or.inl e), fun e => h1 (Or.inr (Or.inl e)),
          fun e => h1 (Or.inr (Or.inr e))⟩
      rw [if_neg h1]
      by_cases h2 : st.res.m_activeSubmitBatch ≠ none ∧
          st.res.m_activeSubmitBatch ≠ some b.ptr
      · rw [if_pos h2]
        exact ⟨List.Forall₂.cons (Keeps_refl b) (ih st).1, (ih st).2⟩
      · rw [if_neg h2]
        by_cases h3 : st.res.m_activeSubmitBatch = none ∧ ¬ BatchReadyToSubmit now b = true
        · rw [if_pos h3]
          exact ⟨List.Forall₂.cons (Keeps_refl b) (ih _).1, (ih _).2⟩
        · rw [if_neg h3]
          by_cases h4 : st.res.m_activeSubmitBatch = none
          · rw [if_pos h4]
            by_cases h5 : (gahp st.ncalls).rc ≠ Annex.GAHPCLIENT_COMMAND_PENDING
            · rw [if_pos h5]
              exact ⟨List.Forall₂.cons (Keeps_refl b) (ih _).1, (ih _).2⟩
            · rw [if_neg h5]
              exact ⟨Forall₂_Keeps_refl _, rfl⟩
          · rw [if_neg h4]
            by_cases h5 : (gahp st.ncalls).rc = Annex.GAHPCLIENT_COMMAND_PENDING
            · rw [if_pos h5]
              exact ⟨Forall₂_Keeps_refl _, rfl⟩
            · rw [if_neg h5]
              exact ⟨List.Forall₂.cons (submitted_Keeps b (gahp st.ncalls) hel) (ih _).1,
                (ih _).2⟩

theorem leaseLoop_Keeps (TIMER_NEVER now : Int) (gahp : Nat → GahpReply)
    (l : List BoincBatch) (st : Pass) :
    List.Forall₂ BoincBatch.Keeps l (leaseLoop TIMER_NEVER now gahp l st).1 ∧
      (leaseLoop TIMER_NEVER now gahp l st).2.res.nextPtr = st.res.nextPtr := by
  induction l generalizing st with
  | nil => exact ⟨List.Forall₂.nil, rfl⟩
  | cons b rest ih =>
    rw [leaseLoop]
    by_cases h1 : leaseSkip b = true
    · rw [if_pos h1]
      exact ⟨List.Forall₂.cons (Keeps_refl b) (ih st).1, (ih st).2⟩
    · rw [if_neg h1]
      by_cases h2 : st.res.m_activeLeaseBatch ≠ none ∧
          st.res.m_activeLeaseBatch ≠ some b.ptr
      · rw [if_pos h2]
        exact ⟨List.Forall₂.cons (Keeps_refl b) (ih st).1, (ih st).2⟩
      · rw [if_neg h2]
        by_cases h3 : st.res.m_activeLeaseBatch = none
        · rw [if_pos h3]
          by_cases h4 : (b.m_lease_time + DEFAULT_LEASE_DURATION / 3) - now ≤ 0
          · rw [if_pos h4]
            by_cases h5 : (gahp st.ncalls).rc ≠ Annex.GAHPCLIENT_COMMAND_PENDING
            · rw [if_pos h5]
              exact ⟨List.Forall₂.cons (Keeps_refl b) (ih _).1, (ih _).2⟩
            · rw [if_neg h5]
              exact ⟨Forall₂_Keeps_refl _, rfl⟩
          · rw [if_neg h4]
            exact ⟨List.Forall₂.cons (Keeps_refl b) (ih _).1, (ih _).2⟩
        · rw [if_neg h3]
          by_cases h5 : (gahp st.ncalls).rc = Annex.GAHPCLIENT_COMMAND_PENDING
          · rw [if_pos h5]
            exact ⟨Forall₂_Keeps_refl _, rfl⟩
          · rw [if_neg h5]
            by_cases h6 : (gahp st.ncalls).rc = 0
            · rw [if_pos h6]
              exact ⟨List.Forall₂.cons ⟨rfl, rfl, id, id, id⟩ (ih _).1, (ih _).2⟩
            · rw [if_neg h6]
              exact ⟨List.Forall₂.cons (Keeps_refl b) (ih _).1, (ih _).2⟩

theorem notifyError_Keeps (msg : String) (l : List BoincBatch) :
    List.Forall₂ BoincBatch.Keeps l (notifyError msg l).1 := by
  induction l with
  | nil => exact List.Forall₂.nil
  | cons b rest ih =>
    unfold notifyError
    split
    · exact List.Forall₂.cons (Keeps_refl b) ih
    · exact List.Forall₂.cons ⟨rfl, rfl, id, id, id⟩ ih

end Boinc

namespace Boinc

theorem resolveOne_Keeps (batch_name : String) (result : List (String × String))
    (s : BoincResource) :
    List.Forall₂ BoincBatch.Keeps s.m_batches (resolveOne batch_name result s).m_batches ∧
      (resolveOne batch_name result s).nextPtr = s.nextPtr ∧
      (resolveOne batch_name result s).submitCalls = s.submitCalls := by
  unfold resolveOne
  cases hf : s.m_batches.find? (isUnresolved batch_name) with
  | none => exact ⟨Forall₂_Keeps_refl _, rfl, rfl⟩
  | some batch =>
    obtain ⟨before, after, h1, h2, h3, _⟩ := updateFirst_of_find (isUnresolved batch_name)
      id s.m_batches batch hf
    have hm : batch.m_submit_status = BatchSubmitStatus.BatchMaybeSubmitted := by
      simp only [isUnresolved, decide_eq_true_eq] at h3
      exact h3.2
    have key : ∀ st : BatchSubmitStatus, st ≠ BatchSubmitStatus.BatchMaybeSubmitted →
        List.Forall₂ BoincBatch.Keeps s.m_batches
          (updateFirst (isUnresolved batch_name)
            (fun b => { b with m_submit_status := st }) s.m_batches) := by
      intro st hst
      obtain ⟨before2, after2, k1, _, k3, k4⟩ := updateFirst_of_find (isUnresolved batch_name)
        (fun b => { b with m_submit_status := st }) s.m_batches batch hf
      rw [k4]
      conv_lhs => rw [k1]
      refine List.rel_append (Forall₂_Keeps_refl _)
        (List.Forall₂.cons ⟨rfl, rfl, ?_, ?_, ?_⟩ (Forall₂_Keeps_refl _))
      · intro e; rw [hm] at e; cases e
      · intro e; rw [hm] at e; cases e
      · intro e; exact absurd e hst
    simp only
    split
    · exact ⟨key _ (by decide), rfl, rfl⟩
    · exact ⟨key _ (by decide), rfl, rfl⟩

theorem resolveAll_Keeps (results : List (List (String × String))) (names : List String)
    (s t : BoincResource) (h : resolveAll results names s = some t) :
    List.Forall₂ BoincBatch.Keeps s.m_batches t.m_batches ∧ t.nextPtr = s.nextPtr ∧
      t.submitCalls = s.submitCalls := by
  induction results generalizing names s with
  | nil =>
    simp only [resolveAll, Option.some.injEq] at h
    subst h
    exact ⟨Forall₂_Keeps_refl _, rfl, rfl⟩
  | cons r rs ih =>
    cases names with
    | nil => simp [resolveAll] at h
    | cons n ns =>
      simp only [resolveAll] at h
      obtain ⟨a1, a2, a3⟩ := ih ns (resolveOne n r s) h
      obtain ⟨b1, b2, b3⟩ := resolveOne_Keeps n r s
      exact ⟨Forall₂_Keeps_trans b1 a1, a2.trans b2, a3.trans b3⟩

theorem FinishBatchStatus_Keeps (s : BoincResource) (reply : QueryReply)
    (r : BatchStatusResult × BoincResource) (h : s.FinishBatchStatus reply = some r) :
    List.Forall₂ BoincBatch.Keeps s.m_batches r.2.m_batches ∧ r.2.nextPtr = s.nextPtr ∧
      r.2.submitCalls = s.submitCalls := by
  unfold BoincResource.FinishBatchStatus at h
  split at h
  · cases h; exact ⟨Forall₂_Keeps_refl _, rfl, rfl⟩
  · split at h
    · cases h; exact ⟨Forall₂_Keeps_refl _, rfl, rfl⟩
    · split at h
      · cases h
        simp only
        split
        · exact ⟨notifyError_Keeps _ _, rfl, rfl⟩
        · exact ⟨Forall₂_Keeps_refl _, rfl, rfl⟩
      · cases hr : resolveAll reply.results s.m_statusBatches s with
        | none => simp [hr] at h
        | some t =>
          simp only [hr, Option.some.injEq] at h
          subst h
          exact resolveAll_Keeps _ _ s t hr

theorem unregisterLoop_Keeps (job : BoincJob) (l : List BoincBatch) :
    ∃ sub, sub.Sublist l ∧ List.Forall₂ BoincBatch.Keeps sub (unregisterLoop job l).1 := by
  induction l with
  | nil => exact ⟨[], List.Sublist.refl _, List.Forall₂.nil⟩
  | cons x xs ih =>
    unfold unregisterLoop
    split
    · exact ⟨xs, List.sublist_cons_self x xs, Forall₂_Keeps_refl xs⟩
    · obtain ⟨sub, h1, h2⟩ := ih
      exact ⟨x :: sub, h1.cons₂ x, List.Forall₂.cons ⟨rfl, rfl, id, id, id⟩ h2⟩

/-- Every call except `JoinBatch` leaves the batch list as a sublist of the old one, each
remaining batch keeping its address, name and final status, and hands out no address. -/
theorem step_Keeps (s t : BoincResource) (op : Op) (h : s.step op = some t)
    (hop : ∀ now sn cl job rs bn, op ≠ Op.JoinBatch now sn cl job rs bn) :
    (∃ sub, sub.Sublist s.m_batches ∧ List.Forall₂ BoincBatch.Keeps sub t.m_batches) ∧
      t.nextPtr = s.nextPtr := by
  cases op with
  | JoinBatch now sn cl job rs bn => exact absurd rfl (hop now sn cl job rs bn)
  | Submit now job rbn err =>
    simp only [BoincResource.step, Option.some.injEq] at h
    subst h
    unfold BoincResource.Submit
    cases rbn with
    | none => exact ⟨⟨_, List.Sublist.refl _, Forall₂_Keeps_refl _⟩, rfl⟩
    | some name =>
      simp only
      cases s.m_batches.find? (fun b => b.m_batch_name = name) with
      | none => exact ⟨⟨_, List.Sublist.refl _, Forall₂_Keeps_refl _⟩, rfl⟩
      | some batch =>
        simp only
        split
        · exact ⟨⟨_, List.Sublist.refl _, Forall₂_Keeps_refl _⟩, rfl⟩
        · split
          · exact ⟨⟨_, List.Sublist.refl _, Forall₂_Keeps_refl _⟩, rfl⟩
          · split
            · exact ⟨⟨_, List.Sublist.refl _, Forall₂_Keeps_refl _⟩, rfl⟩
            · refine ⟨⟨_, List.Sublist.refl _, ?_⟩, rfl⟩
              show List.Forall₂ BoincBatch.Keeps s.m_batches (updateFirst _ _ s.m_batches)
              apply updateFirst_Keeps
              intro b
              exact ⟨rfl, rfl, id, id, id⟩
  | UnregisterJob job =>
    simp only [BoincResource.step, Option.some.injEq] at h
    subst h
    refine ⟨?_, ?_⟩
    · rw [UnregisterJob_batches]
      exact unregisterLoop_Keeps job s.m_batches
    · unfold BoincResource.UnregisterJob
      split
      · rfl
      · simp only
        split <;> split <;> rfl
  | StartBatchStatus reply =>
    simp only [BoincResource.step, BoincResource.StartBatchStatus, Option.map_eq_some'] at h
    obtain ⟨r, hr, rfl⟩ := h
    obtain ⟨a1, a2, _⟩ := FinishBatchStatus_Keeps _ reply r hr
    exact ⟨⟨_, List.Sublist.refl _, a1⟩, a2⟩
  | FinishBatchStatus reply =>
    simp only [BoincResource.step, Option.map_eq_some'] at h
    obtain ⟨r, hr, rfl⟩ := h
    obtain ⟨a1, a2, _⟩ := FinishBatchStatus_Keeps _ reply r hr
    exact ⟨⟨_, List.Sublist.refl _, a1⟩, a2⟩
  | DoBatchSubmits TN now started gahp =>
    simp only [BoincResource.step, Option.some.injEq] at h
    subst h
    unfold BoincResource.DoBatchSubmits
    split
    · exact ⟨⟨_, List.Sublist.refl _, Forall₂_Keeps_refl _⟩, rfl⟩
    · obtain ⟨a1, a2⟩ := submitLoop_Keeps TN now gahp s.m_batches
        { res := s, delay := TN, ncalls := 0 }
      exact ⟨⟨_, List.Sublist.refl _, a1⟩, a2⟩
  | UpdateBoincLeases TN now started gahp =>
    simp only [BoincResource.step, Option.some.injEq] at h
    subst h
    unfold BoincResource.UpdateBoincLeases
    split
    · exact ⟨⟨_, List.Sublist.refl _, Forall₂_Keeps_refl _⟩, rfl⟩
    · obtain ⟨a1, a2⟩ := leaseLoop_Keeps TN now gahp s.m_batches
        { res := s, delay := TN, ncalls := 0 }
      exact ⟨⟨_, List.Sublist.refl _, a1⟩, a2⟩

end Boinc

namespace Boinc

/-! ## Invariants of the batch list -/

theorem Steps.head {s t u : BoincResource} (op : Op) (h : s.step op = some t)
    (htu : Steps t u) : Steps s u := by
  induction htu with
  | refl => exact Steps.step s _ op Steps.refl h
  | step v w op2 _ hvw ih => exact Steps.step v w op2 ih hvw

theorem Steps_of_run (ops : List Op) (s t : BoincResource) (h : run ops s = some t) :
    Steps s t := by
  induction ops generalizing s with
  | nil =>
    simp only [run, Option.some.injEq] at h
    subst h
    exact Steps.refl
  | cons op ops ih =>
    simp only [run, Option.bind_eq_some] at h
    obtain ⟨v, hv, hr⟩ := h
    exact Steps.head op hv (ih v hr)

theorem Forall₂_Keeps_FirstWithName {l l2 : List BoincBatch}
    (h : List.Forall₂ BoincBatch.Keeps l l2) (hl : FirstWithName l) : FirstWithName l2 := by
  unfold FirstWithName at hl ⊢
  induction h with
  | nil => exact List.Pairwise.nil
  | @cons a b l l2 hab hrest ih =>
    rw [List.pairwise_cons] at hl ⊢
    refine ⟨?_, ih hl.2⟩
    intro c hc hm
    obtain ⟨c0, hc0, hk⟩ := Forall₂_Keeps_mem hrest c hc
    rw [hab.2.1, hk.2.1]
    exact hl.1 c0 hc0 (hk.2.2.2.2 hm)

theorem WF_of_Keeps (s t : BoincResource) (sub : List BoincBatch) (hs : s.WF)
    (h1 : sub.Sublist s.m_batches) (h2 : List.Forall₂ BoincBatch.Keeps sub t.m_batches)
    (h3 : t.nextPtr = s.nextPtr) : t.WF := by
  obtain ⟨w1, w2, w3⟩ := hs
  refine ⟨?_, ?_, ?_⟩
  · rw [Forall₂_Keeps_ptr h2]
    exact w1.sublist (h1.map _)
  · intro b hb
    obtain ⟨a, ha, hk⟩ := Forall₂_Keeps_mem h2 b hb
    rw [hk.1, h3]
    exact w2 a (h1.subset ha)
  · exact Forall₂_Keeps_FirstWithName h2 (List.Pairwise.sublist h1 w3)

theorem joinNamed_ptr (now : Int) (job : BoincJob) (remoteState : String) (b : BoincBatch) :
    (joinNamed now job remoteState b).ptr = b.ptr ∧
      (joinNamed now job remoteState b).m_batch_name = b.m_batch_name ∧
      (b.m_submit_status = BatchSubmitStatus.BatchFailed →
        (joinNamed now job remoteState b).m_submit_status = BatchSubmitStatus.BatchFailed) ∧
      (b.m_submit_status = BatchSubmitStatus.BatchSubmitted →
        (joinNamed now job remoteState b).m_submit_status =
          BatchSubmitStatus.BatchSubmitted) := by
  refine ⟨rfl, rfl, ?_, ?_⟩
  · intro h
    simp [joinNamed, h]
  · intro h
    simp [joinNamed, h]

theorem joinCluster_Keeps (now : Int) (job : BoincJob) (b : BoincBatch) :
    b.Keeps (joinCluster now job b) :=
  ⟨rfl, rfl, id, id, id⟩

theorem WF_new : BoincResource.new.WF := by
  refine ⟨?_, ?_, ?_⟩
  · simp [BoincResource.new]
  · intro b hb
    simp [BoincResource.new] at hb
  · simp [FirstWithName, BoincResource.new]

end Boinc

namespace Boinc

theorem Origin_replace (s t : BoincResource) (before after : List BoincBatch)
    (b b2 : BoincBatch) (hs : s.WF) (h1 : s.m_batches = before ++ b :: after)
    (h2 : t.m_batches = before ++ b2 :: after) (h3 : t.nextPtr = s.nextPtr)
    (hp : b2.ptr = b.ptr) (hn : b2.m_batch_name = b.m_batch_name)
    (hf : b.m_submit_status = BatchSubmitStatus.BatchFailed →
      b2.m_submit_status = BatchSubmitStatus.BatchFailed)
    (hsub : b.m_submit_status = BatchSubmitStatus.BatchSubmitted →
      b2.m_submit_status = BatchSubmitStatus.BatchSubmitted)
    (hm : b2.m_submit_status = BatchSubmitStatus.BatchMaybeSubmitted →
      b.m_submit_status = BatchSubmitStatus.BatchMaybeSubmitted ∨
        ∀ a ∈ before, a.m_batch_name ≠ b.m_batch_name) :
    s.Origin t := by
  obtain ⟨w1, w2, w3⟩ := hs
  have hptr : t.m_batches.map (fun x => x.ptr) = s.m_batches.map (fun x => x.ptr) := by
    rw [h1, h2]
    simp [hp]
  refine ⟨⟨?_, ?_, ?_⟩, le_of_eq h3.symm, ?_⟩
  · rw [hptr]
    exact w1
  · intro c hc
    rw [h3]
    rw [h2] at hc
    rcases List.mem_append.mp hc with hc | hc
    · exact w2 c (by rw [h1]; exact List.mem_append_left _ hc)
    · rcases List.mem_cons.mp hc with rfl | hc
      · rw [hp]
        exact w2 b (by rw [h1]; simp)
      · exact w2 c (by rw [h1]; simp [hc])
  · unfold FirstWithName at w3 ⊢
    rw [h1] at w3
    rw [h2]
    rw [List.pairwise_append, List.pairwise_cons] at w3 ⊢
    obtain ⟨p1, ⟨p2, p3⟩, p4⟩ := w3
    refine ⟨p1, ⟨?_, p3⟩, ?_⟩
    · intro c hc hcm
      rw [hn]
      exact p2 c hc hcm
    · intro a ha c hc
      rcases List.mem_cons.mp hc with rfl | hc
      · intro hcm
        rw [hn]
        rcases hm hcm with hb | hb
        · exact p4 a ha b (by simp) hb
        · exact hb a ha
      · exact p4 a ha c (by simp [hc])
  · intro c hc
    left
    rw [h2] at hc
    rcases List.mem_append.mp hc with hc | hc
    · exact ⟨c, by rw [h1]; exact List.mem_append_left _ hc, rfl, id, id⟩
    · rcases List.mem_cons.mp hc with rfl | hc
      · exact ⟨b, by rw [h1]; simp, hp, hf, hsub⟩
      · exact ⟨c, by rw [h1]; simp [hc], rfl, id, id⟩

theorem Origin_append (s t : BoincResource) (n : BoincBatch) (hs : s.WF)
    (h2 : t.m_batches = s.m_batches ++ [n]) (h3 : t.nextPtr = s.nextPtr + 1)
    (hp : n.ptr = s.nextPtr)
    (hm : n.m_submit_status = BatchSubmitStatus.BatchMaybeSubmitted →
      ∀ a ∈ s.m_batches, a.m_batch_name ≠ n.m_batch_name) :
    s.Origin t := by
  obtain ⟨w1, w2, w3⟩ := hs
  refine ⟨⟨?_, ?_, ?_⟩, by omega, ?_⟩
  · rw [h2, List.map_append, List.nodup_append]
    refine ⟨w1, by simp, ?_⟩
    intro x hx hx2
    simp only [List.map_cons, List.map_nil, List.mem_singleton] at hx2
    obtain ⟨a, ha, rfl⟩ := List.mem_map.mp hx
    have := w2 a ha
    omega
  · intro c hc
    rw [h2] at hc
    rcases List.mem_append.mp hc with hc | hc
    · have := w2 c hc
      omega
    · rw [List.mem_singleton] at hc
      subst hc
      omega
  · unfold FirstWithName at w3 ⊢
    rw [h2, List.pairwise_append]
    refine ⟨w3, List.pairwise_singleton _ _, ?_⟩
    intro a ha c hc hcm
    rw [List.mem_singleton] at hc
    subst hc
    exact hm hcm a ha
  · intro c hc
    rw [h2] at hc
    rcases List.mem_append.mp hc with hc | hc
    · exact Or.inl ⟨c, hc, rfl, id, id⟩
    · rw [List.mem_singleton] at hc
      subst hc
      exact Or.inr (le_of_eq hp.symm)

theorem Origin_of_Keeps (s t : BoincResource) (sub : List BoincBatch) (hs : s.WF)
    (h1 : sub.Sublist s.m_batches) (h2 : List.Forall₂ BoincBatch.Keeps sub t.m_batches)
    (h3 : t.nextPtr = s.nextPtr) : s.Origin t := by
  refine ⟨WF_of_Keeps s t sub hs h1 h2 h3, le_of_eq h3.symm, ?_⟩
  intro c hc
  obtain ⟨a, ha, hk⟩ := Forall₂_Keeps_mem h2 c hc
  exact Or.inl ⟨a, h1.subset ha, hk.1, hk.2.2.1, hk.2.2.2.1⟩

end Boinc

namespace Boinc

theorem step_Origin (s t : BoincResource) (op : Op) (hs : s.WF) (h : s.step op = some t) :
    s.Origin t := by
  by_cases hop : ∀ now sn cl job rs bn, op ≠ Op.JoinBatch now sn cl job rs bn
  · obtain ⟨⟨sub, h1, h2⟩, h3⟩ := step_Keeps s t op h hop
    exact Origin_of_Keeps s t sub hs h1 h2 h3
  · push_neg at hop
    obtain ⟨now, sn, cl, job, rs, bn, rfl⟩ := hop
    simp only [BoincResource.step, Option.map_eq_some'] at h
    obtain ⟨r, hr, rfl⟩ := h
    rcases JoinBatch_spec s now sn cl job rs bn r hr with
      ⟨_, _, ⟨before, b, after, e1, e2, e3, e4⟩ | ⟨e1, e2⟩⟩ |
      ⟨_, ⟨before, b, after, e1, e2, _, e4⟩ | ⟨_, e2⟩⟩
    · obtain ⟨j1, j2, j3, j4⟩ := joinNamed_ptr now job rs b
      refine Origin_replace s r.2.2 before after b (joinNamed now job rs b) hs e1
        (by rw [e4]) (by rw [e4]) j1 j2 j3 j4 ?_
      intro _
      right
      intro a ha
      rw [e3]
      exact e2 a ha
    · refine Origin_append s r.2.2 _ hs (by rw [e2]) (by rw [e2]) ?_ ?_
      · exact (joinNamed_ptr now job rs _).1
      · intro _ a ha
        rw [(joinNamed_ptr now job rs _).2.1]
        exact e1 a ha
    · refine Origin_replace s r.2.2 before after b (joinCluster now job b) hs e1
        (by rw [e4]) (by rw [e4]) rfl rfl id id ?_
      intro hm
      exact Or.inl hm
    · refine Origin_append s r.2.2 _ hs (by rw [e2]) (by rw [e2]) rfl ?_
      intro hm
      simp [joinCluster, BoincResource.newBatch] at hm

theorem Origin_refl (s : BoincResource) (hs : s.WF) : s.Origin s :=
  ⟨hs, le_refl _, fun c hc => Or.inl ⟨c, hc, rfl, id, id⟩⟩

theorem Origin_trans {s t u : BoincResource} (h1 : s.Origin t) (h2 : t.Origin u) :
    s.Origin u := by
  obtain ⟨_, a2, a3⟩ := h1
  obtain ⟨b1, b2, b3⟩ := h2
  refine ⟨b1, le_trans a2 b2, ?_⟩
  intro c hc
  rcases b3 c hc with ⟨d, hd, e1, e2, e3⟩ | hnew
  · rcases a3 d hd with ⟨d0, hd0, f1, f2, f3⟩ | hnew
    · exact Or.inl ⟨d0, hd0, e1.trans f1, fun x => e2 (f2 x), fun x => e3 (f3 x)⟩
    · exact Or.inr (by omega)
  · exact Or.inr (by omega)

theorem Steps_Origin {s u : BoincResource} (hs : s.WF) (h : Steps s u) : s.Origin u := by
  induction h with
  | refl => exact Origin_refl s hs
  | step t u op _ htu ih => exact Origin_trans ih (step_Origin t u op ih.1 htu)

theorem Reachable_WF {s : BoincResource} (h : Reachable s) : s.WF :=
  (Steps_Origin WF_new h).1

/-- A batch object that has not been deleted keeps a status of `BatchFailed` or
`BatchSubmitted` through any sequence of calls. -/
theorem Origin_status {s u : BoincResource} (hs : s.WF) (h : s.Origin u)
    (b c : BoincBatch) (hb : b ∈ s.m_batches) (hc : c ∈ u.m_batches) (hp : c.ptr = b.ptr) :
    (b.m_submit_status = BatchSubmitStatus.BatchFailed →
        c.m_submit_status = BatchSubmitStatus.BatchFailed) ∧
      (b.m_submit_status = BatchSubmitStatus.BatchSubmitted →
        c.m_submit_status = BatchSubmitStatus.BatchSubmitted) := by
  rcases h.2.2 c hc with ⟨d, hd, e1, e2, e3⟩ | hnew
  · have hdb : d = b :=
      List.inj_on_of_nodup_map hs.1 hd hb (e1.symm.trans hp)
    subst hdb
    exact ⟨e2, e3⟩
  · have := hs.2.1 b hb
    omega

end Boinc

namespace Boinc

/-! ## C16: a failed batch is never retried -/

/-- C16 (a failed batch is never retried).  In every state a `BoincResource` reaches from
its constructor by calls of its batch operations, a batch `b` in `BatchFailed` gets no
`boinc_submit` call from `DoBatchSubmits` (neither a new command nor a poll), and after any
one call (`JoinBatch`, `Submit`, `UnregisterJob`, `StartBatchStatus`, `FinishBatchStatus`,
`DoBatchSubmits`, `UpdateBoincLeases`) the batch object, if the call has not deleted it, is
still in `BatchFailed`. -/
theorem failed_batch_never_retried (s : BoincResource) (hs : Reachable s) (b : BoincBatch)
    (hb : b ∈ s.m_batches) (hf : b.m_submit_status = BatchSubmitStatus.BatchFailed) :
    (∀ (TIMER_NEVER now : Int) (started : Bool) (gahp : Nat → GahpReply),
      ∀ c ∈ (s.DoBatchSubmits TIMER_NEVER now started gahp).submitCalls.drop
          s.submitCalls.length,
        c.batch.ptr ≠ b.ptr) ∧
    (∀ (op : Op) (t : BoincResource), s.step op = some t →
      ∀ c ∈ t.m_batches, c.ptr = b.ptr →
        c.m_submit_status = BatchSubmitStatus.BatchFailed) := by
  have hw := Reachable_WF hs
  refine ⟨?_, ?_⟩
  · intro TN now started gahp c hc hp
    obtain ⟨calls, e1, e2⟩ := DoBatchSubmits_calls s TN now started gahp
    rw [e1, List.drop_left] at hc
    obtain ⟨m1, m2, _⟩ := e2 c hc
    have hcb : c.batch = b := List.inj_on_of_nodup_map hw.1 m1 hb hp
    rw [hcb] at m2
    exact m2.2.2 hf
  · intro op t ht c hc hp
    exact (Origin_status hw (step_Origin s t op hw ht) b c hb hc hp).1 hf

/-- Witness for C16: the batch whose submit command failed is neither submitted again by
`DoBatchSubmits` nor changed by a later pass of `DoBatchSubmits`. -/
theorem failed_batch_never_retried_witness :
    (∀ c ∈ (failedExample.DoBatchSubmits (-1) 20 true
          (fun _ => { rc := 0, errorString := "" })).submitCalls.drop
        failedExample.submitCalls.length,
      c.batch.ptr ≠ failedBatch.ptr) ∧
    (∀ c ∈ (failedExample.DoBatchSubmits (-1) 20 true
          (fun _ => { rc := 0, errorString := "" })).m_batches,
      c.ptr = failedBatch.ptr → c.m_submit_status = BatchSubmitStatus.BatchFailed) :=
  ⟨(failed_batch_never_retried failedExample (Steps_of_run failedOps _ _ rfl) failedBatch
      (by decide) rfl).1 (-1) 20 true (fun _ => { rc := 0, errorString := "" }),
    (failed_batch_never_retried failedExample (Steps_of_run failedOps _ _ rfl) failedBatch
      (by decide) rfl).2
      (Op.DoBatchSubmits (-1) 20 true (fun _ => { rc := 0, errorString := "" })) _ rfl⟩

end Boinc

namespace Boinc

/-! ## C17: what a successful status query resolves -/

end Boinc

namespace Boinc

end Boinc

namespace Boinc

end Boinc

namespace Boinc

end Boinc

namespace Boinc

/-! ## The pass of `UpdateBoincLeases` -/

/-- While a lease command is active, the pass skips every batch that is not the active
one. -/
theorem leaseLoop_skip (TIMER_NEVER now : Int) (gahp : Nat → GahpReply) (p : Nat)
    (before rest : List BoincBatch) (st : Pass)
    (hact : st.res.m_activeLeaseBatch = some p)
    (hbefore : ∀ a ∈ before, a.ptr ≠ p) :
    leaseLoop TIMER_NEVER now gahp (before ++ rest) st =
      (before ++ (leaseLoop TIMER_NEVER now gahp rest st).1,
        (leaseLoop TIMER_NEVER now gahp rest st).2) := by
  induction before with
  | nil => simp
  | cons x xs ih =>
    have ih2 := ih (fun a ha => hbefore a (by simp [ha]))
    have hx := hbefore x (by simp)
    simp only [List.cons_append]
    rw [leaseLoop]
    have h1 : ¬ leaseSkip x = true := by rw [leaseSkip_false]; simp
    have hne : st.res.m_activeLeaseBatch ≠ none ∧
        st.res.m_activeLeaseBatch ≠ some x.ptr := by
      rw [hact]
      refine ⟨by simp, ?_⟩
      intro e
      exact hx (Option.some.inj e).symm
    rw [if_neg h1, if_pos hne]
    simp [ih2]

/-- The round of the pass in which the active lease command is found complete. -/
theorem leaseLoop_complete (TIMER_NEVER now : Int) (gahp : Nat → GahpReply)
    (b : BoincBatch) (after : List BoincBatch) (st : Pass)
    (hact : st.res.m_activeLeaseBatch = some b.ptr)
    (hrc : (gahp st.ncalls).rc ≠ Annex.GAHPCLIENT_COMMAND_PENDING) :
    leaseLoop TIMER_NEVER now gahp (b :: after) st =
      (b.renewed (gahp st.ncalls) st.res.m_activeLeaseTime ::
          (leaseLoop TIMER_NEVER now gahp after (st.afterRenewal b (gahp st.ncalls))).1,
        (leaseLoop TIMER_NEVER now gahp after (st.afterRenewal b (gahp st.ncalls))).2) := by
  have h1 : ¬ leaseSkip b = true := by rw [leaseSkip_false]; simp
  have h2 : ¬ (st.res.m_activeLeaseBatch ≠ none ∧
      st.res.m_activeLeaseBatch ≠ some b.ptr) := by
    rw [hact]; simp
  have h3 : ¬ st.res.m_activeLeaseBatch = none := by rw [hact]; simp
  rw [leaseLoop, if_neg h1, if_neg h2, if_neg h3, if_neg hrc]
  by_cases h0 : (gahp st.ncalls).rc = 0
  · rw [if_pos h0]
    simp only [BoincBatch.renewed, Pass.afterRenewal, h0, if_true]
  · rw [if_neg h0]
    simp only [BoincBatch.renewed, Pass.afterRenewal, h0, if_false]

/-- The round of the pass in which the active lease command is found still pending: the
pass ends there. -/
theorem leaseLoop_pending (TIMER_NEVER now : Int) (gahp : Nat → GahpReply)
    (b : BoincBatch) (after : List BoincBatch) (st : Pass)
    (hact : st.res.m_activeLeaseBatch = some b.ptr)
    (hrc : (gahp st.ncalls).rc = Annex.GAHPCLIENT_COMMAND_PENDING) :
    leaseLoop TIMER_NEVER now gahp (b :: after) st =
      (b :: after,
        { st with
          res := { st.res with
                   leaseCalls := st.res.leaseCalls ++
                     [{ batch := b, time := st.res.m_activeLeaseTime, isNew := false }] },
          ncalls := st.ncalls + 1 }) := by
  have h1 : ¬ leaseSkip b = true := by rw [leaseSkip_false]; simp
  have h2 : ¬ (st.res.m_activeLeaseBatch ≠ none ∧
      st.res.m_activeLeaseBatch ≠ some b.ptr) := by
    rw [hact]; simp
  have h3 : ¬ st.res.m_activeLeaseBatch = none := by rw [hact]; simp
  rw [leaseLoop, if_neg h1, if_neg h2, if_neg h3, if_pos hrc]

end Boinc

namespace Boinc

/-- The `boinc_set_lease` calls of one pass of `UpdateBoincLeases`: each is for a batch of
the list, and a call that starts a new command is for a batch that is due, with the expiry
`now + DEFAULT_LEASE_DURATION`. -/
theorem leaseLoop_calls (TIMER_NEVER now : Int) (gahp : Nat → GahpReply)
    (l : List BoincBatch) (st : Pass) :
    ∃ calls, (leaseLoop TIMER_NEVER now gahp l st).2.res.leaseCalls =
        st.res.leaseCalls ++ calls ∧
      ∀ c ∈ calls, c.batch ∈ l ∧
        (c.isNew = true → c.batch.due now ∧ c.time = now + DEFAULT_LEASE_DURATION) := by
  induction l generalizing st with
  | nil => exact ⟨[], by simp [leaseLoop], by simp⟩
  | cons b rest ih =>
    have lift : ∀ (st2 : Pass) (pre : List LeaseCall),
        st2.res.leaseCalls = st.res.leaseCalls ++ pre →
        (∀ c ∈ pre, c.batch ∈ b :: rest ∧
          (c.isNew = true → c.batch.due now ∧ c.time = now + DEFAULT_LEASE_DURATION)) →
        ∃ calls, (leaseLoop TIMER_NEVER now gahp rest st2).2.res.leaseCalls =
            st.res.leaseCalls ++ calls ∧
          ∀ c ∈ calls, c.batch ∈ b :: rest ∧
            (c.isNew = true → c.batch.due now ∧ c.time = now + DEFAULT_LEASE_DURATION) := by
      intro st2 pre h2 h3
      obtain ⟨calls, a3, a4⟩ := ih st2
      refine ⟨pre ++ calls, by rw [a3, h2, List.append_assoc], ?_⟩
      intro c hc
      rcases List.mem_append.mp hc with hc | hc
      · exact h3 c hc
      · exact ⟨List.mem_cons_of_mem _ (a4 c hc).1, (a4 c hc).2⟩
    rw [leaseLoop]
    have h1 : ¬ leaseSkip b = true := by rw [leaseSkip_false]; simp
    rw [if_neg h1]
    by_cases h2 : st.res.m_activeLeaseBatch ≠ none ∧
        st.res.m_activeLeaseBatch ≠ some b.ptr
    · rw [if_pos h2]
      exact lift st [] (by simp) (by simp)
    · rw [if_neg h2]
      by_cases h3 : st.res.m_activeLeaseBatch = none
      · rw [if_pos h3]
        by_cases h4 : (b.m_lease_time + DEFAULT_LEASE_DURATION / 3) - now ≤ 0
        · simp only [h4, if_true]
          by_cases h5 : (gahp st.ncalls).rc ≠ Annex.GAHPCLIENT_COMMAND_PENDING
          · rw [if_pos h5]
            refine lift _ [{ batch := b, time := now + DEFAULT_LEASE_DURATION, isNew := true }]
              (by simp) ?_
            intro c hc
            rw [List.mem_singleton] at hc
            subst hc
            exact ⟨by simp, fun _ => ⟨h4, rfl⟩⟩
          · rw [if_neg h5]
            refine ⟨[{ batch := b, time := now + DEFAULT_LEASE_DURATION, isNew := true }],
              by simp, ?_⟩
            intro c hc
            rw [List.mem_singleton] at hc
            subst hc
            exact ⟨by simp, fun _ => ⟨h4, rfl⟩⟩
        · simp only [h4, if_false]
          exact lift _ [] (by simp) (by simp)
      · rw [if_neg h3]
        by_cases h5 : (gahp st.ncalls).rc = Annex.GAHPCLIENT_COMMAND_PENDING
        · rw [if_pos h5]
          refine ⟨[{ batch := b, time := st.res.m_activeLeaseTime, isNew := false }],
            by simp, ?_⟩
          intro c hc
          rw [List.mem_singleton] at hc
          subst hc
          exact ⟨by simp, fun h => by cases h⟩
        · rw [if_neg h5]
          by_cases h0 : (gahp st.ncalls).rc = 0
          · rw [if_pos h0]
            refine lift _ [{ batch := b, time := st.res.m_activeLeaseTime, isNew := false }]
              (by simp) ?_
            intro c hc
            rw [List.mem_singleton] at hc
            subst hc
            exact ⟨by simp, fun h => by cases h⟩
          · rw [if_neg h0]
            refine lift _ [{ batch := b, time := st.res.m_activeLeaseTime, isNew := false }]
              (by simp) ?_
            intro c hc
            rw [List.mem_singleton] at hc
            subst hc
            exact ⟨by simp, fun h => by cases h⟩

/-- A pass with no lease command active changes no batch and tells no job of a new lease;
it only starts commands, and ends with no command active or with the command it started
last. -/
theorem leaseLoop_idle (TIMER_NEVER now : Int) (gahp : Nat → GahpReply)
    (l : List BoincBatch) (st : Pass) (hact : st.res.m_activeLeaseBatch = none) :
    (leaseLoop TIMER_NEVER now gahp l st).1 = l ∧
    (leaseLoop TIMER_NEVER now gahp l st).2.res.leaseSent = st.res.leaseSent ∧
    (∃ calls, (leaseLoop TIMER_NEVER now gahp l st).2.res.leaseCalls =
        st.res.leaseCalls ++ calls ∧
      (∀ c ∈ calls, c.isNew = true ∧ c.batch ∈ l) ∧
      ((leaseLoop TIMER_NEVER now gahp l st).2.res.m_activeLeaseBatch = none ∨
        ∃ c, calls.getLast? = some c ∧
          (leaseLoop TIMER_NEVER now gahp l st).2.res.m_activeLeaseBatch =
            some c.batch.ptr ∧
          (leaseLoop TIMER_NEVER now gahp l st).2.res.m_activeLeaseTime = c.time)) := by
  induction l generalizing st with
  | nil => exact ⟨rfl, rfl, [], by simp [leaseLoop], by simp, Or.inl hact⟩
  | cons b rest ih =>
    have lift : ∀ (st2 : Pass) (pre : List LeaseCall),
        st2.res.m_activeLeaseBatch = none → st2.res.leaseSent = st.res.leaseSent →
        st2.res.leaseCalls = st.res.leaseCalls ++ pre →
        (∀ c ∈ pre, c.isNew = true ∧ c.batch ∈ b :: rest) →
        (b :: (leaseLoop TIMER_NEVER now gahp rest st2).1 = b :: rest ∧
          (leaseLoop TIMER_NEVER now gahp rest st2).2.res.leaseSent = st.res.leaseSent ∧
          ∃ calls, (leaseLoop TIMER_NEVER now gahp rest st2).2.res.leaseCalls =
              st.res.leaseCalls ++ calls ∧
            (∀ c ∈ calls, c.isNew = true ∧ c.batch ∈ b :: rest) ∧
            ((leaseLoop TIMER_NEVER now gahp rest st2).2.res.m_activeLeaseBatch = none ∨
              ∃ c, calls.getLast? = some c ∧
                (leaseLoop TIMER_NEVER now gahp rest st2).2.res.m_activeLeaseBatch =
                  some c.batch.ptr ∧
                (leaseLoop TIMER_NEVER now gahp rest st2).2.res.m_activeLeaseTime =
                  c.time)) := by
      intro st2 pre h0 h1 h2 h3
      obtain ⟨a1, a2, calls, a3, a4, a5⟩ := ih st2 h0
      refine ⟨by rw [a1], a2.trans h1, pre ++ calls, by rw [a3, h2, List.append_assoc], ?_, ?_⟩
      · intro c hc
        rcases List.mem_append.mp hc with hc | hc
        · exact h3 c hc
        · exact ⟨(a4 c hc).1, List.mem_cons_of_mem _ (a4 c hc).2⟩
      · rcases a5 with a5 | ⟨c, hc1, hc2⟩
        · exact Or.inl a5
        · refine Or.inr ⟨c, ?_, hc2⟩
          rw [List.getLast?_append, hc1]
          rfl
    rw [leaseLoop]
    have h1 : ¬ leaseSkip b = true := by rw [leaseSkip_false]; simp
    have h2 : ¬ (st.res.m_activeLeaseBatch ≠ none ∧
        st.res.m_activeLeaseBatch ≠ some b.ptr) := by
      rw [hact]; simp
    rw [if_neg h1, if_neg h2, if_pos hact]
    by_cases h4 : (b.m_lease_time + DEFAULT_LEASE_DURATION / 3) - now ≤ 0
    · simp only [h4, if_true]
      by_cases h5 : (gahp st.ncalls).rc ≠ Annex.GAHPCLIENT_COMMAND_PENDING
      · rw [if_pos h5]
        exact lift _ [{ batch := b, time := now + DEFAULT_LEASE_DURATION, isNew := true }]
          hact rfl (by simp) (by simp)
      · rw [if_neg h5]
        exact ⟨rfl, rfl,
          [{ batch := b, time := now + DEFAULT_LEASE_DURATION, isNew := true }],
          by simp, by simp, Or.inr ⟨_, rfl, rfl, rfl⟩⟩
    · simp only [h4, if_false]
      exact lift _ [] hact rfl (by simp) (by simp)

end Boinc

namespace Boinc

theorem UpdateBoincLeases_eq (s : BoincResource) (TIMER_NEVER now : Int)
    (gahp : Nat → GahpReply) :
    s.UpdateBoincLeases TIMER_NEVER now true gahp =
      { (leaseLoop TIMER_NEVER now gahp s.m_batches
            { res := s, delay := TIMER_NEVER, ncalls := 0 }).2.res with
        m_batches := (leaseLoop TIMER_NEVER now gahp s.m_batches
            { res := s, delay := TIMER_NEVER, ncalls := 0 }).1,
        timers := (leaseLoop TIMER_NEVER now gahp s.m_batches
            { res := s, delay := TIMER_NEVER, ncalls := 0 }).2.res.timers ++
          [(Timer.m_leaseTid, (leaseLoop TIMER_NEVER now gahp s.m_batches
            { res := s, delay := TIMER_NEVER, ncalls := 0 }).2.delay)] } := by
  simp [BoincResource.UpdateBoincLeases]

/-- A pass over a resource with one batch, which is due, with no command active: the
command is started and found pending. -/
theorem UpdateBoincLeases_start_single (r : BoincResource) (c : BoincBatch)
    (TIMER_NEVER n : Int) (gahp : Nat → GahpReply) (hb : r.m_batches = [c])
    (hact : r.m_activeLeaseBatch = none) (hdue : c.due n)
    (hp : (gahp 0).rc = Annex.GAHPCLIENT_COMMAND_PENDING) :
    r.UpdateBoincLeases TIMER_NEVER n true gahp =
      { r with
        leaseCalls := r.leaseCalls ++
          [{ batch := c, time := n + DEFAULT_LEASE_DURATION, isNew := true }],
        m_activeLeaseBatch := some c.ptr,
        m_activeLeaseTime := n + DEFAULT_LEASE_DURATION,
        timers := r.timers ++ [(Timer.m_leaseTid, TIMER_NEVER)] } := by
  have h1 : ¬ leaseSkip c = true := by rw [leaseSkip_false]; simp
  have h2 : ¬ (r.m_activeLeaseBatch ≠ none ∧ r.m_activeLeaseBatch ≠ some c.ptr) := by
    rw [hact]; simp
  have h4 : (c.m_lease_time + DEFAULT_LEASE_DURATION / 3) - n ≤ 0 := hdue
  rw [UpdateBoincLeases_eq, hb, leaseLoop, if_neg h1, if_neg h2, if_pos hact]
  simp only [h4, if_true, hp, ne_eq, not_true_eq_false, if_false]

/-- A pass over a resource with one batch whose lease command is active and has
completed. -/
theorem UpdateBoincLeases_poll_single (r : BoincResource) (c : BoincBatch)
    (TIMER_NEVER n : Int) (gahp : Nat → GahpReply) (hb : r.m_batches = [c])
    (hact : r.m_activeLeaseBatch = some c.ptr)
    (hrc : (gahp 0).rc ≠ Annex.GAHPCLIENT_COMMAND_PENDING) :
    r.UpdateBoincLeases TIMER_NEVER n true gahp =
      { r with
        m_batches := [c.renewed (gahp 0) r.m_activeLeaseTime],
        leaseCalls := r.leaseCalls ++
          [{ batch := c, time := r.m_activeLeaseTime, isNew := false }],
        m_activeLeaseBatch := none,
        leaseSent :=
          if (gahp 0).rc = 0 then r.leaseSent ++ [(c.m_jobs, r.m_activeLeaseTime)]
          else r.leaseSent,
        timers := r.timers ++ [(Timer.m_leaseTid, TIMER_NEVER)] } := by
  rw [UpdateBoincLeases_eq, hb,
    leaseLoop_complete TIMER_NEVER n gahp c []
      { res := r, delay := TIMER_NEVER, ncalls := 0 } hact hrc]
  simp [leaseLoop, Pass.afterRenewal]

theorem renewRound_single (r : BoincResource) (c : BoincBatch)
    (TIMER_NEVER n1 n2 : Int) (reply : GahpReply) (hb : r.m_batches = [c])
    (hact : r.m_activeLeaseBatch = none) (hdue : c.due n1)
    (hrc : reply.rc ≠ Annex.GAHPCLIENT_COMMAND_PENDING) :
    renewRound TIMER_NEVER n1 n2 reply r =
      { r with
        m_batches := [c.renewed reply (n1 + DEFAULT_LEASE_DURATION)],
        leaseCalls := r.leaseCalls ++
          [{ batch := c, time := n1 + DEFAULT_LEASE_DURATION, isNew := true },
           { batch := c, time := n1 + DEFAULT_LEASE_DURATION, isNew := false }],
        m_activeLeaseBatch := none,
        m_activeLeaseTime := n1 + DEFAULT_LEASE_DURATION,
        leaseSent :=
          if reply.rc = 0 then r.leaseSent ++ [(c.m_jobs, n1 + DEFAULT_LEASE_DURATION)]
          else r.leaseSent,
        timers := r.timers ++ [(Timer.m_leaseTid, TIMER_NEVER),
          (Timer.m_leaseTid, TIMER_NEVER)] } := by
  unfold renewRound
  rw [UpdateBoincLeases_start_single r c TIMER_NEVER n1 _ hb hact hdue rfl]
  rw [UpdateBoincLeases_poll_single
    { r with
      leaseCalls := r.leaseCalls ++
        [{ batch := c, time := n1 + DEFAULT_LEASE_DURATION, isNew := true }],
      m_activeLeaseBatch := some c.ptr,
      m_activeLeaseTime := n1 + DEFAULT_LEASE_DURATION,
      timers := r.timers ++ [(Timer.m_leaseTid, TIMER_NEVER)] }
    c TIMER_NEVER n2 (fun _ => reply) hb rfl hrc]
  simp

end Boinc

namespace Boinc

/-! ## C21: outcome of a lease renewal -/

/-- C21 (outcome of a lease renewal).  Let a lease command be active for batch `b`, the
first batch of the list with that address, and let the channel return a result other than
pending when `UpdateBoincLeases` polls.  Then on return `m_lease_time` of `b` is the expiry
sent with the command (`m_activeLeaseTime`) if the result is 0 and is unchanged otherwise,
no other batch has changed, on success `UpdateJobLeaseSent` has been called with that
expiry on the members of `b` and on failure on nobody; the first `boinc_set_lease` call of
the pass polls `b` with that expiry, the active-lease pointer is reset to NULL in that
round, and on return it is NULL unless the pass went on to start a command for a batch
behind `b`.  Hence, for a resource whose only batch is due: after two renewals that fail
the batch is as it was, and after a third one that succeeds `m_lease_time` is the expiry of
the third command, which is the only expiry the members have been told. -/
theorem lease_renewal_outcome (s : BoincResource) (TIMER_NEVER now : Int)
    (gahp : Nat → GahpReply) (before after : List BoincBatch) (b : BoincBatch)
    (hact : s.m_activeLeaseBatch = some b.ptr)
    (hs : s.m_batches = before ++ b :: after)
    (hbefore : ∀ a ∈ before, a.ptr ≠ b.ptr)
    (hrc : (gahp 0).rc ≠ Annex.GAHPCLIENT_COMMAND_PENDING) :
    (s.UpdateBoincLeases TIMER_NEVER now true gahp).m_batches =
      before ++ b.renewed (gahp 0) s.m_activeLeaseTime :: after ∧
    ((gahp 0).rc = 0 →
      b.renewed (gahp 0) s.m_activeLeaseTime =
        { b with m_lease_time := s.m_activeLeaseTime }) ∧
    ((gahp 0).rc ≠ 0 → b.renewed (gahp 0) s.m_activeLeaseTime = b) ∧
    (s.UpdateBoincLeases TIMER_NEVER now true gahp).leaseSent =
      (if (gahp 0).rc = 0 then s.leaseSent ++ [(b.m_jobs, s.m_activeLeaseTime)]
        else s.leaseSent) ∧
    (Pass.afterRenewal { res := s, delay := TIMER_NEVER, ncalls := 0 } b
        (gahp 0)).res.m_activeLeaseBatch = none ∧
    (∃ calls, (s.UpdateBoincLeases TIMER_NEVER now true gahp).leaseCalls =
        s.leaseCalls ++
          { batch := b, time := s.m_activeLeaseTime, isNew := false } :: calls ∧
      (∀ c ∈ calls, c.isNew = true ∧ c.batch ∈ after) ∧
      ((s.UpdateBoincLeases TIMER_NEVER now true gahp).m_activeLeaseBatch = none ∨
        ∃ c, calls.getLast? = some c ∧
          (s.UpdateBoincLeases TIMER_NEVER now true gahp).m_activeLeaseBatch =
            some c.batch.ptr)) ∧
    (∀ (r : BoincResource) (c : BoincBatch) (n1 n2 n3 n4 n5 n6 : Int) (e1 e2 : GahpReply),
      r.m_batches = [c] → r.m_activeLeaseBatch = none → c.due n1 → n1 ≤ n3 → n3 ≤ n5 →
      e1.rc ≠ 0 → e1.rc ≠ Annex.GAHPCLIENT_COMMAND_PENDING →
      e2.rc ≠ 0 → e2.rc ≠ Annex.GAHPCLIENT_COMMAND_PENDING →
      (renewRound TIMER_NEVER n1 n2 e1 r).m_batches = [c] ∧
      (renewRound TIMER_NEVER n3 n4 e2 (renewRound TIMER_NEVER n1 n2 e1 r)).m_batches = [c] ∧
      (renewRound TIMER_NEVER n5 n6 { rc := 0, errorString := "" }
          (renewRound TIMER_NEVER n3 n4 e2
            (renewRound TIMER_NEVER n1 n2 e1 r))).m_batches =
        [{ c with m_lease_time := n5 + DEFAULT_LEASE_DURATION }] ∧
      (renewRound TIMER_NEVER n5 n6 { rc := 0, errorString := "" }
          (renewRound TIMER_NEVER n3 n4 e2
            (renewRound TIMER_NEVER n1 n2 e1 r))).leaseSent =
        r.leaseSent ++ [(c.m_jobs, n5 + DEFAULT_LEASE_DURATION)]) := by
  have hskip := leaseLoop_skip TIMER_NEVER now gahp b.ptr before (b :: after)
    { res := s, delay := TIMER_NEVER, ncalls := 0 } hact hbefore
  have hdone := leaseLoop_complete TIMER_NEVER now gahp b after
    { res := s, delay := TIMER_NEVER, ncalls := 0 } hact hrc
  obtain ⟨i1, i2, calls, i3, i4, i5⟩ := leaseLoop_idle TIMER_NEVER now gahp after
    (Pass.afterRenewal { res := s, delay := TIMER_NEVER, ncalls := 0 } b (gahp 0)) rfl
  have hloop : leaseLoop TIMER_NEVER now gahp s.m_batches
      { res := s, delay := TIMER_NEVER, ncalls := 0 } =
      (before ++ b.renewed (gahp 0) s.m_activeLeaseTime :: after,
        (leaseLoop TIMER_NEVER now gahp after
          (Pass.afterRenewal { res := s, delay := TIMER_NEVER, ncalls := 0 } b
            (gahp 0))).2) := by
    rw [hs, hskip, hdone, i1]
  refine ⟨?_, ?_, ?_, ?_, rfl, ⟨calls, ?_, i4, ?_⟩, ?_⟩
  · rw [UpdateBoincLeases_eq, hloop]
  · intro h0
    simp [BoincBatch.renewed, h0]
  · intro h0
    simp [BoincBatch.renewed, h0]
  · rw [UpdateBoincLeases_eq, hloop]
    exact i2
  · rw [UpdateBoincLeases_eq, hloop]
    simp only
    rw [i3]
    simp [Pass.afterRenewal]
  · rw [UpdateBoincLeases_eq, hloop]
    rcases i5 with i5 | ⟨c, c1, c2, _⟩
    · exact Or.inl i5
    · exact Or.inr ⟨c, c1, c2⟩
  · intro r c n1 n2 n3 n4 n5 n6 e1 e2 hb ha hdue h13 h35 f1 p1 f2 p2
    have d3 : c.due n3 := by
      unfold BoincBatch.due at hdue ⊢
      omega
    have d5 : c.due n5 := by
      unfold BoincBatch.due at hdue ⊢
      omega
    have r1 := renewRound_single r c TIMER_NEVER n1 n2 e1 hb ha hdue p1
    have k1 : c.renewed e1 (n1 + DEFAULT_LEASE_DURATION) = c := by
      simp [BoincBatch.renewed, f1]
    rw [k1] at r1
    have b1 : (renewRound TIMER_NEVER n1 n2 e1 r).m_batches = [c] := by rw [r1]
    have a1 : (renewRound TIMER_NEVER n1 n2 e1 r).m_activeLeaseBatch = none := by rw [r1]
    have s1 : (renewRound TIMER_NEVER n1 n2 e1 r).leaseSent = r.leaseSent := by
      rw [r1]
      simp [f1]
    have r2 := renewRound_single _ c TIMER_NEVER n3 n4 e2 b1 a1 d3 p2
    have k2 : c.renewed e2 (n3 + DEFAULT_LEASE_DURATION) = c := by
      simp [BoincBatch.renewed, f2]
    rw [k2] at r2
    have b2 : (renewRound TIMER_NEVER n3 n4 e2
        (renewRound TIMER_NEVER n1 n2 e1 r)).m_batches = [c] := by rw [r2]
    have a2 : (renewRound TIMER_NEVER n3 n4 e2
        (renewRound TIMER_NEVER n1 n2 e1 r)).m_activeLeaseBatch = none := by rw [r2]
    have s2 : (renewRound TIMER_NEVER n3 n4 e2
        (renewRound TIMER_NEVER n1 n2 e1 r)).leaseSent = r.leaseSent := by
      rw [r2]
      simp [f2, s1]
    have r3 := renewRound_single _ c TIMER_NEVER n5 n6 { rc := 0, errorString := "" }
      b2 a2 d5 (by decide)
    refine ⟨b1, b2, ?_, ?_⟩
    · rw [r3]
      simp [BoincBatch.renewed]
    · rw [r3]
      simp [s2]

end Boinc

namespace Boinc

/-- Witness for C21: the lease command of the only batch completes with success, and the
batch gets the expiry 31600 that was sent. -/
theorem lease_renewal_outcome_witness :
    (leaseExample.m_activeLeaseBatch = some leaseBatch.ptr ∧
      leaseExample.m_batches = [] ++ leaseBatch :: [] ∧
      (0 : Int) ≠ Annex.GAHPCLIENT_COMMAND_PENDING) ∧
    (leaseExample.UpdateBoincLeases (-1) 10005 true
        (fun _ => { rc := 0, errorString := "" })).m_batches =
      [] ++ leaseBatch.renewed { rc := 0, errorString := "" }
        leaseExample.m_activeLeaseTime :: [] ∧
    (leaseBatch.renewed { rc := 0, errorString := "" }
        leaseExample.m_activeLeaseTime).m_lease_time = 31600 :=
  ⟨⟨rfl, rfl, by decide⟩,
    (lease_renewal_outcome leaseExample (-1) 10005 (fun _ => { rc := 0, errorString := "" })
      [] [] leaseBatch rfl rfl (by simp) (by decide)).1,
    by decide⟩

end Boinc

namespace Boinc

/-! ## C22: which batch gets the next lease command -/

/-- With no lease command active, the pass walks over batches that are not due without a
call; only the local `delay` changes. -/
theorem leaseLoop_wait (TIMER_NEVER now : Int) (gahp : Nat → GahpReply)
    (before rest : List BoincBatch) (st : Pass)
    (hact : st.res.m_activeLeaseBatch = none)
    (hbefore : ∀ a ∈ before, ¬ a.due now) :
    ∃ d, leaseLoop TIMER_NEVER now gahp (before ++ rest) st =
      (before ++ (leaseLoop TIMER_NEVER now gahp rest { st with delay := d }).1,
        (leaseLoop TIMER_NEVER now gahp rest { st with delay := d }).2) := by
  induction before generalizing st with
  | nil => exact ⟨st.delay, by simp⟩
  | cons x xs ih =>
    have hx : ¬ (x.m_lease_time + DEFAULT_LEASE_DURATION / 3) - now ≤ 0 :=
      hbefore x (by simp)
    have h1 : ¬ leaseSkip x = true := by rw [leaseSkip_false]; simp
    have h2 : ¬ (st.res.m_activeLeaseBatch ≠ none ∧
        st.res.m_activeLeaseBatch ≠ some x.ptr) := by
      rw [hact]; simp
    obtain ⟨d, hd⟩ := ih
      { st with delay :=
          if (x.m_lease_time + DEFAULT_LEASE_DURATION / 3) - now < st.delay then
            (x.m_lease_time + DEFAULT_LEASE_DURATION / 3) - now
          else st.delay }
      hact (fun a ha => hbefore a (by simp [ha]))
    refine ⟨d, ?_⟩
    simp only [List.cons_append]
    rw [leaseLoop, if_neg h1, if_neg h2, if_pos hact]
    simp only [hx, if_false]
    rw [hd]

/-- The order of the `boinc_set_lease` calls of a pass: a call answered with pending is the
last call of the pass, and a call polls a command (rather than starting one) exactly when
it is the first call and a command was active when the pass began. -/
theorem leaseLoop_order (TIMER_NEVER now : Int) (gahp : Nat → GahpReply)
    (l : List BoincBatch) (st : Pass) :
    ∃ calls, (leaseLoop TIMER_NEVER now gahp l st).2.res.leaseCalls =
        st.res.leaseCalls ++ calls ∧
      ∀ (i : Nat) (c : LeaseCall), calls[i]? = some c →
        ((gahp (st.ncalls + i)).rc = Annex.GAHPCLIENT_COMMAND_PENDING →
          calls.length = i + 1) ∧
        (c.isNew = false ↔ (i = 0 ∧ st.res.m_activeLeaseBatch ≠ none)) := by
  induction l generalizing st with
  | nil => exact ⟨[], by simp [leaseLoop], by simp⟩
  | cons b rest ih =>
    have lift0 : ∀ st2 : Pass, st2.res.leaseCalls = st.res.leaseCalls →
        st2.ncalls = st.ncalls → st2.res.m_activeLeaseBatch = st.res.m_activeLeaseBatch →
        ∃ calls, (leaseLoop TIMER_NEVER now gahp rest st2).2.res.leaseCalls =
            st.res.leaseCalls ++ calls ∧
          ∀ (i : Nat) (c : LeaseCall), calls[i]? = some c →
            ((gahp (st.ncalls + i)).rc = Annex.GAHPCLIENT_COMMAND_PENDING →
              calls.length = i + 1) ∧
            (c.isNew = false ↔ (i = 0 ∧ st.res.m_activeLeaseBatch ≠ none)) := by
      intro st2 e1 e2 e3
      obtain ⟨calls, a1, a2⟩ := ih st2
      rw [e1] at a1
      rw [e2, e3] at a2
      exact ⟨calls, a1, a2⟩
    have lift1 : ∀ (st2 : Pass) (c0 : LeaseCall),
        st2.res.leaseCalls = st.res.leaseCalls ++ [c0] →
        st2.ncalls = st.ncalls + 1 → st2.res.m_activeLeaseBatch = none →
        (gahp st.ncalls).rc ≠ Annex.GAHPCLIENT_COMMAND_PENDING →
        (c0.isNew = false ↔ st.res.m_activeLeaseBatch ≠ none) →
        ∃ calls, (leaseLoop TIMER_NEVER now gahp rest st2).2.res.leaseCalls =
            st.res.leaseCalls ++ calls ∧
          ∀ (i : Nat) (c : LeaseCall), calls[i]? = some c →
            ((gahp (st.ncalls + i)).rc = Annex.GAHPCLIENT_COMMAND_PENDING →
              calls.length = i + 1) ∧
            (c.isNew = false ↔ (i = 0 ∧ st.res.m_activeLeaseBatch ≠ none)) := by
      intro st2 c0 e1 e2 e3 e4 e5
      obtain ⟨calls, a1, a2⟩ := ih st2
      refine ⟨c0 :: calls, by rw [a1, e1]; simp, ?_⟩
      intro i c hc
      cases i with
      | zero =>
        simp only [List.getElem?_cons_zero, Option.some.injEq] at hc
        subst hc
        refine ⟨fun hp => absurd hp e4, ?_⟩
        rw [e5]
        simp
      | succ k =>
        simp only [List.getElem?_cons_succ] at hc
        obtain ⟨b1, b2⟩ := a2 k c hc
        rw [e2] at b1
        rw [e3] at b2
        refine ⟨?_, ?_⟩
        · intro hp
          have : st.ncalls + 1 + k = st.ncalls + (k + 1) := by omega
          rw [this] at b1
          simp [b1 hp]
        · constructor
          · intro hf
            exact absurd (b2.mp hf).2 (by simp)
          · intro hf
            exact absurd hf.1 (by simp)
    have single : ∀ c0 : LeaseCall,
        (c0.isNew = false ↔ st.res.m_activeLeaseBatch ≠ none) →
        ∀ (i : Nat) (c : LeaseCall), [c0][i]? = some c →
          ((gahp (st.ncalls + i)).rc = Annex.GAHPCLIENT_COMMAND_PENDING →
            [c0].length = i + 1) ∧
          (c.isNew = false ↔ (i = 0 ∧ st.res.m_activeLeaseBatch ≠ none)) := by
      intro c0 e5 i c hc
      cases i with
      | zero =>
        simp only [List.getElem?_cons_zero, Option.some.injEq] at hc
        subst hc
        refine ⟨fun _ => rfl, ?_⟩
        rw [e5]
        simp
      | succ k => simp at hc
    rw [leaseLoop]
    have h1 : ¬ leaseSkip b = true := by rw [leaseSkip_false]; simp
    rw [if_neg h1]
    by_cases h2 : st.res.m_activeLeaseBatch ≠ none ∧
        st.res.m_activeLeaseBatch ≠ some b.ptr
    · rw [if_pos h2]
      exact lift0 st rfl rfl rfl
    · rw [if_neg h2]
      by_cases h3 : st.res.m_activeLeaseBatch = none
      · rw [if_pos h3]
        by_cases h4 : (b.m_lease_time + DEFAULT_LEASE_DURATION / 3) - now ≤ 0
        · simp only [h4, if_true]
          by_cases h5 : (gahp st.ncalls).rc ≠ Annex.GAHPCLIENT_COMMAND_PENDING
          · rw [if_pos h5]
            exact lift1 _ { batch := b, time := now + DEFAULT_LEASE_DURATION, isNew := true }
              rfl rfl h3 h5 (by simp [h3])
          · rw [if_neg h5]
            exact ⟨[{ batch := b, time := now + DEFAULT_LEASE_DURATION, isNew := true }],
              rfl, single _ (by simp [h3])⟩
        · simp only [h4, if_false]
          exact lift0 _ rfl rfl rfl
      · rw [if_neg h3]
        by_cases h5 : (gahp st.ncalls).rc = Annex.GAHPCLIENT_COMMAND_PENDING
        · rw [if_pos h5]
          exact ⟨[{ batch := b, time := st.res.m_activeLeaseTime, isNew := false }],
            rfl, single _ (by simp [h3])⟩
        · rw [if_neg h5]
          by_cases h0 : (gahp st.ncalls).rc = 0
          · rw [if_pos h0]
            exact lift1 _ { batch := b, time := st.res.m_activeLeaseTime, isNew := false }
              rfl rfl rfl h5 (by simp [h3])
          · rw [if_neg h0]
            exact lift1 _ { batch := b, time := st.res.m_activeLeaseTime, isNew := false }
              rfl rfl rfl h5 (by simp [h3])

end Boinc

namespace Boinc

/-- The round of the pass in which a command is started: no lease command is active and
the batch is due. -/
theorem leaseLoop_start (TIMER_NEVER now : Int) (gahp : Nat → GahpReply)
    (b : BoincBatch) (after : List BoincBatch) (st : Pass)
    (hact : st.res.m_activeLeaseBatch = none) (hb : b.due now) :
    ((gahp st.ncalls).rc = Annex.GAHPCLIENT_COMMAND_PENDING →
      leaseLoop TIMER_NEVER now gahp (b :: after) st =
        (b :: after,
          { res :=
              { st.res with
                leaseCalls := st.res.leaseCalls ++
                  [{ batch := b, time := now + DEFAULT_LEASE_DURATION, isNew := true }],
                m_activeLeaseBatch := some b.ptr,
                m_activeLeaseTime := now + DEFAULT_LEASE_DURATION },
            delay := TIMER_NEVER, ncalls := st.ncalls + 1 })) ∧
    ((gahp st.ncalls).rc ≠ Annex.GAHPCLIENT_COMMAND_PENDING →
      leaseLoop TIMER_NEVER now gahp (b :: after) st =
        (b :: (leaseLoop TIMER_NEVER now gahp after
            { st with
              res :=
                { st.res with
                  leaseCalls := st.res.leaseCalls ++
                    [{ batch := b, time := now + DEFAULT_LEASE_DURATION, isNew := true }],
                  purged := st.res.purged ++ [Gahp.m_leaseGahp] },
              ncalls := st.ncalls + 1 }).1,
          (leaseLoop TIMER_NEVER now gahp after
            { st with
              res :=
                { st.res with
                  leaseCalls := st.res.leaseCalls ++
                    [{ batch := b, time := now + DEFAULT_LEASE_DURATION, isNew := true }],
                  purged := st.res.purged ++ [Gahp.m_leaseGahp] },
              ncalls := st.ncalls + 1 }).2)) := by
  have h1 : ¬ leaseSkip b = true := by rw [leaseSkip_false]; simp
  have h2 : ¬ (st.res.m_activeLeaseBatch ≠ none ∧
      st.res.m_activeLeaseBatch ≠ some b.ptr) := by
    rw [hact]; simp
  have h4 : (b.m_lease_time + DEFAULT_LEASE_DURATION / 3) - now ≤ 0 := hb
  constructor
  · intro hp
    rw [leaseLoop, if_neg h1, if_neg h2, if_pos hact]
    simp only [h4, if_true, hp, ne_eq, not_true_eq_false, if_false]
  · intro hp
    rw [leaseLoop, if_neg h1, if_neg h2, if_pos hact]
    simp only [h4, if_true]
    rw [if_pos hp]

/-- C22, as stated, fails: the batch picked is the first due batch of the list, not the one
with the earliest deadline.  After `deadlineOps` batch `A` (renewal deadline 36000) stands
before batch `B` (deadline 7200) in the list and no lease command is active; both are due
at time 40000, and `UpdateBoincLeases` starts its command for `A`. -/
theorem lease_picks_first_not_earliest :
    deadlineExample.m_activeLeaseBatch = none ∧
    deadlineExample.m_batches.map (fun b =>
        (b.m_batch_name, b.m_lease_time + DEFAULT_LEASE_DURATION / 3)) =
      [("A", 36000), ("B", 7200)] ∧
    deadlineExample.m_batches.map (fun b => decide (b.due 40000)) = [true, true] ∧
    ((deadlineExample.UpdateBoincLeases (-1) 40000 true
          (fun _ => { rc := Annex.GAHPCLIENT_COMMAND_PENDING,
                      errorString := "" })).leaseCalls.drop
        deadlineExample.leaseCalls.length).map
      (fun c => (c.batch.m_batch_name, c.isNew)) = [("A", true)] := by
  decide

/-- C22 (amended: renewal in list order with one command in flight).  When
`UpdateBoincLeases` runs with no lease command active and `b` is the first batch of the
list that is due, the first `boinc_set_lease` call of the pass starts a command for `b`
with the expiry `now + DEFAULT_LEASE_DURATION`; if it is answered with pending the pass
makes no further call and `b` is the active lease batch.  In every pass every call that
starts a command is for a batch of the list that is due.  And no command is started while
one is active: a call answered with pending is the last call of the pass, and when a
command is active as the pass begins the first call polls that command, every other call
of any pass being one that starts a command. -/
theorem lease_renewal_order (s : BoincResource) (TIMER_NEVER now : Int)
    (gahp : Nat → GahpReply) (before after : List BoincBatch) (b : BoincBatch)
    (hact : s.m_activeLeaseBatch = none)
    (hs : s.m_batches = before ++ b :: after)
    (hbefore : ∀ a ∈ before, ¬ a.due now) (hb : b.due now) :
    (∃ calls, (s.UpdateBoincLeases TIMER_NEVER now true gahp).leaseCalls =
        s.leaseCalls ++
          { batch := b, time := now + DEFAULT_LEASE_DURATION, isNew := true } :: calls ∧
      ((gahp 0).rc = Annex.GAHPCLIENT_COMMAND_PENDING →
        calls = [] ∧
        (s.UpdateBoincLeases TIMER_NEVER now true gahp).m_activeLeaseBatch = some b.ptr ∧
        (s.UpdateBoincLeases TIMER_NEVER now true gahp).m_activeLeaseTime =
          now + DEFAULT_LEASE_DURATION)) ∧
    (∀ (r : BoincResource) (g : Nat → GahpReply),
      ∃ calls, (r.UpdateBoincLeases TIMER_NEVER now true g).leaseCalls =
          r.leaseCalls ++ calls ∧
        (∀ c ∈ calls, c.isNew = true → c.batch ∈ r.m_batches ∧ c.batch.due now) ∧
        ∀ (i : Nat) (c : LeaseCall), calls[i]? = some c →
          ((g i).rc = Annex.GAHPCLIENT_COMMAND_PENDING → calls.length = i + 1) ∧
          (c.isNew = false ↔ (i = 0 ∧ r.m_activeLeaseBatch ≠ none))) := by
  refine ⟨?_, ?_⟩
  · obtain ⟨d, hd⟩ := leaseLoop_wait TIMER_NEVER now gahp before (b :: after)
      { res := s, delay := TIMER_NEVER, ncalls := 0 } hact hbefore
    have hd2 : leaseLoop TIMER_NEVER now gahp (before ++ b :: after)
        { res := s, delay := TIMER_NEVER, ncalls := 0 } =
        (before ++ (leaseLoop TIMER_NEVER now gahp (b :: after)
            { res := s, delay := d, ncalls := 0 }).1,
          (leaseLoop TIMER_NEVER now gahp (b :: after)
            { res := s, delay := d, ncalls := 0 }).2) := hd
    obtain ⟨p1, p2⟩ := leaseLoop_start TIMER_NEVER now gahp b after
      { res := s, delay := d, ncalls := 0 } hact hb
    rw [UpdateBoincLeases_eq, hs, hd2]
    by_cases h5 : (gahp 0).rc = Annex.GAHPCLIENT_COMMAND_PENDING
    · rw [p1 h5]
      exact ⟨[], rfl, fun _ => ⟨rfl, rfl, rfl⟩⟩
    · rw [p2 h5]
      obtain ⟨calls, c1, _⟩ := leaseLoop_calls TIMER_NEVER now gahp after
        { res := { s with
                   leaseCalls := s.leaseCalls ++
                     [{ batch := b, time := now + DEFAULT_LEASE_DURATION, isNew := true }],
                   purged := s.purged ++ [Gahp.m_leaseGahp] },
          delay := d, ncalls := 0 + 1 }
      refine ⟨calls, ?_, fun hp => absurd hp h5⟩
      have c2 : (leaseLoop TIMER_NEVER now gahp after
          { res := { s with
                     leaseCalls := s.leaseCalls ++
                       [{ batch := b, time := now + DEFAULT_LEASE_DURATION,
                          isNew := true }],
                     purged := s.purged ++ [Gahp.m_leaseGahp] },
            delay := d, ncalls := 0 + 1 }).2.res.leaseCalls =
          s.leaseCalls ++
            { batch := b, time := now + DEFAULT_LEASE_DURATION, isNew := true } :: calls := by
        rw [c1]
        simp
      exact c2
  · intro r g
    obtain ⟨calls, c1, c2⟩ := leaseLoop_calls TIMER_NEVER now g r.m_batches
      { res := r, delay := TIMER_NEVER, ncalls := 0 }
    obtain ⟨calls2, d1, d2⟩ := leaseLoop_order TIMER_NEVER now g r.m_batches
      { res := r, delay := TIMER_NEVER, ncalls := 0 }
    have hcc : calls2 = calls := by
      rw [c1] at d1
      exact (List.append_cancel_left d1).symm
    subst hcc
    refine ⟨calls2, ?_, ?_, ?_⟩
    · rw [UpdateBoincLeases_eq]
      exact c1
    · intro c hc hn
      exact ⟨(c2 c hc).1, ((c2 c hc).2 hn).1⟩
    · intro i c hc
      have := d2 i c hc
      simpa using this

end Boinc

namespace Boinc

/-- Witness for C22: in `deadlineExample` batch `A` is the first batch of the list and is
due at time 40000, so the pass starts its command for `A`. -/
theorem lease_renewal_order_witness :
    (deadlineExample.m_activeLeaseBatch = none ∧
      deadlineExample.m_batches = [] ++ deadlineBatchA :: [deadlineBatchB] ∧
      deadlineBatchA.due 40000) ∧
    ∃ calls, (deadlineExample.UpdateBoincLeases (-1) 40000 true
          (fun _ => { rc := Annex.GAHPCLIENT_COMMAND_PENDING,
                      errorString := "" })).leaseCalls =
        deadlineExample.leaseCalls ++
          { batch := deadlineBatchA, time := 40000 + DEFAULT_LEASE_DURATION,
            isNew := true } :: calls ∧
      ((Annex.GAHPCLIENT_COMMAND_PENDING : Int) = Annex.GAHPCLIENT_COMMAND_PENDING →
        calls = [] ∧
        (deadlineExample.UpdateBoincLeases (-1) 40000 true
          (fun _ => { rc := Annex.GAHPCLIENT_COMMAND_PENDING,
                      errorString := "" })).m_activeLeaseBatch = some deadlineBatchA.ptr ∧
        (deadlineExample.UpdateBoincLeases (-1) 40000 true
          (fun _ => { rc := Annex.GAHPCLIENT_COMMAND_PENDING,
                      errorString := "" })).m_activeLeaseTime =
          40000 + DEFAULT_LEASE_DURATION) :=
  ⟨⟨by decide, by decide, by decide⟩,
    (lease_renewal_order deadlineExample (-1) 40000
      (fun _ => { rc := Annex.GAHPCLIENT_COMMAND_PENDING, errorString := "" })
      [] [deadlineBatchB] deadlineBatchA (by decide) (by decide) (by simp) (by decide)).1⟩

end Boinc

namespace Boinc

/-! ## C23: two jobs of one cluster share a batch -/

/-- `Submit` for a member of the only batch of the resource while the batch is in
`BatchUnsubmitted`. -/
theorem Submit_single (r : BoincResource) (b : BoincBatch) (now : Int) (job : BoincJob)
    (error_str : String) (hb : r.m_batches = [b])
    (hst : b.m_submit_status = BatchSubmitStatus.BatchUnsubmitted) :
    ∃ tm, r.Submit now job (some b.m_batch_name) error_str =
      (BoincSubmitResponse.BoincSubmitWait, error_str,
        { r with m_batches := [{ b with m_jobs_ready := insert job b.m_jobs_ready }],
                 timers := tm }) := by
  unfold BoincResource.Submit
  simp only [hb, List.find?_cons, decide_True, hst]
  simp [updateFirst, hst]

/-- A pass of `DoBatchSubmits` over a resource with one batch, which is ready, with no
command active: the command is started and found pending. -/
theorem DoBatchSubmits_start_single (r : BoincResource) (b : BoincBatch)
    (TIMER_NEVER now : Int) (gahp : Nat → GahpReply) (hb : r.m_batches = [b])
    (hact : r.m_activeSubmitBatch = none)
    (hst : b.m_submit_status = BatchSubmitStatus.BatchUnsubmitted)
    (hready : BatchReadyToSubmit now b = true)
    (hp : (gahp 0).rc = Annex.GAHPCLIENT_COMMAND_PENDING) :
    r.DoBatchSubmits TIMER_NEVER now true gahp =
      { r with
        submitCalls := r.submitCalls ++ [{ batch := b, isNew := true }],
        m_activeSubmitBatch := some b.ptr,
        timers := r.timers ++ [(Timer.m_submitTid, TIMER_NEVER)] } := by
  unfold BoincResource.DoBatchSubmits
  simp only [Bool.not_true, Bool.false_eq_true, if_false, hb]
  rw [submitLoop]
  simp [hst, hact, hready, hp]

/-- A pass of `DoBatchSubmits` over a resource with one batch whose submit command is
active and has completed. -/
theorem DoBatchSubmits_poll_single (r : BoincResource) (b : BoincBatch)
    (TIMER_NEVER now : Int) (gahp : Nat → GahpReply) (hb : r.m_batches = [b])
    (hact : r.m_activeSubmitBatch = some b.ptr)
    (hst : b.m_submit_status = BatchSubmitStatus.BatchUnsubmitted)
    (hrc : (gahp 0).rc ≠ Annex.GAHPCLIENT_COMMAND_PENDING) :
    r.DoBatchSubmits TIMER_NEVER now true gahp =
      { r with
        m_batches := [b.submitted (gahp 0)],
        submitCalls := r.submitCalls ++ [{ batch := b, isNew := false }],
        m_activeSubmitBatch := none,
        evaluated := r.evaluated ++ [b.m_jobs],
        timers := r.timers ++ [(Timer.m_submitTid, 0)] } := by
  have hel : b.eligible := by
    unfold BoincBatch.eligible
    rw [hst]
    decide
  unfold BoincResource.DoBatchSubmits
  simp only [Bool.not_true, Bool.false_eq_true, if_false, hb]
  rw [submitLoop_complete TIMER_NEVER now gahp b []
    { res := r, delay := TIMER_NEVER, ncalls := 0 } hact hel hrc]
  simp [submitLoop, Pass.afterCompletion]

end Boinc

namespace Boinc

theorem JoinBatch_first (t1 : Int) (sn : String) (cluster : BoincJob → Int) (j1 : BoincJob) :
    BoincResource.new.JoinBatch t1 sn cluster j1 "" "" =
      some (true, clusterBatchName sn (cluster j1) t1,
        { BoincResource.new with
          m_batches :=
            [{ ptr := 0, m_batch_name := clusterBatchName sn (cluster j1) t1,
               m_submit_status := BatchSubmitStatus.BatchUnsubmitted, m_lease_time := 0,
               m_last_insert := t1, m_error_message := "", m_jobs := {j1},
               m_jobs_ready := ∅ }],
          nextPtr := 1 }) := by
  simp [BoincResource.JoinBatch, BoincResource.new, joinExisting, joinCluster]

theorem JoinBatch_second (r : BoincResource) (b : BoincBatch) (t2 : Int) (sn : String)
    (cluster : BoincJob → Int) (j1 j2 : BoincJob) (hb : r.m_batches = [b])
    (hj : b.m_jobs = {j1}) (hst : b.m_submit_status = BatchSubmitStatus.BatchUnsubmitted)
    (hc : cluster j1 = cluster j2) :
    r.JoinBatch t2 sn cluster j2 "" "" =
      some (true, b.m_batch_name,
        { r with
          m_batches := [{ b with m_last_insert := t2, m_jobs := {j1, j2} }] }) := by
  have hf : first b.m_jobs = some j1 := by
    rw [hj]
    unfold first
    exact Finset.min_singleton
  have hjobs : insert j2 b.m_jobs = {j1, j2} := by
    rw [hj]
    exact Finset.pair_comm j2 j1
  simp [BoincResource.JoinBatch, hb, joinExisting, hf, hc, hst, joinCluster, hjobs]

end Boinc


namespace Globus

/-! ## C24: which kind is promoted -/

theorem vacate_wanted (s : GlobusResource) (job : Option GlobusJob) :
    (s.vacate job).2.submitJMsWanted = s.submitJMsWanted ∧
    (s.vacate job).2.restartJMsWanted = s.restartJMsWanted ∧
    s.held ≤ (s.vacate job).2.held + 1 := by
  unfold GlobusResource.vacate
  cases job with
  | none => exact ⟨rfl, rfl, by simp⟩
  | some j =>
    simp only
    split
    · refine ⟨rfl, rfl, ?_⟩
      rename_i h
      have := List.length_pos_of_mem h
      simp only [GlobusResource.held, List.length_erase_of_mem h]
      omega
    · split
      · refine ⟨rfl, rfl, ?_⟩
        rename_i h
        have := List.length_pos_of_mem h
        simp only [GlobusResource.held, List.length_erase_of_mem h]
        omega
      · exact ⟨rfl, rfl, by simp⟩

theorem promote_of_not_canPromote (s : GlobusResource) (h : ¬ s.canPromote) :
    s.promote = s := by
  unfold GlobusResource.canPromote at h
  unfold GlobusResource.promote
  rw [if_neg h]

theorem promote_Full (v : GlobusResource)
    (h : v.waiting ≠ 0 → v.submitJMLimit + v.restartJMLimit ≤ v.held + 1) :
    v.promote.Full := by
  by_cases hc : v.canPromote
  · obtain ⟨q, hm | hm⟩ := promote_moves v hc
    · have hw := MovedTo_waiting hm
      obtain ⟨_, m2, _, m4, m5, m6, _⟩ := hm
      intro _
      have hv : v.waiting ≠ 0 := by rw [hw]; simp
      have := h hv
      simp only [GlobusResource.held, m2, m4, m5, m6, List.length_append,
        List.length_singleton, List.length_nil] at this ⊢
      push_cast
      omega
    · have hw := MovedTo_waiting hm
      obtain ⟨_, m2, _, m4, m5, m6, _⟩ := hm
      intro _
      have hv : v.waiting ≠ 0 := by rw [hw]; simp
      have := h hv
      simp only [GlobusResource.held, m2, m4, m5, m6, List.length_append,
        List.length_singleton, List.length_nil] at this ⊢
      push_cast
      omega
  · rw [promote_of_not_canPromote v hc]
    intro hw
    unfold GlobusResource.canPromote at hc
    have hroom : ¬ v.hasRoom = true := by
      intro hr
      apply hc
      refine ⟨hr, ?_⟩
      unfold GlobusResource.waiting at hw
      omega
    rw [hasRoom_iff] at hroom
    omega

theorem JMComplete_Full (s : GlobusResource) (job : Option GlobusJob) (h : s.Full) :
    (s.JMComplete job).Full := by
  unfold GlobusResource.JMComplete
  split
  · apply promote_Full
    obtain ⟨w1, w2, w3⟩ := vacate_wanted s job
    obtain ⟨l1, l2, _⟩ := vacate_spec s job
    intro hw
    have hs : s.waiting ≠ 0 := by
      simpa [GlobusResource.waiting, w1, w2] using hw
    have := h hs
    rw [l1, l2]
    omega
  · cases job with
    | none => exact h
    | some j =>
      intro hw
      have hs : s.waiting ≠ 0 := by
        intro h0
        apply hw
        simp only [GlobusResource.waiting] at h0 ⊢
        have a : s.submitJMsWanted = [] := List.length_eq_zero.mp (by omega)
        have b : s.restartJMsWanted = [] := List.length_eq_zero.mp (by omega)
        simp [a, b]
      exact h hs

theorem RequestJM_Full (s : GlobusResource) (job : GlobusJob) (is_submit : Bool)
    (h : s.Full) : (s.RequestJM job is_submit).2.Full := by
  unfold GlobusResource.Full at h ⊢
  unfold GlobusResource.RequestJM
  by_cases hroom : s.hasRoom = true
  · have hlt := (hasRoom_iff s).mp hroom
    have hw : s.waiting = 0 := by
      by_contra hne
      have := h hne
      omega
    unfold GlobusResource.waiting at hw
    have a : s.submitJMsWanted = [] := List.length_eq_zero.mp (by omega)
    have b : s.restartJMsWanted = [] := List.length_eq_zero.mp (by omega)
    cases is_submit <;> simp only [Bool.false_eq_true, if_false, if_true] <;>
      (split_ifs <;> simp [GlobusResource.waiting, a, b])
  · have hge : s.submitJMLimit + s.restartJMLimit ≤ s.held := by
      rw [hasRoom_iff] at hroom
      omega
    unfold GlobusResource.held at hge
    cases is_submit <;> simp only [Bool.false_eq_true, if_false, if_true] <;>
      (split_ifs <;> simp [GlobusResource.held, GlobusResource.waiting] <;> omega)

theorem Reachable_Full {s : GlobusResource} (h : Reachable s) : s.Full := by
  induction h with
  | empty a b => simp [GlobusResource.Full, GlobusResource.waiting, GlobusResource.empty]
  | RequestJM s job k _ ih => exact RequestJM_Full s job k ih
  | JMComplete s job _ ih => exact JMComplete_Full s job ih

end Globus

namespace Globus

/-- C24, as stated, fails on its own example: with `submitJMLimit = restartJMLimit = 5`, no
submit slot and four restart slots held and a job waiting of each kind, the submit kind is
5 under its sub-limit and the restart kind 1, yet `JMComplete` promotes the restart job
(job 20) and leaves the submit job (job 10) waiting. -/
theorem promotion_ignores_submit_headroom :
    headroomExample.submitJMLimit - headroomExample.submitJMsAllowed.length = 5 ∧
    headroomExample.restartJMLimit - headroomExample.restartJMsAllowed.length = 1 ∧
    (headroomExample.JMComplete none).restartJMsAllowed = [1, 2, 3, 4, 20] ∧
    (headroomExample.JMComplete none).submitJMsAllowed = [] ∧
    (headroomExample.JMComplete none).submitJMsWanted = [10] ∧
    (headroomExample.JMComplete none).restartJMsWanted = [] ∧
    (headroomExample.JMComplete none).evaluated = [20] := by
  decide

/-- C24 (amended: preference between the kinds).  Let `JMComplete(job)` have vacated an
allowed slot or been called with NULL, `v` being the state right after that, with a free
slot and both wanted queues non-empty.  The promoted job is of the restart kind whenever
the restart kind is under its own sub-limit, whatever the headroom of the submit kind, and
of the submit kind otherwise.  When exactly one slot is free (slots held = combined limit
- 1) this is the kind with the larger headroom (limit minus allowed count), and in every
state reached from empty queues through `RequestJM` and `JMComplete` exactly one slot is
free at that point. -/
theorem promotion_headroom (s v : GlobusResource) (job : Option GlobusJob)
    (hv : s.vacate job = (true, v))
    (hroom : v.held < v.submitJMLimit + v.restartJMLimit)
    (hsub : v.submitJMsWanted ≠ []) (hres : v.restartJMsWanted ≠ []) :
    ((v.restartJMsAllowed.length : Int) < v.restartJMLimit →
      ∃ queued_job rest, v.restartJMsWanted = queued_job :: rest ∧
        (s.JMComplete job).restartJMsAllowed = v.restartJMsAllowed ++ [queued_job] ∧
        (s.JMComplete job).submitJMsAllowed = v.submitJMsAllowed) ∧
    (¬ (v.restartJMsAllowed.length : Int) < v.restartJMLimit →
      ∃ queued_job rest, v.submitJMsWanted = queued_job :: rest ∧
        (s.JMComplete job).submitJMsAllowed = v.submitJMsAllowed ++ [queued_job] ∧
        (s.JMComplete job).restartJMsAllowed = v.restartJMsAllowed) ∧
    (v.held + 1 = v.submitJMLimit + v.restartJMLimit →
      ((v.restartJMsAllowed.length : Int) < v.restartJMLimit →
        v.submitJMLimit - v.submitJMsAllowed.length <
          v.restartJMLimit - v.restartJMsAllowed.length) ∧
      (¬ (v.restartJMsAllowed.length : Int) < v.restartJMLimit →
        v.restartJMLimit - v.restartJMsAllowed.length <
          v.submitJMLimit - v.submitJMsAllowed.length)) ∧
    (Reachable s → v.held + 1 = v.submitJMLimit + v.restartJMLimit) := by
  have hJM : s.JMComplete job = v.promote := by
    unfold GlobusResource.JMComplete; simp [hv]
  have hr := (hasRoom_iff v).mpr hroom
  obtain ⟨qs, rs, hqs⟩ := List.exists_cons_of_ne_nil hsub
  obtain ⟨qr, rr, hqr⟩ := List.exists_cons_of_ne_nil hres
  refine ⟨?_, ?_, ?_, ?_⟩
  · intro hlt
    refine ⟨qr, rr, hqr, ?_⟩
    rw [hJM]
    unfold GlobusResource.promote
    simp [hr, hqs, hqr, hlt]
  · intro hge
    refine ⟨qs, rs, hqs, ?_⟩
    rw [hJM]
    unfold GlobusResource.promote
    simp [hr, hqs, hqr, hge]
  · intro h1
    unfold GlobusResource.held at h1
    constructor
    · intro hlt
      omega
    · intro hge
      omega
  · intro hreach
    have hfull := Reachable_Full hreach
    obtain ⟨w1, w2, w3⟩ := vacate_wanted s job
    obtain ⟨l1, l2, _⟩ := vacate_spec s job
    rw [hv] at w1 w2 w3 l1 l2
    simp only at w1 w2 w3 l1 l2
    have hs : s.waiting ≠ 0 := by
      simp [GlobusResource.waiting, ← w1, hqs]
    have := hfull hs
    rw [l1, l2]
    omega

/-- Witness for C24: job 1 releases its slot while job 3 waits for a submit slot and job 4
for a restart slot; the restart kind is under its sub-limit, and job 4 is promoted. -/
theorem promotion_headroom_witness :
    (oneFreeExample.vacate (some 1) =
        (true, { oneFreeExample with submitJMsAllowed := [2] }) ∧
      Reachable oneFreeExample) ∧
    (oneFreeExample.JMComplete (some 1)).restartJMsAllowed = [] ++ [4] ∧
    (oneFreeExample.JMComplete (some 1)).submitJMsAllowed = [2] :=
  ⟨⟨by decide,
      Reachable.RequestJM _ 4 false (Reachable.RequestJM _ 3 true
        (Reachable.RequestJM _ 2 true (Reachable.RequestJM _ 1 true (Reachable.empty 1 1))))⟩,
    by
      obtain ⟨q, rest, h1, h2, h3⟩ :=
        (promotion_headroom oneFreeExample { oneFreeExample with submitJMsAllowed := [2] }
          (some 1) (by decide) (by decide) (by decide) (by decide)).1 (by decide)
      have hq : q = 4 := by
        have : (4 : GlobusJob) :: [] = q :: rest := h1
        exact (List.cons.inj this).1.symm
      subst hq
      exact ⟨h2, h3⟩⟩

end Globus

namespace Boinc

/-! ## C25, C26: a batch whose submit command is in flight -/

/-- C25: the status of a batch whose submit command is in flight.  After `inflightOps` the
active-submit pointer refers to the batch of job 1, the `boinc_submit` command has been
started, and the batch is still in `BatchUnsubmitted`, not `BatchSubmitting`.  A `Submit`
call by job 1 at time 103 returns `BoincSubmitWait` through the branch that inserts into
the ready set, and re-arms the submit timer with delay 0. -/
theorem in_flight_batch_is_unsubmitted :
    run inflightOps BoincResource.new = some inflightExample ∧
    inflightExample.m_activeSubmitBatch = some 0 ∧
    inflightExample.submitCalls.map (fun c => (c.batch.ptr, c.isNew)) = [(0, true)] ∧
    inflightExample.m_batches.map (fun b => (b.ptr, b.m_submit_status)) =
      [(0, BatchSubmitStatus.BatchUnsubmitted)] ∧
    (inflightExample.Submit 103 1 (some "condor#s#7#100") "").1 =
      BoincSubmitResponse.BoincSubmitWait ∧
    inflightExample.timers = [(Timer.m_submitTid, -1)] ∧
    (inflightExample.Submit 103 1 (some "condor#s#7#100") "").2.2.timers =
      [(Timer.m_submitTid, -1), (Timer.m_submitTid, 0)] := by
  refine ⟨rfl, ?_, ?_, ?_, ?_, ?_, ?_⟩ <;> decide

/-- C26: a job joins a batch whose submit command is in flight.  After `inflightOps` job 2
of the same cluster calls `JoinBatch` with an empty batch name at time 103: it is given the
name of the batch of job 1 and put into its member set, although the command for that
batch is in flight.  The next pass of `DoBatchSubmits` polls the command with the member
set `{1, 2}`, where the command was started with `{1}`. -/
theorem join_into_in_flight_batch :
    inflightExample.m_activeSubmitBatch = some 0 ∧
    ((inflightExample.JoinBatch 103 "s" (fun _ => 7) 2 "" "").map fun r =>
      (r.2.1, r.2.2.m_activeSubmitBatch,
        r.2.2.m_batches.map (fun b => (b.ptr, b.m_jobs)))).toList =
      [("condor#s#7#100", some 0, [(0, {1, 2})])] ∧
    ((inflightExample.JoinBatch 103 "s" (fun _ => 7) 2 "" "").map fun r =>
      (r.2.2.DoBatchSubmits (-1) 104 true
          (fun _ => { rc := Annex.GAHPCLIENT_COMMAND_PENDING,
                      errorString := "" })).submitCalls.map
        (fun c => (c.batch.ptr, c.batch.m_jobs, c.isNew))).toList =
      [[(0, {1}, true), (0, {1, 2}, false)]] := by
  refine ⟨?_, ?_, ?_⟩ <;> decide

end Boinc

namespace Boinc

/-! ## C27: status queries that fail -/

theorem notifyError_eq_map (msg : String) (l : List BoincBatch) :
    (notifyError msg l).1 =
      l.map (fun b =>
        if b.m_submit_status = BatchSubmitStatus.BatchMaybeSubmitted ∧ b.m_error_message = ""
        then { b with m_error_message := msg } else b) := by
  induction l with
  | nil => rfl
  | cons b rest ih =>
    unfold notifyError
    by_cases h : b.m_submit_status ≠ BatchSubmitStatus.BatchMaybeSubmitted ∨
        b.m_error_message ≠ ""
    · rw [if_pos h]
      have h2 : ¬ (b.m_submit_status = BatchSubmitStatus.BatchMaybeSubmitted ∧
          b.m_error_message = "") := by
        rintro ⟨a, c⟩
        rcases h with h | h
        · exact h a
        · exact h c
      simp only [List.map_cons, if_neg h2, ih]
    · rw [if_neg h]
      have h2 : b.m_submit_status = BatchSubmitStatus.BatchMaybeSubmitted ∧
          b.m_error_message = "" := by
        push_neg at h
        exact h
      simp only [List.map_cons, if_pos h2, ih]

theorem noted_fields (reply : QueryReply) (b : BoincBatch) :
    (noted reply b).ptr = b.ptr ∧ (noted reply b).m_batch_name = b.m_batch_name ∧
      (noted reply b).m_submit_status = b.m_submit_status ∧
      (noted reply b).m_jobs = b.m_jobs ∧ (noted reply b).m_jobs_ready = b.m_jobs_ready := by
  unfold noted
  split <;> exact ⟨rfl, rfl, rfl, rfl, rfl⟩

theorem notedBy_fields (replies : List QueryReply) (b : BoincBatch) :
    (notedBy replies b).ptr = b.ptr ∧ (notedBy replies b).m_batch_name = b.m_batch_name ∧
      (notedBy replies b).m_submit_status = b.m_submit_status ∧
      (notedBy replies b).m_jobs = b.m_jobs ∧
      (notedBy replies b).m_jobs_ready = b.m_jobs_ready := by
  induction replies generalizing b with
  | nil => exact ⟨rfl, rfl, rfl, rfl, rfl⟩
  | cons r rs ih =>
    obtain ⟨a1, a2, a3, a4, a5⟩ := ih (noted r b)
    obtain ⟨b1, b2, b3, b4, b5⟩ := noted_fields r b
    exact ⟨a1.trans b1, a2.trans b2, a3.trans b3, a4.trans b4, a5.trans b5⟩

/-- A status query that fails changes the batches as `noted` says. -/
theorem StartBatchStatus_error (s : BoincResource) (reply : QueryReply)
    (h0 : reply.rc ≠ 0) (hp : reply.rc ≠ Annex.GAHPCLIENT_COMMAND_PENDING) :
    ∃ res t, s.StartBatchStatus reply = some (res, t) ∧
      t.m_batches = s.m_batches.map (noted reply) := by
  unfold BoincResource.StartBatchStatus BoincResource.FinishBatchStatus
  by_cases he : (statusNames s.m_batches).isEmpty = true
  · simp only [he, if_true]
    refine ⟨_, _, rfl, ?_⟩
    simp only
    conv_lhs => rw [← List.map_id s.m_batches]
    apply List.map_congr_left
    intro b hb
    have hnil : statusNames s.m_batches = [] := List.isEmpty_iff.mp he
    have hnot : ¬ b.m_submit_status = BatchSubmitStatus.BatchMaybeSubmitted := by
      intro hm
      have : b.m_batch_name ∈ statusNames s.m_batches := by
        unfold statusNames
        rw [List.mem_map]
        refine ⟨b, ?_, rfl⟩
        rw [List.mem_filter]
        exact ⟨hb, by simp [hm]⟩
      rw [hnil] at this
      simp at this
    unfold noted
    rw [if_neg (fun h => hnot h.2.1)]
    rfl
  · simp only [he, Bool.false_eq_true, if_false, hp, h0, ne_eq, not_false_eq_true, if_true]
    refine ⟨_, _, rfl, ?_⟩
    by_cases hm : mentionsNoBatch reply.errorString = true
    · simp only [hm, not_true_eq_false, if_false]
      conv_lhs => rw [← List.map_id s.m_batches]
      apply List.map_congr_left
      intro b _
      unfold noted
      rw [if_neg (fun h => h.1 hm)]
      rfl
    · simp only [hm, not_false_eq_true, if_true]
      rw [notifyError_eq_map]
      apply List.map_congr_left
      intro b _
      unfold noted
      simp [hm]

/-- A series of status queries that fail. -/
theorem run_errors (replies : List QueryReply) (s : BoincResource)
    (hfail : ∀ r ∈ replies, r.rc ≠ 0 ∧ r.rc ≠ Annex.GAHPCLIENT_COMMAND_PENDING) :
    ∃ t, run (replies.map Op.StartBatchStatus) s = some t ∧
      t.m_batches = s.m_batches.map (notedBy replies) := by
  induction replies generalizing s with
  | nil =>
    refine ⟨s, rfl, ?_⟩
    conv_lhs => rw [← List.map_id s.m_batches]
    rfl
  | cons r rs ih =>
    obtain ⟨res, t1, h1, h2⟩ := StartBatchStatus_error s r (hfail r (by simp)).1
      (hfail r (by simp)).2
    obtain ⟨t, h3, h4⟩ := ih t1 (fun x hx => hfail x (by simp [hx]))
    refine ⟨t, ?_, ?_⟩
    · simp only [List.map_cons, run, BoincResource.step, h1, Option.map_some',
        Option.some_bind]
      exact h3
    · rw [h4, h2, List.map_map]
      rfl

/-- `Submit` for a job whose batch is in `BatchMaybeSubmitted`. -/
theorem Submit_Maybe (s : BoincResource) (now : Int) (job : BoincJob) (name e : String)
    (b : BoincBatch) (hf : s.m_batches.find? (fun b => b.m_batch_name = name) = some b)
    (hm : b.m_submit_status = BatchSubmitStatus.BatchMaybeSubmitted) :
    (s.Submit now job (some name) e).1 = BoincSubmitResponse.BoincSubmitWait ∧
      (s.Submit now job (some name) e).2.1 = b.m_error_message := by
  unfold BoincResource.Submit
  simp [hf, hm]

end Boinc

namespace Boinc

theorem notedBy_message_kept (replies : List QueryReply) (b : BoincBatch)
    (h : b.m_error_message ≠ "") :
    (notedBy replies b).m_error_message = b.m_error_message := by
  induction replies generalizing b with
  | nil => rfl
  | cons r rs ih =>
    have hn : noted r b = b := by
      unfold noted
      rw [if_neg (fun k => h k.2.2)]
    show (notedBy rs (noted r b)).m_error_message = b.m_error_message
    rw [hn]
    exact ih b h

/-- In `recoveryExample` batch `T1` is in `BatchMaybeSubmitted`; after any number `N` of
status queries that fail with "connection refused" it is still in `BatchMaybeSubmitted`,
and `Submit` for its member returns `BoincSubmitWait`. -/
theorem replicate_errors_keep_maybe (N : Nat) :
    ∃ t, run (List.replicate N (Op.StartBatchStatus queryError)) recoveryExample = some t ∧
      t.m_batches.map (fun b => (b.m_batch_name, b.m_submit_status)) =
        [("T1", BatchSubmitStatus.BatchMaybeSubmitted)] ∧
      (t.Submit 0 1 (some "T1") "").1 = BoincSubmitResponse.BoincSubmitWait := by
  obtain ⟨t, h1, h2⟩ := run_errors (List.replicate N queryError) recoveryExample
    (by
      intro r hr
      rw [List.eq_of_mem_replicate hr]
      decide)
  rw [List.map_replicate] at h1
  have hb : recoveryExample.m_batches = [recoveryBatch] := by decide
  rw [hb] at h2
  obtain ⟨_, f2, f3, _, _⟩ := notedBy_fields (List.replicate N queryError) recoveryBatch
  refine ⟨t, h1, ?_, ?_⟩
  · rw [h2]
    simp only [List.map_cons, List.map_nil, f2, f3]
    rfl
  · refine (Submit_Maybe t 0 1 "T1" "" (notedBy (List.replicate N queryError) recoveryBatch)
      ?_ f3).1
    rw [h2]
    simp only [List.map_cons, List.map_nil, List.find?_cons, f2]
    rfl

/-- C27, as stated, fails: failed status queries do not make the batch fail, however many
there are.  In `recoveryExample` batch `T1` is in `BatchMaybeSubmitted`; after 1000 status
queries in a row that fail with "connection refused" it is still in `BatchMaybeSubmitted`,
and `Submit` for its member returns `BoincSubmitWait`. -/
theorem query_errors_never_escalate :
    (run (List.replicate 1000 (Op.StartBatchStatus queryError)) recoveryExample).map
        (fun t => (t.m_batches.map (fun b => (b.m_batch_name, b.m_submit_status)),
          (t.Submit 0 1 (some "T1") "").1)) =
      some ([("T1", BatchSubmitStatus.BatchMaybeSubmitted)],
        BoincSubmitResponse.BoincSubmitWait) := by
  obtain ⟨t, h1, h2, h3⟩ := replicate_errors_keep_maybe 1000
  rw [h1, Option.map_some', h2, h3]

/-- C27 (amended: status-query errors are not escalated).  After any series of status
queries (`StartBatchStatus`, which runs `FinishBatchStatus`) that fail, every batch has the
address, name, status and members it had, so a batch in `BatchMaybeSubmitted` stays in
`BatchMaybeSubmitted` and never becomes `BatchFailed`; only `m_error_message` changes, as
`notedBy` says: a batch in `BatchMaybeSubmitted` without a message takes the error string
of the first failed query whose error does not mention "no batch named" (if that string is
not empty it is kept from then on).  `Submit` for a member of such a batch returns
`BoincSubmitWait` with `error_str` set to the stored message, not `BoincSubmitFailure`. -/
theorem status_errors_keep_maybe (s : BoincResource) (replies : List QueryReply)
    (hfail : ∀ r ∈ replies, r.rc ≠ 0 ∧ r.rc ≠ Annex.GAHPCLIENT_COMMAND_PENDING) :
    ∃ t, run (replies.map Op.StartBatchStatus) s = some t ∧
      t.m_batches = s.m_batches.map (notedBy replies) ∧
      (∀ b : BoincBatch,
        (notedBy replies b).ptr = b.ptr ∧
        (notedBy replies b).m_batch_name = b.m_batch_name ∧
        (notedBy replies b).m_submit_status = b.m_submit_status ∧
        (notedBy replies b).m_jobs = b.m_jobs ∧
        (notedBy replies b).m_jobs_ready = b.m_jobs_ready) ∧
      (∀ (b : BoincBatch) (r : QueryReply) (rest : List QueryReply),
        replies = r :: rest →
        b.m_submit_status = BatchSubmitStatus.BatchMaybeSubmitted → b.m_error_message = "" →
        ¬ mentionsNoBatch r.errorString = true → r.errorString ≠ "" →
        (notedBy replies b).m_error_message = r.errorString) ∧
      (∀ (now : Int) (job : BoincJob) (name e : String) (b : BoincBatch),
        t.m_batches.find? (fun b => b.m_batch_name = name) = some b →
        b.m_submit_status = BatchSubmitStatus.BatchMaybeSubmitted →
        (t.Submit now job (some name) e).1 = BoincSubmitResponse.BoincSubmitWait ∧
        (t.Submit now job (some name) e).2.1 = b.m_error_message) := by
  obtain ⟨t, h1, h2⟩ := run_errors replies s hfail
  refine ⟨t, h1, h2, notedBy_fields replies, ?_, ?_⟩
  · intro b r rest hr hm he hn hne
    subst hr
    have h3 : noted r b = { b with m_error_message := r.errorString } := by
      unfold noted
      rw [if_pos ⟨hn, hm, he⟩]
    show (notedBy rest (noted r b)).m_error_message = r.errorString
    rw [h3]
    exact notedBy_message_kept rest _ hne
  · intro now job name e b hf hm
    exact Submit_Maybe t now job name e b hf hm

/-- Witness for C27: two failed status queries on `recoveryExample`. -/
theorem status_errors_keep_maybe_witness :
    (∀ r ∈ [queryError, queryError],
      r.rc ≠ 0 ∧ r.rc ≠ Annex.GAHPCLIENT_COMMAND_PENDING) ∧
    ∃ t, run ([queryError, queryError].map Op.StartBatchStatus) recoveryExample = some t ∧
      t.m_batches = recoveryExample.m_batches.map (notedBy [queryError, queryError]) :=
  ⟨by decide,
    (status_errors_keep_maybe recoveryExample [queryError, queryError] (by decide)).imp
      (fun _ h => ⟨h.1, h.2.1⟩)⟩

end Boinc

namespace Boinc

/-! ## C28: the lease timer after a failed renewal -/

/-- C28: what `UpdateBoincLeases` leaves behind when the renewal of the only batch fails.
In `leaseExample` a lease command for the only batch is in flight; the pass at time `now`
finds it complete with the error 1.  On return the batch is as it was (`m_lease_time` 0, so
it is still due at any time from 7200 on), no lease command is active, and the lease timer
has been re-armed with the delay `TIMER_NEVER`, whatever value that constant has. -/
theorem failed_renewal_is_not_retried :
    ∀ (TIMER_NEVER now : Int),
      (leaseExample.UpdateBoincLeases TIMER_NEVER now true
          (fun _ => { rc := 1, errorString := "refused" })).m_batches = [leaseBatch] ∧
      leaseBatch.m_lease_time + DEFAULT_LEASE_DURATION / 3 = 7200 ∧
      (leaseExample.UpdateBoincLeases TIMER_NEVER now true
          (fun _ => { rc := 1, errorString := "refused" })).m_activeLeaseBatch = none ∧
      (leaseExample.UpdateBoincLeases TIMER_NEVER now true
          (fun _ => { rc := 1, errorString := "refused" })).leaseCalls =
        [{ batch := leaseBatch, time := 10000 + DEFAULT_LEASE_DURATION, isNew := false }] ∧
      (leaseExample.UpdateBoincLeases TIMER_NEVER now true
          (fun _ => { rc := 1, errorString := "refused" })).timers =
        [(Timer.m_leaseTid, TIMER_NEVER)] := by
  intro TIMER_NEVER now
  have h := UpdateBoincLeases_poll_single leaseExample leaseBatch TIMER_NEVER now
    (fun _ => { rc := 1, errorString := "refused" }) rfl rfl (by decide)
  rw [h]
  refine ⟨?_, by decide, rfl, rfl, rfl⟩
  simp [BoincBatch.renewed]

end Boinc

namespace Globus

/-! ## C29: a repeated request -/

end Globus

namespace Boinc

/-! ## C30: the registry key -/

/-- Two texts that agree after the separator is put between their halves have the same
halves, when the separator does not occur in the first halves. -/
theorem split_unique (c : Char) (l1 l2 m1 m2 : List Char)
    (h : l1 ++ c :: m1 = l2 ++ c :: m2) (h1 : c ∉ l1) (h2 : c ∉ l2) :
    l1 = l2 ∧ m1 = m2 := by
  induction l1 generalizing l2 with
  | nil =>
    cases l2 with
    | nil => exact ⟨rfl, (List.cons.inj h).2⟩
    | cons y ys =>
      exfalso
      have := (List.cons.inj h).1
      exact h2 (by simp [this])
  | cons x xs ih =>
    cases l2 with
    | nil =>
      exfalso
      have := (List.cons.inj h).1
      exact h1 (by simp [this])
    | cons y ys =>
      obtain ⟨e1, e2⟩ := List.cons.inj h
      obtain ⟨a, b⟩ := ih ys e2 (fun k => h1 (by simp [k])) (fun k => h2 (by simp [k]))
      exact ⟨by rw [e1, a], b⟩

theorem HashName_data (r a : String) :
    (HashName r a).data = "boinc ".data ++ (r.data ++ ' ' :: a.data) := by
  simp [HashName, String.data_append]

theorem Globus_HashName_data (r p : String) :
    (Globus.HashName r p).data = "gt2 ".data ++ (r.data ++ '#' :: p.data) := by
  simp [Globus.HashName, String.data_append]

theorem HashName_inj (r a r2 a2 : String) (hr : ' ' ∉ r.data) (hr2 : ' ' ∉ r2.data)
    (h : HashName r a = HashName r2 a2) : r = r2 ∧ a = a2 := by
  have hd := congrArg String.data h
  rw [HashName_data, HashName_data] at hd
  obtain ⟨e1, e2⟩ := split_unique ' ' _ _ _ _ (List.append_cancel_left hd) hr hr2
  exact ⟨String.ext e1, String.ext e2⟩

end Boinc

namespace Boinc

theorem FindOrCreateResource_found (reg : List (String × ResourceObject)) (init : Bool)
    (r a : String) (o : ResourceObject) (h : Assoc.get reg (HashName r a) = some o) :
    FindOrCreateResource reg init r a = (some o, reg) := by
  simp [FindOrCreateResource, h]

theorem FindOrCreateResource_new (reg : List (String × ResourceObject)) (init : Bool)
    (r a : String) (h : Assoc.get reg (HashName r a) = none) :
    FindOrCreateResource reg init r a =
      if init = false then (none, reg)
      else
        (some { resourceName := r, m_authenticator := a },
          Assoc.put (HashName r a) { resourceName := r, m_authenticator := a } reg) := by
  simp [FindOrCreateResource, h]

/-- C30, as stated, fails: the key is not injective.  The identities `("a b", "c")` and
`("a", "b c")` differ and have the same key `boinc a b c` (likewise `("a#b", "c")` and
`("a", "b#c")` for `GlobusResource::HashName`), and after the resource of the first
identity is created `FindOrCreateResource` returns that object for the second. -/
theorem HashName_collision :
    (("a b", "c") : String × String) ≠ ("a", "b c") ∧
    HashName "a b" "c" = HashName "a" "b c" ∧
    Globus.HashName "a#b" "c" = Globus.HashName "a" "b#c" ∧
    (FindOrCreateResource (FindOrCreateResource [] true "a b" "c").2 true "a" "b c").1 =
      some { resourceName := "a b", m_authenticator := "c" } := by
  decide

/-- C30 (amended: one resource per identity, for resource names without the separator).
For identities whose resource names contain no space, `BoincResource::HashName` gives
different keys to different identities, and likewise `GlobusResource::HashName` for
resource names that contain no `#`.  So in a table in which every object is bound to the
key of its own identity, with resource names without a space, `FindOrCreateResource` for an
identity with such a resource name returns, if anything, an object of that very identity,
and leaves a table of the same kind. -/
theorem HashName_injective (r a r2 a2 : String) :
    (' ' ∉ r.data → ' ' ∉ r2.data → HashName r a = HashName r2 a2 → r = r2 ∧ a = a2) ∧
    ('#' ∉ r.data → '#' ∉ r2.data → Globus.HashName r a = Globus.HashName r2 a2 →
      r = r2 ∧ a = a2) ∧
    (' ' ∉ r.data →
      ∀ (ResourcesByName : List (String × ResourceObject)) (init : Bool),
        Registered ResourcesByName →
        (∀ obj, (FindOrCreateResource ResourcesByName init r a).1 = some obj →
          obj = { resourceName := r, m_authenticator := a }) ∧
        Registered (FindOrCreateResource ResourcesByName init r a).2) := by
  refine ⟨HashName_inj r a r2 a2, ?_, ?_⟩
  · intro g1 g2 h
    have hd := congrArg String.data h
    rw [Globus_HashName_data, Globus_HashName_data] at hd
    obtain ⟨e1, e2⟩ := split_unique '#' _ _ _ _ (List.append_cancel_left hd) g1 g2
    exact ⟨String.ext e1, String.ext e2⟩
  · intro hr reg init hreg
    cases hg : Assoc.get reg (HashName r a) with
    | none =>
      rw [FindOrCreateResource_new reg init r a hg]
      by_cases hi : init = false
      · rw [if_pos hi]
        exact ⟨fun obj h => by simp at h, hreg⟩
      · rw [if_neg hi]
        refine ⟨fun obj h => by simpa using h.symm, ?_⟩
        intro key o hk
        simp only at hk
        rw [Assoc.get_put] at hk
        by_cases he : HashName r a = key
        · rw [if_pos he] at hk
          cases hk
          exact ⟨he.symm, hr⟩
        · rw [if_neg he] at hk
          exact hreg key o hk
    | some resource =>
      rw [FindOrCreateResource_found reg init r a resource hg]
      refine ⟨?_, hreg⟩
      intro obj h
      simp only [Option.some.injEq] at h
      subst h
      obtain ⟨k1, k2⟩ := hreg _ _ hg
      obtain ⟨e1, e2⟩ := HashName_inj r a _ _ hr k2 k1
      cases resource
      simp only at e1 e2
      rw [e1, e2]

/-- Witness for C30: two services whose names have neither a space nor a `#`, with
authenticators that have both. -/
theorem HashName_injective_witness :
    (' ' ∉ "http://a/".data ∧ ' ' ∉ "http://b/".data ∧
      '#' ∉ "http://a/".data ∧ '#' ∉ "http://b/".data) ∧
    (HashName "http://a/" "key #1" = HashName "http://b/" "key #1" →
      "http://a/" = "http://b/" ∧ "key #1" = "key #1") ∧
    (Globus.HashName "http://a/" "key #1" = Globus.HashName "http://b/" "key #1" →
      "http://a/" = "http://b/" ∧ "key #1" = "key #1") ∧
    (FindOrCreateResource [] true "http://a/" "key #1").1 =
      some { resourceName := "http://a/", m_authenticator := "key #1" } :=
  ⟨⟨by decide, by decide, by decide, by decide⟩,
    (HashName_injective "http://a/" "key #1" "http://b/" "key #1").1 (by decide) (by decide),
    (HashName_injective "http://a/" "key #1" "http://b/" "key #1").2.1 (by decide)
      (by decide),
    by decide⟩

end Boinc

namespace Globus

/-! ## C9: a released job -/

/-- The function `promote` takes no job out of the queues. -/
theorem promote_present (s : GlobusResource) (job : GlobusJob) (h : ¬ s.absent job) :
    ¬ s.promote.absent job := by
  by_cases hc : s.canPromote
  · obtain ⟨q, hm | hm⟩ := promote_moves s hc
    · obtain ⟨m1, m2, m3, m4, _⟩ := hm
      intro ha
      apply h
      obtain ⟨a1, a2, a3, a4⟩ := ha
      rw [m2] at a1
      rw [m4] at a2
      refine ⟨?_, ?_, ?_, ?_⟩
      · exact fun e => a1 (List.mem_append_left _ e)
      · exact fun e => a2 (List.mem_append_left _ e)
      · rw [m1]
        simpa using a3
      · rw [m3]
        intro e
        rcases List.mem_append.mp e with e | e
        · exact a2 (List.mem_append_right _ e)
        · exact a4 e
    · obtain ⟨m1, m2, m3, m4, _⟩ := hm
      intro ha
      apply h
      obtain ⟨a1, a2, a3, a4⟩ := ha
      rw [m2] at a1
      rw [m4] at a2
      refine ⟨?_, ?_, ?_, ?_⟩
      · exact fun e => a1 (List.mem_append_left _ e)
      · exact fun e => a2 (List.mem_append_left _ e)
      · rw [m1]
        intro e
        rcases List.mem_append.mp e with e | e
        · exact a1 (List.mem_append_right _ e)
        · exact a3 e
      · rw [m3]
        simpa using a4
  · rw [promote_of_not_canPromote s hc]
    exact h

/-- C9 (amended: release removes the job).  In every limiter state reachable through
`RequestJM` and `JMComplete` calls: if the job does not hold an allowed slot of one kind
while it also holds or waits for a slot of the other kind, then after `JMComplete(job)` it
occurs in none of the four queues (this covers a job that holds one slot, waits in one
wanted queue, waits in both wanted queues, or is in no queue); and if it does hold a slot
of one kind together with a slot or a place in the wanted queue of the other kind, it still
occurs in a queue afterwards. -/
theorem release_removes_job (s : GlobusResource) (job : GlobusJob) (hreach : Reachable s) :
    (¬ s.twoKinds job → (s.JMComplete (some job)).absent job) ∧
    (s.twoKinds job → ¬ (s.JMComplete (some job)).absent job) := by
  obtain ⟨hs, hr⟩ := hreach.NoDup
  have hsa := (List.nodup_append.mp hs).1
  have hsw := (List.nodup_append.mp hs).2.1
  have hsd := (List.nodup_append.mp hs).2.2
  have hra := (List.nodup_append.mp hr).1
  have hrw := (List.nodup_append.mp hr).2.1
  have hrd := (List.nodup_append.mp hr).2.2
  unfold GlobusResource.twoKinds GlobusResource.inSubmit GlobusResource.inRestart
  constructor
  · intro hkind
    unfold GlobusResource.JMComplete GlobusResource.vacate
    by_cases h1 : job ∈ s.submitJMsAllowed
    · simp only [h1, if_true]
      apply promote_absent
      have k2 : job ∉ s.restartJMsAllowed := fun e => hkind (Or.inl ⟨h1, Or.inl e⟩)
      have k4 : job ∉ s.restartJMsWanted := fun e => hkind (Or.inl ⟨h1, Or.inr e⟩)
      have k3 : job ∉ s.submitJMsWanted := fun e => hsd h1 e
      exact ⟨by simp [hsa.mem_erase_iff], k2, k3, k4⟩
    · by_cases h2 : job ∈ s.restartJMsAllowed
      · simp only [h1, h2, if_false, if_true]
        apply promote_absent
        have k3 : job ∉ s.submitJMsWanted := fun e => hkind (Or.inr ⟨h2, Or.inr e⟩)
        have k4 : job ∉ s.restartJMsWanted := fun e => hrd h2 e
        exact ⟨h1, by simp [hra.mem_erase_iff], k3, k4⟩
      · simp only [h1, h2, if_false, Bool.false_eq_true]
        exact ⟨h1, h2, by simp [hsw.mem_erase_iff], by simp [hrw.mem_erase_iff]⟩
  · intro hkind
    unfold GlobusResource.JMComplete GlobusResource.vacate
    by_cases h1 : job ∈ s.submitJMsAllowed
    · simp only [h1, if_true]
      apply promote_present
      intro ha
      obtain ⟨_, a2, _, a4⟩ := ha
      rcases hkind with ⟨_, e | e⟩ | ⟨e, _⟩
      · exact a2 e
      · exact a4 e
      · exact a2 e
    · have h2 : job ∈ s.restartJMsAllowed := by
        rcases hkind with ⟨e, _⟩ | ⟨e, _⟩
        · exact absurd e h1
        · exact e
      have h3 : job ∈ s.submitJMsWanted := by
        rcases hkind with ⟨e, _⟩ | ⟨_, e | e⟩
        · exact absurd e h1
        · exact absurd e h1
        · exact e
      simp only [h1, h2, if_false, if_true]
      apply promote_present
      intro ha
      exact ha.2.2.1 h3

/-- Witness for C9: job 2 waits in both wanted queues and is released. -/
theorem release_removes_job_witness :
    (Reachable waitsTwiceExample ∧ ¬ waitsTwiceExample.twoKinds 2 ∧
      2 ∈ waitsTwiceExample.submitJMsWanted ∧ 2 ∈ waitsTwiceExample.restartJMsWanted) ∧
    (waitsTwiceExample.JMComplete (some 2)).absent 2 :=
  ⟨⟨Reachable.RequestJM _ 2 false
      (Reachable.RequestJM _ 2 true (Reachable.RequestJM _ 1 true (Reachable.empty 1 0))),
      by unfold GlobusResource.twoKinds GlobusResource.inSubmit GlobusResource.inRestart
         decide,
      by decide, by decide⟩,
    (release_removes_job waitsTwiceExample 2
      (Reachable.RequestJM _ 2 false
        (Reachable.RequestJM _ 2 true
          (Reachable.RequestJM _ 1 true (Reachable.empty 1 0))))).1
      (by unfold GlobusResource.twoKinds GlobusResource.inSubmit GlobusResource.inRestart
          decide)⟩

end Globus

/-! ## Scenario 1 in a state with older batches -/

namespace Boinc

end Boinc

namespace Boinc

end Boinc

namespace Boinc

end Boinc
